import Mathlib

/-!
# Luxhole backend: ranking cache, comment cache and commenter names

A shallow embedding of `pkg/base/sql.go` and `pkg/base/cache.go`.

* The system of record (MySQL through GORM) is a record of tables, each a list of
  rows; a query is the list function its SQL text denotes.
* The auxiliary store (Redis) is a sorted set (member to score) and a key/value
  cache, both association lists.
* Every store command whose reply the Go code inspects takes the reply as an
  argument of type `Reply`: `none` means the command is carried out, `some msg`
  means it fails with the error `Error.other msg` and changes nothing.  A
  command whose reply the code throws away (`ZRem`) is carried out.
* `float64` is the field of rationals; integer columns are integers.
* `log.Printf` and the detached push-service goroutine have no effect on the
  modelled state and are left out.
-/

namespace Luxhole

/-! ## Errors -/

/-- Go `error` values that the code tells apart. -/
inductive Error where
  | ErrRecordNotFound
  | ErrCacheMiss
  | other (msg : String)
  deriving DecidableEq, Repr

/-- What a store answers to one command: `none` when the command is carried out,
`some msg` when it fails (connection lost, timeout, constraint violated). -/
abbrev Reply := Option String

/-! ## `time.Time` -/

/-- An instant (`unixNano`, nanoseconds since the Unix epoch) read in a location
with a fixed offset (`zoneOffset`, seconds east of UTC). -/
structure Time where
  unixNano : Int
  zoneOffset : Int
  deriving DecidableEq, Repr

/-- Nanoseconds in a second. -/
def nsPerSecond : Int := 1000000000

/-- Nanoseconds in a calendar day of a location without offset transitions. -/
def nsPerDay : Int := 86400 * nsPerSecond

/-- Go `t.Unix()`: whole seconds since the epoch. -/
def Time.Unix (t : Time) : Int := t.unixNano / nsPerSecond

/-- Go `t.Before(u)`. -/
def Time.Before (t u : Time) : Bool := decide (t.unixNano < u.unixNano)

/-- Go `t.AddDate(0, 0, days)`: the same wall-clock reading `days` calendar days
later, converted back to an instant in the location of `t`. -/
def Time.AddDays (t : Time) (days : Int) : Time :=
  let wall := t.unixNano + t.zoneOffset * nsPerSecond
  let wall2 := wall + days * nsPerDay
  { unixNano := wall2 - t.zoneOffset * nsPerSecond, zoneOffset := t.zoneOffset }

/-! ## `strconv.Itoa` -/

/-- The character of a decimal digit. -/
def digitChar (d : Nat) : Char := Char.ofNat (48 + d)

/-- Decimal digits of `n`, most significant first (`fuel` bounds the length). -/
def formatDigits : Nat → Nat → List Char
  | 0, _ => []
  | fuel + 1, n =>
    if n < 10 then [digitChar n] else formatDigits fuel (n / 10) ++ [digitChar (n % 10)]

/-- Go `strconv.Itoa`: the decimal text of an integer. -/
def Itoa (i : Int) : String :=
  if i < 0 then String.mk ('-' :: formatDigits (i.natAbs + 1) i.natAbs)
  else String.mk (formatDigits (i.natAbs + 1) i.natAbs)

/-- Value of a list of decimal digit characters. -/
def digitsValue (cs : List Char) : Nat :=
  cs.foldl (fun acc c => acc * 10 + (c.toNat - 48)) 0

/-- Reads back what `Itoa` wrote. -/
def decimalValue (s : String) : Int :=
  match s.data with
  | '-' :: cs => - (digitsValue cs : Int)
  | cs => (digitsValue cs : Int)

/-! ## Machine numbers -/

/-- Go arithmetic on `int` (taken as 64 bits wide) and `int64`: the value that
is congruent modulo 2^64 and lies between -2^63 and 2^63 - 1. -/
def wrapInt64 (n : Int) : Int :=
  (n + 9223372036854775808) % 18446744073709551616 - 9223372036854775808

/-- Go conversion `int32(n)`: the value that is congruent modulo 2^32 and lies
between -2^31 and 2^31 - 1. -/
def wrapInt32 (n : Int) : Int := (n + 2147483648) % 4294967296 - 2147483648

/-- Number of binary digits of `n` (`fuel` bounds the number of digits). -/
def binaryDigits : Nat → Nat → Nat
  | 0, _ => 0
  | fuel + 1, n => if n = 0 then 0 else binaryDigits fuel (n / 2) + 1

/-- The binary exponent of a positive rational `q`: the `e` with
`2^e ≤ q < 2^(e+1)`. -/
def binaryExponent (q : ℚ) : Int :=
  if (2 : ℚ) ^ ((binaryDigits q.num.natAbs q.num.natAbs : Int) - (binaryDigits q.den q.den : Int))
      ≤ q
  then (binaryDigits q.num.natAbs q.num.natAbs : Int) - (binaryDigits q.den q.den : Int)
  else (binaryDigits q.num.natAbs q.num.natAbs : Int) - (binaryDigits q.den q.den : Int) - 1

/-- The integer nearest to `q`, the even one of the two when `q` lies halfway
between two integers. -/
def roundHalfEven (q : ℚ) : Int :=
  if q - (⌊q⌋ : ℚ) < 1 / 2 then ⌊q⌋
  else if q - (⌊q⌋ : ℚ) > 1 / 2 then ⌊q⌋ + 1
  else if ⌊q⌋ % 2 = 0 then ⌊q⌋ else ⌊q⌋ + 1

/-- IEEE 754 rounding of a real result to a `float64`: 53 binary digits, to the
nearest value, ties to even.  The exponent is not bounded: the values that
arise here from 64 bit integers are far from the thresholds of overflow and
underflow.  A `float64` is the rational number it stands for. -/
def roundFloat64 (q : ℚ) : ℚ :=
  if q = 0 then 0
  else
    (if q < 0 then -1 else 1) *
      ((roundHalfEven (|q| / (2 : ℚ) ^ (binaryExponent |q| - 52)) : Int) : ℚ) *
      (2 : ℚ) ^ (binaryExponent |q| - 52)

/-- Go conversion `float64(n)` of an integer. -/
def toFloat64 (n : Int) : ℚ := roundFloat64 (n : ℚ)

/-- Modelled from the spec: the Go type of the counter columns `like_num`,
`reply_num` and `report_num` of `Post`, which is declared outside the files at
hand.  It is taken to be `int32`, the type the code gives the post ids:
`asCounter n` is the value an integer result `n` takes in that type. -/
def asCounter (n : Int) : Int := wrapInt32 n

/-! ## Rows of the system of record -/

/-- Modelled from the spec: the row type `Post`, declared outside the files at
hand.  The columns are those of the spec's data model (`id`, `created_at`,
`like_num`, `reply_num`, `report_num`, `distinct_commenter_count`) with the owner
`UserID`; `Deleted` is `DeletedAt.Valid` of the soft delete. -/
structure Post where
  ID : Int
  CreatedAt : Time
  Deleted : Bool
  UserID : Int
  LikeNum : Int
  ReplyNum : Int
  ReportNum : Int
  DistinctCommenterCount : Int
  deriving DecidableEq, Repr

/-- Modelled from the spec: the row type `Comment`, declared outside the files at
hand, with the fields `SaveComment` fills (`Typ` is the Go field `Type`);
`Deleted` is `DeletedAt.Valid` of the soft delete. -/
structure Comment where
  ID : Int
  Deleted : Bool
  Tag : String
  UserID : Int
  PostID : Int
  ReplyTo : Int
  Text : String
  Typ : String
  FilePath : String
  Name : String
  FileMetadata : String
  deriving DecidableEq, Repr

/-- Modelled from the spec: the row type `PostCommenter`, declared outside the
files at hand: the mapping of a commenter on a post to a name. -/
structure PostCommenter where
  PostID : Int
  UserID : Int
  CommenterName : String
  deriving DecidableEq, Repr

/-- Modelled from the spec: the row type `Report`, declared outside the files at
hand; the fields `DeleteByReport` reads. -/
structure Report where
  IsComment : Bool
  PostID : Int
  CommentID : Int
  deriving DecidableEq, Repr

/-- The tables of the system of record. -/
structure Db where
  posts : List Post
  comments : List Comment
  postCommenters : List PostCommenter
  deriving DecidableEq, Repr

/-! ## The auxiliary store -/

/-- A sorted set: members with their scores. -/
abbrev ZSet := List (String × ℚ)

/-- Redis `ZSCORE`. -/
def ZSet.score (z : ZSet) (member : String) : Option ℚ :=
  (z.find? (fun e => e.1 = member)).map Prod.snd

/-- Redis `ZREM`. -/
def ZSet.rem (z : ZSet) (member : String) : ZSet :=
  z.filter (fun e => e.1 ≠ member)

/-- Redis `ZADD`: insert the member or overwrite its score. -/
def ZSet.add (z : ZSet) (member : String) (score : ℚ) : ZSet :=
  (member, score) :: z.filter (fun e => e.1 ≠ member)

/-- Go `cache.Item`: a key, the cached comments and the time to live (nanoseconds). -/
structure CacheItem where
  Key : String
  Value : List Comment
  TTL : Int
  deriving DecidableEq, Repr

/-- The key/value store behind `commentCache`. -/
abbrev Cache := List CacheItem

/-- The entry stored under a key. -/
def Cache.lookup (c : Cache) (key : String) : Option (List Comment) :=
  (c.find? (fun it => it.Key = key)).map CacheItem.Value

/-- The item stored under a key, if there is one. -/
def Cache.item (c : Cache) (key : String) : Option CacheItem :=
  c.find? (fun it => it.Key = key)

/-- Store an item, replacing what was under its key. -/
def Cache.store (c : Cache) (item : CacheItem) : Cache :=
  item :: c.filter (fun it => it.Key ≠ item.Key)

/-- Drop what is under a key. -/
def Cache.drop (c : Cache) (key : String) : Cache :=
  c.filter (fun it => it.Key ≠ key)

/-- The stores the code works on. -/
structure World where
  db : Db
  hotList : ZSet
  commentCache : Cache

/-! ## `pkg/base/cache.go` -/

/-- Constant `CommentCacheExpireTime = 5 * time.Hour`, a `time.Duration` in nanoseconds. -/
def CommentCacheExpireTime : Int := 5 * (3600 * nsPerSecond)

/-- Source `NeedCacheComment` (cache.go). -/
def NeedCacheComment (post : Post) (now : Time) : Bool :=
  now.Before (post.CreatedAt.AddDays 365)

/-- Go `commentCache.Get`: a failing command and an absent key both give an error. -/
def commentCacheGet (c : Cache) (reply : Reply) (key : String) :
    Except Error (List Comment) :=
  match reply with
  | some msg => .error (Error.other msg)
  | none =>
    match c.lookup key with
    | some comments => .ok comments
    | none => .error Error.ErrCacheMiss

/-- Go `commentCache.Set`. -/
def commentCacheSet (c : Cache) (reply : Reply) (item : CacheItem) :
    Option Error × Cache :=
  match reply with
  | some msg => (some (Error.other msg), c)
  | none => (none, c.store item)

/-- Go `commentCache.Delete`; deleting an absent key is no error. -/
def commentCacheDelete (c : Cache) (reply : Reply) (key : String) :
    Option Error × Cache :=
  match reply with
  | some msg => (some (Error.other msg), c)
  | none => (none, c.drop key)

/-- Source `DelCommentCache` (cache.go). -/
def DelCommentCache (c : Cache) (reply : Reply) (pid : Int) : Option Error × Cache :=
  commentCacheDelete c reply ("pid" ++ Itoa pid)

/-! ## Queries of `pkg/base/sql.go` -/

/-- SQL `ORDER BY id asc`. -/
def orderByIdAsc (cs : List Comment) : List Comment :=
  cs.insertionSort (fun a b => a.ID ≤ b.ID)

/-- Source `GetComments` (sql.go): all comments of a post, soft-deleted ones included, by id. -/
def GetComments (db : Db) (reply : Reply) (pid : Int) : List Comment × Option Error :=
  match reply with
  | some msg => ([], some (Error.other msg))
  | none => (orderByIdAsc (db.comments.filter (fun c => c.PostID = pid)), none)

/-- Source `GetMultipleComments` (sql.go): all comments of the posts in `pids`, by id. -/
def GetMultipleComments (db : Db) (reply : Reply) (pids : List Int) :
    List Comment × Option Error :=
  match reply with
  | some msg => ([], some (Error.other msg))
  | none => (orderByIdAsc (db.comments.filter (fun c => c.PostID ∈ pids)), none)

/-- GORM `tx.First(&post, postID)`: the live row with that primary key. -/
def firstPost (db : Db) (reply : Reply) (postID : Int) : Except Error Post :=
  match reply with
  | some msg => .error (Error.other msg)
  | none =>
    match db.posts.find? (fun p => p.ID = postID ∧ p.Deleted = false) with
    | some p => .ok p
    | none => .error Error.ErrRecordNotFound

/-! ## Go maps keyed by a post id -/

/-- A Go `map[int32]V`: at most one binding per key. -/
abbrev GoMap (ν : Type) := List (Int × ν)

/-- The two-valued read `v, ok := m[k]`. -/
def GoMap.get {ν : Type} (m : GoMap ν) (k : Int) : Option ν :=
  (m.find? (fun e => e.1 = k)).map Prod.snd

/-- The assignment `m[k] = v`. -/
def GoMap.set {ν : Type} (m : GoMap ν) (k : Int) (v : ν) : GoMap ν :=
  (k, v) :: m.filter (fun e => e.1 ≠ k)

/-- The keys of the map. -/
def GoMap.keys {ν : Type} (m : GoMap ν) : List Int := m.map Prod.fst

/-! ## Reading comments through the cache -/

/-- What one run of `GetCommentsWithCache` returns and does. -/
structure SingleRead where
  comments : List Comment
  err : Option Error
  queried : List Int
  sets : List CacheItem
  cache : Cache

/-- Source `GetCommentsWithCache` (cache.go).  `getReply`, `queryReply` and `setReply` are the
replies to `commentCache.Get`, to the query of `GetComments` and to
`commentCache.Set`. -/
def GetCommentsWithCache (db : Db) (cache : Cache) (getReply queryReply setReply : Reply)
    (post : Post) (now : Time) : SingleRead :=
  let pid := post.ID
  if !NeedCacheComment post now then
    let r := GetComments db queryReply pid
    { comments := r.1, err := r.2, queried := [pid], sets := [], cache := cache }
  else
    let pidStr := Itoa pid
    match commentCacheGet cache getReply ("pid" ++ pidStr) with
    | .ok comments =>
      { comments := comments, err := none, queried := [], sets := [], cache := cache }
    | .error _ =>
      let r := GetComments db queryReply pid
      match r.2 with
      | none =>
        let item : CacheItem :=
          { Key := "pid" ++ pidStr, Value := r.1, TTL := CommentCacheExpireTime }
        let w := commentCacheSet cache setReply item
        { comments := r.1, err := w.1, queried := [pid], sets := [item], cache := w.2 }
      | some e =>
        { comments := r.1, err := some e, queried := [pid], sets := [], cache := cache }

/-- Modelled from the spec: `logger.InternalError`, declared outside the files at
hand, as built by `logger.NewError(err, code, _)`: the error and its code. -/
structure InternalError where
  Err : Error
  InternalCode : String
  deriving DecidableEq, Repr

/-- State of the first loop of `GetMultipleCommentsWithCache`. -/
structure Partition where
  rtn : GoMap (List Comment)
  noCachePidsArray : List Int

/-- One round of the first loop: a post is answered from the cache or put on the
list to read from the system of record. -/
def partitionStep (cache : Cache) (getReply : String → Reply) (now : Time)
    (st : Partition) (post : Post) : Partition :=
  let pid := post.ID
  if !NeedCacheComment post now then
    { st with noCachePidsArray := st.noCachePidsArray ++ [pid] }
  else
    let pidStr := Itoa pid
    match commentCacheGet cache (getReply ("pid" ++ pidStr)) ("pid" ++ pidStr) with
    | .ok comments => { st with rtn := st.rtn.set pid comments }
    | .error _ => { st with noCachePidsArray := st.noCachePidsArray ++ [pid] }

/-- The loop `commentsMap[comment.PostID] = append(commentsMap[comment.PostID], comment)`. -/
def groupByPost (commentsFromDB : List Comment) : GoMap (List Comment) :=
  commentsFromDB.foldl
    (fun m comment => m.set comment.PostID ((m.get comment.PostID).getD [] ++ [comment])) []

/-- The loop `postMap[p.ID] = p`. -/
def buildPostMap (posts : List Post) : GoMap Post :=
  posts.foldl (fun m p => m.set p.ID p) []

/-- State of the last loop of `GetMultipleCommentsWithCache`. -/
structure Merge where
  rtn : GoMap (List Comment)
  sets : List CacheItem
  cache : Cache

/-- One round of the last loop: put the comments read for `pid` into the result
and, when the post is to be cached, write them to the cache. -/
def mergeStep (posts : List Post) (now : Time) (commentsMap : GoMap (List Comment))
    (setReply : String → Reply) (st : Merge) (pid : Int) : Merge :=
  let commentsForPid : List Comment :=
    match commentsMap.get pid with
    | some cs => cs
    | none => []
  let rtn := st.rtn.set pid commentsForPid
  let postMap := buildPostMap posts
  match postMap.get pid with
  | some p =>
    if NeedCacheComment p now then
      let item : CacheItem :=
        { Key := "pid" ++ Itoa pid, Value := commentsForPid, TTL := CommentCacheExpireTime }
      let w := commentCacheSet st.cache (setReply item.Key) item
      { rtn := rtn, sets := st.sets ++ [item], cache := w.2 }
    else { st with rtn := rtn }
  | none => { st with rtn := rtn }

/-- What one run of `GetMultipleCommentsWithCache` returns and does. -/
structure BatchRead where
  result : Except InternalError (GoMap (List Comment))
  queries : List (List Int)
  sets : List CacheItem
  cache : Cache

/-- Source `GetMultipleCommentsWithCache` (cache.go).  `getReply` and `setReply` give the replies to
`commentCache.Get` and `commentCache.Set` by key, `queryReply` the reply to the
query of `GetMultipleComments`. -/
def GetMultipleCommentsWithCache (db : Db) (cache : Cache) (getReply : String → Reply)
    (queryReply : Reply) (setReply : String → Reply)
    (posts : List Post) (now : Time) : BatchRead :=
  let st := posts.foldl (partitionStep cache getReply now) { rtn := [], noCachePidsArray := [] }
  if st.noCachePidsArray.length > 0 then
    let r := GetMultipleComments db queryReply st.noCachePidsArray
    match r.2 with
    | some e =>
      { result := .error { Err := e, InternalCode := "SQLGetMultipleCommentsFailed" },
        queries := [st.noCachePidsArray], sets := [], cache := cache }
    | none =>
      let commentsMap := groupByPost r.1
      let m := st.noCachePidsArray.foldl (mergeStep posts now commentsMap setReply)
        { rtn := st.rtn, sets := [], cache := cache }
      { result := .ok m.rtn, queries := [st.noCachePidsArray], sets := m.sets, cache := m.cache }
  else
    { result := .ok st.rtn, queries := [], sets := [], cache := cache }

/-! ## The ranking set -/

/-- Constant `HotListKey`; it names the one sorted set, `World.hotList`. -/
def HotListKey : String := "webhole:hot_list:zset"

/-- Source `ComputeScore` (sql.go):
`float64(post.LikeNum*3+post.ReplyNum) + float64(post.CreatedAt.Unix())/1800.0 - float64(post.ReportNum*10)`.
The integer results are taken in the type of the columns, and the division,
the sum and the difference are each rounded to a `float64`. -/
def ComputeScore (post : Post) : ℚ :=
  roundFloat64
    (roundFloat64
        (toFloat64 (asCounter (asCounter (post.LikeNum * 3) + post.ReplyNum)) +
          roundFloat64 (toFloat64 post.CreatedAt.Unix / 1800))
      - toFloat64 (asCounter (post.ReportNum * 10)))

/-- Source `UpdateHotListScore` (sql.go).  `firstReply` is the reply to `tx.First`,
`zremReply` the reply to `ZRem`, which the code does not look at, `zaddReply`
the reply to `ZAdd`. -/
def UpdateHotListScore (w : World) (firstReply zremReply zaddReply : Reply) (postID : Int) :
    Option Error × World :=
  match firstPost w.db firstReply postID with
  | .error err =>
    if err = Error.ErrRecordNotFound then
      match zremReply with
      | some _ => (none, w)
      | none => (none, { w with hotList := w.hotList.rem (Itoa postID) })
    else (some err, w)
  | .ok post =>
    let score := ComputeScore post
    match zaddReply with
    | some msg => (some (Error.other msg), w)
    | none => (none, { w with hotList := w.hotList.add (Itoa postID) score })

/-! ## Writes of `pkg/base/sql.go` -/

/-- Source `SaveComment` (sql.go).  `saveReply` is the reply to `tx.Save`, `newID` the id the
table assigns to the row, `delReply` the reply to the cache delete. -/
def SaveComment (w : World) (saveReply delReply : Reply) (newID : Int)
    (uid : Int) (text tag typ filePath : String) (pid replyTo : Int) (name metaStr : String) :
    (Int × Option Error) × World :=
  let comment : Comment :=
    { ID := 0, Deleted := false, Tag := tag, UserID := uid, PostID := pid, ReplyTo := replyTo,
      Text := text, Typ := typ, FilePath := filePath, Name := name, FileMetadata := metaStr }
  match saveReply with
  | some msg => ((comment.ID, some (Error.other msg)), w)
  | none =>
    let saved := { comment with ID := newID }
    let db := { w.db with comments := w.db.comments ++ [saved] }
    let d := DelCommentCache w.commentCache delReply pid
    ((saved.ID, d.1), { w with db := db, commentCache := d.2 })

/-- What `GenCommenterName` is told by the store: the replies to the mapping
lookup, the locking read of the post, the insert and the counter update. -/
structure NameReplies where
  lookup : Reply
  lock : Reply
  create : Reply
  update : Reply

/-- Source `GenCommenterName` (sql.go).  `DzName` is `consts.DzName` and `GetCommenterName` is
`utils.GetCommenterName`, both declared outside the files at hand. -/
def GenCommenterName (DzName : String) (GetCommenterName : Int → List String → List String → String)
    (db : Db) (replies : NameReplies) (dzUserID czUserID postID : Int)
    (names0 names1 : List String) : (String × Option Error) × Db :=
  if dzUserID = czUserID then ((DzName, none), db)
  else
    let found : Except Error PostCommenter :=
      match replies.lookup with
      | some msg => .error (Error.other msg)
      | none =>
        match db.postCommenters.find? (fun m => m.PostID = postID ∧ m.UserID = czUserID) with
        | some m => .ok m
        | none => .error Error.ErrRecordNotFound
    match found with
    | .ok mapping => ((mapping.CommenterName, none), db)
    | .error err =>
      if err ≠ Error.ErrRecordNotFound then (("", some err), db)
      else
        match firstPost db replies.lock postID with
        | .error e => (("", some e), db)
        | .ok post =>
          let newCount := post.DistinctCommenterCount + 1
          let newName := GetCommenterName newCount names0 names1
          let newMapping : PostCommenter :=
            { PostID := postID, UserID := czUserID, CommenterName := newName }
          match replies.create with
          | some msg => (("", some (Error.other msg)), db)
          | none =>
            let db1 := { db with postCommenters := db.postCommenters ++ [newMapping] }
            match replies.update with
            | some msg => (("", some (Error.other msg)), db1)
            | none =>
              let db2 := { db1 with posts := db1.posts.map (fun p =>
                if p.ID = post.ID ∧ p.Deleted = false
                then { p with DistinctCommenterCount := newCount } else p) }
              ((newName, none), db2)

/-- What `DeleteByReport` is told by the stores: the replies to the delete, to
the `reply_num` update, to the read and the `ZAdd` of `UpdateHotListScore`, to
the `ZRem` (the one of `UpdateHotListScore` for a comment, the one of
`DeleteByReport` itself for a post) and to the cache delete. -/
structure DeleteReplies where
  delete : Reply
  update : Reply
  first : Reply
  zadd : Reply
  zrem : Reply
  cacheDelete : Reply

/-- Source `DeleteByReport` (sql.go).  The reply to the `ZRem` of a deleted post
is not looked at: the delete returns no error whether or not the entry was
removed. -/
def DeleteByReport (w : World) (replies : DeleteReplies) (report : Report) :
    Option Error × World :=
  if report.IsComment then
    match replies.delete with
    | some msg => (some (Error.other msg), w)
    | none =>
      let db1 := { w.db with comments := w.db.comments.map (fun c =>
        if c.ID = report.CommentID ∧ c.Deleted = false then { c with Deleted := true } else c) }
      match replies.update with
      | some msg => (some (Error.other msg), { w with db := db1 })
      | none =>
        let db2 := { db1 with posts := db1.posts.map (fun p =>
          if p.ID = report.PostID ∧ p.Deleted = false
          then { p with ReplyNum := p.ReplyNum - 1 } else p) }
        let u := UpdateHotListScore { w with db := db2 } replies.first replies.zrem replies.zadd
          report.PostID
        let d := DelCommentCache u.2.commentCache replies.cacheDelete report.PostID
        (d.1, { u.2 with commentCache := d.2 })
  else
    match replies.delete with
    | some msg => (some (Error.other msg), w)
    | none =>
      let db1 := { w.db with posts := w.db.posts.map (fun p =>
        if p.ID = report.PostID ∧ p.Deleted = false then { p with Deleted := true } else p) }
      match replies.zrem with
      | some _ => (none, { w with db := db1 })
      | none => (none, { w with db := db1, hotList := w.hotList.rem (Itoa report.PostID) })

/-! ## Example data: a ranked post -/

/-- Post 7: 2 likes, 5 replies, 1 report, created one hour after the epoch. -/
def demoPost : Post :=
  { ID := 7, CreatedAt := { unixNano := 3600000000000, zoneOffset := 0 }, Deleted := false,
    UserID := 1, LikeNum := 2, ReplyNum := 5, ReportNum := 1, DistinctCommenterCount := 0 }

/-- A world holding post 7, ranked with a stale score, and post 8's ranking entry. -/
def demoWorld : World :=
  { db := { posts := [demoPost], comments := [], postCommenters := [] },
    hotList := [("8", 4), ("7", 1)], commentCache := [] }

/-! ## The batch read: what each loop computes -/

/-- What `commentCache.Get` hands over for a post id: the cached comments, or
nothing when the command fails or the key is absent. -/
def cacheAnswer (cache : Cache) (getReply : String → Reply) (pid : Int) :
    Option (List Comment) :=
  match commentCacheGet cache (getReply ("pid" ++ Itoa pid)) ("pid" ++ Itoa pid) with
  | .ok comments => some comments
  | .error _ => none

/-- The post is cache-eligible and its read of the cache hits. -/
def isEligibleHit (cache : Cache) (getReply : String → Reply) (now : Time) (p : Post) : Bool :=
  NeedCacheComment p now && (cacheAnswer cache getReply p.ID).isSome

/-- The post is cache-eligible and its read of the cache misses. -/
def isEligibleMiss (cache : Cache) (getReply : String → Reply) (now : Time) (p : Post) : Bool :=
  NeedCacheComment p now && (cacheAnswer cache getReply p.ID).isNone

/-- The post is not cache-eligible. -/
def isIneligible (now : Time) (p : Post) : Bool := !NeedCacheComment p now

/-- The ids the first loop puts on the list to read from the system of record. -/
def idsToQuery (cache : Cache) (getReply : String → Reply) (now : Time) (posts : List Post) :
    List Int :=
  (posts.filter (fun p => !isEligibleHit cache getReply now p)).map Post.ID

/-- The comments the last loop takes for a post id out of the grouped query result. -/
def commentsOf (commentsMap : GoMap (List Comment)) (pid : Int) : List Comment :=
  match commentsMap.get pid with
  | some cs => cs
  | none => []

/-- Whether the last loop finds the post id in `postMap` with a cache-eligible post. -/
def shouldCache (posts : List Post) (now : Time) (pid : Int) : Bool :=
  match (buildPostMap posts).get pid with
  | some p => NeedCacheComment p now
  | none => false

/-- The cache item the last loop builds for a post id. -/
def itemFor (commentsMap : GoMap (List Comment)) (pid : Int) : CacheItem :=
  { Key := "pid" ++ Itoa pid, Value := commentsOf commentsMap pid, TTL := CommentCacheExpireTime }

/-! ### Scenario: post 1 eligible and cached, post 2 eligible and not cached,
post 3 too old to be cached -/

/-- A comment with the given id, post and text. -/
def demoComment (id pid : Int) (text : String) : Comment :=
  { ID := id, Deleted := false, Tag := "", UserID := 9, PostID := pid, ReplyTo := 0,
    Text := text, Typ := "text", FilePath := "", Name := "Alice", FileMetadata := "" }

/-- A post with the given id, created on the given day after the epoch. -/
def demoPostOn (id day : Int) : Post :=
  { ID := id, CreatedAt := { unixNano := day * nsPerDay, zoneOffset := 28800 }, Deleted := false,
    UserID := 1, LikeNum := 0, ReplyNum := 0, ReportNum := 0, DistinctCommenterCount := 0 }

/-- Posts 1 and 2 are two and three days old, post 3 is 399 days old. -/
def demoPosts : List Post := [demoPostOn 1 398, demoPostOn 2 397, demoPostOn 3 1]

/-- Day 400 after the epoch. -/
def demoNow : Time := { unixNano := 400 * nsPerDay, zoneOffset := 28800 }

/-- Post 1 has one comment, post 3 has two, post 2 has none. -/
def demoDb : Db :=
  { posts := demoPosts,
    comments := [demoComment 12 3 "c", demoComment 10 1 "a", demoComment 11 3 "b"],
    postCommenters := [] }

/-- The cache holds the comments of post 1 only. -/
def demoCache : Cache :=
  [{ Key := "pid1", Value := [demoComment 10 1 "a"], TTL := CommentCacheExpireTime }]

/-- The map the batch read returns in the scenario. -/
def demoRtn : GoMap (List Comment) :=
  [(3, [demoComment 11 3 "b", demoComment 12 3 "c"]), (2, []), (1, [demoComment 10 1 "a"])]

/-! ## Example data: cached comment lists -/

/-- A world with the scenario's tables and cached comment lists for posts 1 and 3. -/
def demoCachedWorld : World :=
  { db := demoDb, hotList := [],
    commentCache :=
      [{ Key := "pid1", Value := [demoComment 10 1 "a"], TTL := CommentCacheExpireTime },
       { Key := "pid3", Value := [demoComment 11 3 "b", demoComment 12 3 "c"],
         TTL := CommentCacheExpireTime }] }

/-! ## Commenter names -/

/-- The mapping of a commenter on a post, as the lookup of `GenCommenterName` finds it. -/
def findMapping (db : Db) (postID czUserID : Int) : Option PostCommenter :=
  db.postCommenters.find? (fun m => m.PostID = postID ∧ m.UserID = czUserID)

/-- The tables after a first-time allocation on `post` for user `czUserID`. -/
def allocated (db : Db) (post : Post) (postID czUserID : Int) (newName : String) : Db :=
  { posts := db.posts.map (fun p =>
      if p.ID = post.ID ∧ p.Deleted = false
      then { p with DistinctCommenterCount := post.DistinctCommenterCount + 1 } else p),
    comments := db.comments,
    postCommenters := db.postCommenters ++
      [{ PostID := postID, UserID := czUserID, CommenterName := newName }] }

/-- The scheme of names used in the examples: the count written in decimal. -/
def demoNames (count : Int) (_names0 _names1 : List String) : String := "No." ++ Itoa count

/-- Post 42 of user 1 with no commenter yet. -/
def demoNameDb : Db :=
  { posts := [{ ID := 42, CreatedAt := { unixNano := 0, zoneOffset := 0 }, Deleted := false,
                UserID := 1, LikeNum := 0, ReplyNum := 0, ReportNum := 0,
                DistinctCommenterCount := 0 }],
    comments := [], postCommenters := [] }

/-- Replies of a store that carries out every command. -/
def allCarriedOut : NameReplies :=
  { lookup := none, lock := none, create := none, update := none }

/-! ### Stability of a name -/

/-- One call of `GenCommenterName`: its arguments and the replies of the store. -/
structure NameCall where
  replies : NameReplies
  dzUserID : Int
  czUserID : Int
  postID : Int
  names0 : List String
  names1 : List String

/-- The tables after a sequence of calls of `GenCommenterName`, each working on
what the one before left. -/
def runNameCalls (DzName : String)
    (GetCommenterName : Int → List String → List String → String) (db : Db)
    (calls : List NameCall) : Db :=
  calls.foldl (fun d c =>
    (GenCommenterName DzName GetCommenterName d c.replies c.dzUserID c.czUserID c.postID
      c.names0 c.names1).2) db

/-- The number of mappings of one commenter on one post. -/
def pairCount (db : Db) (postID czUserID : Int) : Nat :=
  (db.postCommenters.filter (fun m => m.PostID = postID ∧ m.UserID = czUserID)).length

/-- The calls of users 6 and 7 on post 42. -/
def demoBetween : List NameCall :=
  [{ replies := allCarriedOut, dzUserID := 1, czUserID := 6, postID := 42,
     names0 := [], names1 := [] },
   { replies := allCarriedOut, dzUserID := 1, czUserID := 7, postID := 42,
     names0 := [], names1 := [] }]

/-! ## Two first-time commenters, and failed allocations -/

/-- Modelled from the spec: the transaction that encloses a call of
`GenCommenterName` in its caller, which is not among the files at hand
("propagate to caller, enclosing transaction rolled back"): when the call
returns an error the tables are those before the call, otherwise those the
call left. -/
def GenCommenterNameInTransaction (DzName : String)
    (GetCommenterName : Int → List String → List String → String)
    (db : Db) (replies : NameReplies) (dzUserID czUserID postID : Int)
    (names0 names1 : List String) : (String × Option Error) × Db :=
  let r := GenCommenterName DzName GetCommenterName db replies dzUserID czUserID postID
    names0 names1
  match r.1.2 with
  | some _ => (r.1, db)
  | none => r

/-! ## `pkg/queue`: tasks and their MessagePack encoding -/

/-- A Go byte string (`[]byte`, or a `string` seen as its bytes): the byte values. -/
abbrev Bytes := List Nat

/-- Source `Task` (queue.go); `Typ` is the Go field `Type`, a `TaskType` string
seen as its bytes. -/
structure Task where
  Typ : Bytes
  Payload : Bytes
  deriving DecidableEq, Repr

/-- The bytes of an ASCII string literal. -/
def asciiBytes (s : String) : Bytes := s.toList.map Char.toNat

/-- Constant `TaskSendEmail`. -/
def TaskSendEmail : Bytes := asciiBytes "email:send"

/-- Constant `TaskPushNotification`. -/
def TaskPushNotification : Bytes := asciiBytes "notification:push"

/-- The `width` bytes of `n`, most significant first (`n` modulo `256 ^ width`). -/
def bigEndian : Nat → Nat → Bytes
  | 0, _ => []
  | width + 1, n => (n / 256 ^ width) % 256 :: bigEndian width n

/-- The number a sequence of bytes stands for, most significant first. -/
def fromBigEndian : Bytes → Nat
  | [] => 0
  | b :: rest => b * 256 ^ rest.length + fromBigEndian rest

/-- MessagePack `str`, as `Encoder.EncodeString` writes it: fixstr below 32
bytes, then str 8, str 16 and str 32 (the length modulo `2 ^ 32`). -/
def encodeString (s : Bytes) : Bytes :=
  if s.length < 32 then (160 + s.length) :: s
  else if s.length < 256 then 217 :: (bigEndian 1 s.length ++ s)
  else if s.length ≤ 65535 then 218 :: (bigEndian 2 s.length ++ s)
  else 219 :: (bigEndian 4 s.length ++ s)

/-- MessagePack `bin`, as `Encoder.EncodeBytes` writes a byte slice: bin 8,
bin 16 and bin 32 (the length modulo `2 ^ 32`). -/
def encodeBytes (b : Bytes) : Bytes :=
  if b.length < 256 then 196 :: (bigEndian 1 b.length ++ b)
  else if b.length ≤ 65535 then 197 :: (bigEndian 2 b.length ++ b)
  else 198 :: (bigEndian 4 b.length ++ b)

/-- The key `"Type"` of the encoded struct. -/
def typeKey : Bytes := asciiBytes "Type"

/-- The key `"Payload"` of the encoded struct. -/
def payloadKey : Bytes := asciiBytes "Payload"

/-- Go `msgpack.Marshal(task)`: a struct is written as a map from its field
names, in the order of declaration, to its field values. -/
def marshalTask (task : Task) : Bytes :=
  130 :: (encodeString typeKey ++ encodeString task.Typ ++
    (encodeString payloadKey ++ encodeBytes task.Payload))

/-- Take `n` bytes off the input, or fail at its end. -/
def takeBytes (n : Nat) (input : Bytes) : Except Error (Bytes × Bytes) :=
  if n ≤ input.length then .ok (input.take n, input.drop n)
  else .error (Error.other "unexpected EOF")

/-- Take a length of `width` bytes and then that many bytes off the input. -/
def takeSized (width : Nat) (input : Bytes) : Except Error (Bytes × Bytes) :=
  match takeBytes width input with
  | .error e => .error e
  | .ok (len, rest) => takeBytes (fromBigEndian len) rest

/-- The decoder's read of a string or of bytes (`Decoder.bytesLen` and the read
of the body): nil, fixstr, str 8/16/32 and bin 8/16/32 are accepted for
either. -/
def decodeRaw (input : Bytes) : Except Error (Bytes × Bytes) :=
  match input with
  | [] => .error (Error.other "unexpected EOF")
  | code :: rest =>
    if code = 192 then .ok ([], rest)
    else if 160 ≤ code ∧ code ≤ 191 then takeBytes (code - 160) rest
    else if code = 217 ∨ code = 196 then takeSized 1 rest
    else if code = 218 ∨ code = 197 then takeSized 2 rest
    else if code = 219 ∨ code = 198 then takeSized 4 rest
    else .error (Error.other "msgpack: invalid code decoding bytes length")

/-- The decoder's read of the entries of a map into a `Task`: the value of the
key `Type` or `Payload` is read into the field.  Values of other keys, which
the library skips, are not decoded here: the decoder reports them. -/
def decodeFields : Nat → Task → Bytes → Except Error Task
  | 0, task, _ => .ok task
  | entries + 1, task, input =>
    match decodeRaw input with
    | .error e => .error e
    | .ok (key, rest) =>
      if key = typeKey then
        match decodeRaw rest with
        | .error e => .error e
        | .ok (v, rest2) => decodeFields entries { task with Typ := v } rest2
      else if key = payloadKey then
        match decodeRaw rest with
        | .error e => .error e
        | .ok (v, rest2) => decodeFields entries { task with Payload := v } rest2
      else .error (Error.other "msgpack: value of an unknown field")

/-- Go `msgpack.Unmarshal(data, &task)`: the map header (fixmap, map 16 or
map 32) and then the entries. -/
def unmarshalTask (data : Bytes) : Except Error Task :=
  match data with
  | [] => .error (Error.other "unexpected EOF")
  | code :: rest =>
    if 128 ≤ code ∧ code ≤ 143 then decodeFields (code - 128) { Typ := [], Payload := [] } rest
    else if code = 222 then
      match takeBytes 2 rest with
      | .error e => .error e
      | .ok (len, rest2) => decodeFields (fromBigEndian len) { Typ := [], Payload := [] } rest2
    else if code = 223 then
      match takeBytes 4 rest with
      | .error e => .error e
      | .ok (len, rest2) => decodeFields (fromBigEndian len) { Typ := [], Payload := [] } rest2
    else .error (Error.other "msgpack: invalid code decoding map length")

/-! ## `pkg/queue`: the immediate queue and the worker -/

/-- The sorted set `DelayedQueue`: serialized tasks with their due times. -/
abbrev DelayedSet := List (Bytes × ℚ)

/-- The lists and sets of the queue in the auxiliary store: the list
`DefaultQueue`, its head first, and the sorted set `DelayedQueue`. -/
structure Queues where
  defaultQueue : List Bytes
  delayedQueue : DelayedSet

/-- Source `Enqueue` (queue.go).  `marshalled` is what `msgpack.Marshal(payload)`
returns for the payload, `pushReply` the reply to `LPush`. -/
def Enqueue (q : Queues) (marshalled : Except Error Bytes) (pushReply : Reply)
    (taskType : Bytes) : Option Error × Queues :=
  match marshalled with
  | .error e => (some e, q)
  | .ok payloadBytes =>
    let task : Task := { Typ := taskType, Payload := payloadBytes }
    let taskBytes := marshalTask task
    match pushReply with
    | some msg => (some (Error.other msg), q)
    | none => (none, { q with defaultQueue := taskBytes :: q.defaultQueue })

/-- Redis `BRPOP` on a list that is not empty: the element at the tail and the
list without it.  On an empty list the command waits (`none`). -/
def BRPop (queue : List Bytes) : Option (Bytes × List Bytes) :=
  match queue.reverse with
  | [] => none
  | last :: before => some (last, before.reverse)

/-- The handlers `processTask` chooses between. -/
inductive Handler where
  | handleSendEmail
  | handlePushNotification
  deriving DecidableEq, Repr

/-- Source `processTask` (worker.go): the handler the payload is given to, or
the error for an unknown type. -/
def processTask (task : Task) : Except Error (Handler × Bytes) :=
  if task.Typ = TaskSendEmail then .ok (Handler.handleSendEmail, task.Payload)
  else if task.Typ = TaskPushNotification then .ok (Handler.handlePushNotification, task.Payload)
  else .error (Error.other "unknown task type")

/-- What the worker has done so far: the queue it leaves, the raw values it has
popped and the tasks it has decoded and handed to `processTask`, both oldest
first. -/
structure WorkerState where
  queues : Queues
  popped : List Bytes
  processed : List Task

/-- One round of the loop of `startDefaultQueueWorker`.  `popReply` is the reply
to `BRPop`: on an error the round sleeps and ends; a value that does not decode
is dropped. -/
def workerRound (popReply : Reply) (st : WorkerState) : WorkerState :=
  match popReply with
  | some _ => st
  | none =>
    match BRPop st.queues.defaultQueue with
    | none => st
    | some (value, remaining) =>
      let queues := { st.queues with defaultQueue := remaining }
      match unmarshalTask value with
      | .error _ => { queues := queues, popped := st.popped ++ [value], processed := st.processed }
      | .ok task =>
        { queues := queues, popped := st.popped ++ [value], processed := st.processed ++ [task] }

/-- One step of a run of producers and the worker. -/
inductive QueueEvent where
  | enqueue (taskType : Bytes) (marshalled : Except Error Bytes) (pushReply : Reply)
  | work (popReply : Reply)

/-- A run: each `enqueue` is a call of `Enqueue`, each `work` a round of the worker. -/
def runQueue (events : List QueueEvent) (st : WorkerState) : WorkerState :=
  events.foldl (fun s ev =>
    match ev with
    | .enqueue taskType marshalled pushReply =>
      { s with queues := (Enqueue s.queues marshalled pushReply taskType).2 }
    | .work popReply => workerRound popReply s) st

/-- The serialized tasks the calls of `Enqueue` in a run have pushed, oldest first. -/
def pushedBy (events : List QueueEvent) : List Bytes :=
  events.filterMap (fun ev =>
    match ev with
    | .enqueue taskType (.ok payloadBytes) none =>
      some (marshalTask { Typ := taskType, Payload := payloadBytes })
    | _ => none)

/-- The tasks the calls of `Enqueue` in a run have pushed, oldest first. -/
def tasksPushedBy (events : List QueueEvent) : List Task :=
  events.filterMap (fun ev =>
    match ev with
    | .enqueue taskType (.ok payloadBytes) none =>
      some { Typ := taskType, Payload := payloadBytes }
    | _ => none)

/-- The task a popped value decodes to, if it decodes. -/
def decodable (value : Bytes) : Option Task :=
  match unmarshalTask value with
  | .ok task => some task
  | .error _ => none

/-- A worker that has not popped anything, in front of an empty immediate queue. -/
def freshWorker (delayed : DelayedSet) : WorkerState :=
  { queues := { defaultQueue := [], delayedQueue := delayed }, popped := [], processed := [] }

/-- Whether every task a run submits has a type and a payload shorter than
`2 ^ 32` bytes (the store takes no value of 512 MB or more). -/
def sizesFit (events : List QueueEvent) : Bool :=
  events.all (fun ev =>
    match ev with
    | .enqueue taskType (.ok payloadBytes) _ =>
      decide (taskType.length < 2 ^ 32) && decide (payloadBytes.length < 2 ^ 32)
    | _ => true)

/-- A run of one producer: three tasks are enqueued, then the worker runs three rounds. -/
def demoRun : List QueueEvent :=
  [QueueEvent.enqueue TaskSendEmail (.ok [1]) none,
   QueueEvent.enqueue TaskPushNotification (.ok [2]) none,
   QueueEvent.enqueue TaskSendEmail (.ok [3]) none,
   QueueEvent.work none, QueueEvent.work none, QueueEvent.work none]

/-! ## `pkg/queue`: the delayed queue and its scheduler -/

/-- Go `t.Add(d)` for a duration of `d` nanoseconds. -/
def Time.Add (t : Time) (d : Int) : Time :=
  { unixNano := t.unixNano + d, zoneOffset := t.zoneOffset }

/-- Redis `ZADD` on the delayed set: insert the member or overwrite its score. -/
def DelayedSet.add (z : DelayedSet) (member : Bytes) (score : ℚ) : DelayedSet :=
  (member, score) :: z.filter (fun e => e.1 ≠ member)

/-- Redis `ZRANGEBYSCORE key -inf max`: the members with a score of at most
`max`, by ascending score and, at equal scores, by member. -/
def DelayedSet.rangeByScore (z : DelayedSet) (max : ℚ) : List Bytes :=
  ((z.filter (fun e => e.2 ≤ max)).insertionSort
    (fun a b => a.2 < b.2 ∨ (a.2 = b.2 ∧ ¬ b.1 < a.1))).map Prod.fst

/-- Redis `ZREM key members...`. -/
def DelayedSet.rem (z : DelayedSet) (members : List Bytes) : DelayedSet :=
  z.filter (fun e => e.1 ∉ members)

/-- Source `EnqueueWithDelay` (queue.go).  `now` is what `time.Now()` returns,
`delay` the duration in nanoseconds, `marshalled` what `msgpack.Marshal(payload)`
returns, `zaddReply` the reply to `ZAdd`. -/
def EnqueueWithDelay (q : Queues) (marshalled : Except Error Bytes) (zaddReply : Reply)
    (now : Time) (delay : Int) (taskType : Bytes) : Option Error × Queues :=
  match marshalled with
  | .error e => (some e, q)
  | .ok payloadBytes =>
    let task : Task := { Typ := taskType, Payload := payloadBytes }
    let taskBytes := marshalTask task
    let score : ℚ := (((now.Add delay).Unix : Int) : ℚ)
    match zaddReply with
    | some msg => (some (Error.other msg), q)
    | none => (none, { q with delayedQueue := q.delayedQueue.add taskBytes score })

/-- A command of the scheduler's pipeline. -/
inductive QueueCommand where
  | lpush (value : Bytes)
  | zrem (members : List Bytes)
  deriving DecidableEq, Repr

/-- What the store does on a command. -/
def QueueCommand.apply (cmd : QueueCommand) (q : Queues) : Queues :=
  match cmd with
  | .lpush value => { q with defaultQueue := value :: q.defaultQueue }
  | .zrem members => { q with delayedQueue := q.delayedQueue.rem members }

/-- The commands a tick puts into its pipeline for the due tasks: a push of
each, then one removal of all. -/
def pipelineOf (tasks : List Bytes) : List QueueCommand :=
  tasks.map QueueCommand.lpush ++ [QueueCommand.zrem tasks]

/-- The store carries out commands one after the other. -/
def runPipeline (cmds : List QueueCommand) (q : Queues) : Queues :=
  cmds.foldl (fun s cmd => cmd.apply s) q

/-- One tick of `startDelayedQueueScheduler` at the time `now`.  `rangeReply` is
the reply to `ZRangeByScore`; `carriedOut` is `none` when `Exec` returns without
error and `some k` when the connection is lost after the store has carried out
`k` commands of the pipeline (the error is logged). -/
def schedulerTick (q : Queues) (now : Time) (rangeReply : Reply) (carriedOut : Option Nat) :
    Queues :=
  match rangeReply with
  | some _ => q
  | none =>
    let tasks := q.delayedQueue.rangeByScore ((now.Unix : Int) : ℚ)
    if tasks.length = 0 then q
    else
      match carriedOut with
      | none => runPipeline (pipelineOf tasks) q
      | some k => runPipeline ((pipelineOf tasks).take k) q

/-- The store before the example: nothing queued. -/
def demoQueues : Queues := { defaultQueue := [], delayedQueue := [] }

/-- The serialized example task. -/
def demoTaskBytes : Bytes := marshalTask { Typ := TaskPushNotification, Payload := [147, 1, 2] }

/-- How often a value occurs in a list of values. -/
def occurrences (m : Bytes) (l : List Bytes) : Nat :=
  (l.filter (fun x => x = m)).length

/-- A delayed set with one task due at second 2 and one due at second 9. -/
def demoDelayed : Queues :=
  { defaultQueue := [], delayedQueue := [([9], 9), (demoTaskBytes, 2)] }

/-! ## Push notifications: `handlePushNotification` and `pkg/base/send_push.go` -/

/-- Source `PushNotificationPayload` (task.go). -/
structure PushNotificationPayload where
  PostID : Int
  CommenterUserID : Int
  CommentID : Int
  CommentText : String
  CommenterName : String
  ReplyToCommentID : Int
  deriving DecidableEq, Repr

/-- Modelled from the spec: the row type `Attention`, declared outside the files
at hand: a user who favorited (follows) a post. -/
structure Attention where
  UserID : Int
  PostID : Int
  deriving DecidableEq, Repr

/-- Modelled from the spec: the row type `PushSettings`, declared outside the
files at hand: the notification preference bitmask of a user. -/
structure PushSettings where
  UserID : Int
  Settings : Nat
  deriving DecidableEq, Repr

/-- Modelled from the spec: the row type `PushMessage`, declared outside the
files at hand, with the fields the handler fills (`Typ` is the Go field `Type`,
a set of notification classes; the primary key the table assigns is left
out). -/
structure PushMessage where
  Message : String
  Title : String
  PostID : Int
  CommentID : Int
  Typ : Nat
  UserID : Int
  UpdatedAt : Time
  DoPush : Bool
  deriving DecidableEq, Repr

/-- Modelled from the spec: the notification classes of package `model`, declared
outside the files at hand: the bit masks of the system-message, the reply and
the favorited class. -/
structure PushTypes where
  SystemMessage : Nat
  ReplyMeComment : Nat
  CommentInFavorited : Nat
  deriving DecidableEq, Repr

/-- The system of record as the push handler sees it: the tables of `Db` and the
tables `attentions`, `push_settings` and `push_messages`. -/
structure NotifyStore where
  db : Db
  attentions : List Attention
  pushSettings : List PushSettings
  pushMessages : List PushMessage
  deriving DecidableEq, Repr

/-- Source `PreProcessPushMessages` (send_push.go).  `reply` is the reply to the
query of the push settings; the messages are returned with `DoPush` set. -/
def PreProcessPushMessages (types : PushTypes) (table : List PushSettings) (reply : Reply)
    (msgs : List PushMessage) : Option Error × List PushMessage :=
  let userIDs := msgs.map (fun msg => msg.UserID)
  match reply with
  | some msg => (some (Error.other msg), msgs)
  | none =>
    let pushSettings := table.filter (fun s => s.UserID ∈ userIDs)
    let pushSettingsMap : GoMap PushSettings :=
      pushSettings.foldl (fun m s => m.set s.UserID s) []
    (none, msgs.map (fun msg =>
      match pushSettingsMap.get msg.UserID with
      | some s =>
        if (s.Settings &&& msg.Typ) > 0 then { msg with DoPush := true }
        else { msg with DoPush := false }
      | none =>
        if (msg.Typ &&& (types.SystemMessage ||| types.ReplyMeComment)) > 0
        then { msg with DoPush := true }
        else { msg with DoPush := false }))

/-- Source `SendToPushService` (send_push.go): the messages marked `DoPush` are
inserted into `push_messages`, unless there is none or the insert fails.
`reply` is the reply to `db.Create`. -/
def SendToPushService (table : List PushMessage) (reply : Reply) (msgs : List PushMessage) :
    List PushMessage :=
  let messagesToPush := msgs.filter (fun msg => msg.DoPush)
  if messagesToPush.length = 0 then table
  else
    match reply with
    | some _ => table
    | none => table ++ messagesToPush

/-- The message the handler builds for a recipient.  `TrimText` is
`utils.TrimText`, declared outside the files at hand; `now` is what `time.Now()`
returns. -/
def newPushMessage (TrimText : String → Nat → String) (payload : PushNotificationPayload)
    (post : Post) (now : Time) (typ : Nat) (userID : Int) : PushMessage :=
  { Message := TrimText payload.CommentText 100,
    Title := payload.CommenterName ++ "回复了树洞#" ++ Itoa post.ID,
    PostID := post.ID,
    CommentID := payload.CommentID,
    Typ := typ,
    UserID := userID,
    UpdatedAt := now,
    DoPush := false }

/-- One round of the loop over the attentions in `handlePushNotification`.
`clock n` is what `time.Now()` returns at the call that follows `n` earlier
ones in this run of the handler: there is one call for each message built. -/
def attentionStep (types : PushTypes) (TrimText : String → Nat → String)
    (payload : PushNotificationPayload) (post : Post) (clock : Nat → Time)
    (pushMessages : List PushMessage) (attention : Attention) : List PushMessage :=
  match pushMessages with
  | first :: others =>
    if attention.UserID = first.UserID then
      { first with Typ := first.Typ ||| types.CommentInFavorited } :: others
    else if attention.UserID ≠ payload.CommenterUserID then
      pushMessages ++
        [newPushMessage TrimText payload post (clock pushMessages.length)
          types.CommentInFavorited attention.UserID]
    else pushMessages
  | [] =>
    if attention.UserID ≠ payload.CommenterUserID then
      pushMessages ++
        [newPushMessage TrimText payload post (clock pushMessages.length)
          types.CommentInFavorited attention.UserID]
    else pushMessages

/-- The list of messages `handlePushNotification` assembles for the user that
is replied to and the attentions of the post. -/
def assembleMessages (types : PushTypes) (TrimText : String → Nat → String)
    (payload : PushNotificationPayload) (post : Post) (clock : Nat → Time) (replyToUserID : Int)
    (attentions : List Attention) : List PushMessage :=
  let pushMessages : List PushMessage :=
    if replyToUserID ≠ payload.CommenterUserID then
      [newPushMessage TrimText payload post (clock 0) types.ReplyMeComment replyToUserID]
    else []
  attentions.foldl (attentionStep types TrimText payload post clock) pushMessages

/-- The user the handler takes as replied to: the author of the post, or, when
the payload names a comment, the `UserID` of the live comment with that id on
the post, which is the zero value when there is no such comment (the error of
the lookup is not looked at). -/
def replyTarget (db : Db) (payload : PushNotificationPayload) (post : Post) : Int :=
  if payload.ReplyToCommentID > 0 then
    match db.comments.find? (fun c =>
      c.ID = payload.ReplyToCommentID ∧ c.PostID = post.ID ∧ c.Deleted = false) with
    | some c => c.UserID
    | none => 0
  else post.UserID

/-- What the handler is told by the store: the replies to the read of the post,
to the read of the attentions, to the read of the push settings and to the
insert of the messages. -/
structure HandlerReplies where
  first : Reply
  attentions : Reply
  settings : Reply
  create : Reply

/-- Source `handlePushNotification` (worker.go), from the decoded payload on.
`decoded` is what `msgpack.Unmarshal` makes of the payload bytes and `clock`
the readings of `time.Now()` in this run. -/
def handlePushNotification (types : PushTypes) (TrimText : String → Nat → String)
    (store : NotifyStore) (replies : HandlerReplies) (clock : Nat → Time)
    (decoded : Except Error PushNotificationPayload) : Option Error × NotifyStore :=
  match decoded with
  | .error e => (some e, store)
  | .ok payload =>
    match firstPost store.db replies.first payload.PostID with
    | .error err =>
      if err = Error.ErrRecordNotFound then (none, store) else (some err, store)
    | .ok post =>
      if post.Deleted then (none, store)
      else
        match replies.attentions with
        | some msg => (some (Error.other msg), store)
        | none =>
          let attentions := store.attentions.filter (fun a => a.PostID = post.ID)
          let replyToUserID := replyTarget store.db payload post
          let pushMessages :=
            assembleMessages types TrimText payload post clock replyToUserID attentions
          let processed :=
            PreProcessPushMessages types store.pushSettings replies.settings pushMessages
          match processed.1 with
          | some err => (some err, store)
          | none =>
            (none, { store with
              pushMessages := SendToPushService store.pushMessages replies.create processed.2 })

/-! ## Push notifications: two deliveries of one task -/

/-- A message with its time stamp put to the epoch: what is left of a message
when the reading of the clock is not looked at. -/
def withoutTime (m : PushMessage) : PushMessage :=
  { m with UpdatedAt := { unixNano := 0, zoneOffset := 0 } }

/-- The store carries out every command of a run of the handler. -/
def allDone : HandlerReplies :=
  { first := none, attentions := none, settings := none, create := none }

/-- The records a run of `handlePushNotification` hands to `db.Create` when the
store carries out every command: the assembled messages that
`PreProcessPushMessages` marks with `DoPush`, and none when the post is not
there. -/
def recordsToPush (types : PushTypes) (TrimText : String → Nat → String)
    (store : NotifyStore) (clock : Nat → Time) (payload : PushNotificationPayload) :
    List PushMessage :=
  match firstPost store.db none payload.PostID with
  | .error _ => []
  | .ok post =>
    if post.Deleted then []
    else
      (PreProcessPushMessages types store.pushSettings none
        (assembleMessages types TrimText payload post clock
          (replyTarget store.db payload post)
          (store.attentions.filter (fun a => a.PostID = post.ID)))).2.filter
        (fun msg => msg.DoPush)

/-! ## Example data: a comment on post 42 -/

/-- Example classes: system messages are bit 0, replies bit 1, favorited posts
bit 2. -/
def demoTypes : PushTypes :=
  { SystemMessage := 1, ReplyMeComment := 2, CommentInFavorited := 4 }

/-- Example `TrimText`: the first characters of the text. -/
def demoTrim (text : String) (n : Nat) : String := text.take n

/-- Post 42, written by user 1. -/
def demoNotifyPost : Post :=
  { ID := 42, CreatedAt := { unixNano := 0, zoneOffset := 0 }, Deleted := false,
    UserID := 1, LikeNum := 0, ReplyNum := 1, ReportNum := 0, DistinctCommenterCount := 1 }

/-- User 5 comments on post 42. -/
def demoNotifyPayload : PushNotificationPayload :=
  { PostID := 42, CommenterUserID := 5, CommentID := 7, CommentText := "hello",
    CommenterName := "Alice", ReplyToCommentID := 0 }

/-- Users 1, 5 and 8 favorited post 42. -/
def demoAttentions : List Attention :=
  [{ UserID := 1, PostID := 42 }, { UserID := 5, PostID := 42 }, { UserID := 8, PostID := 42 }]

/-- User 8 takes notifications of favorited posts only; user 9 takes none. -/
def demoSettings : List PushSettings :=
  [{ UserID := 8, Settings := 4 }, { UserID := 9, Settings := 0 }]

/-- The store of the example, with an empty table `push_messages`. -/
def demoNotifyStore : NotifyStore :=
  { db := { posts := [demoNotifyPost], comments := [], postCommenters := [] },
    attentions := demoAttentions,
    pushSettings := demoSettings,
    pushMessages := [] }

/-- A clock that advances by one nanosecond from reading to reading. -/
def demoClock (n : Nat) : Time := { unixNano := (n : Int), zoneOffset := 0 }

/-- Two messages: a reply to user 9 and a favorited-post message to user 8. -/
def demoMessages : List PushMessage :=
  [newPushMessage demoTrim demoNotifyPayload demoNotifyPost (demoClock 0) 2 9,
   newPushMessage demoTrim demoNotifyPayload demoNotifyPost (demoClock 1) 4 8]

/-! ## Cold start of the ranking set: `ColdStartHotList` (hotPosts.go) -/

/-- A command of the pipeline of the cold start, on the key `HotListKey`. -/
inductive HotListCommand where
  | del
  | zadd (member : String) (score : ℚ)
  deriving DecidableEq, Repr

/-- What the store does on a command. -/
def HotListCommand.apply (cmd : HotListCommand) (z : ZSet) : ZSet :=
  match cmd with
  | .del => []
  | .zadd member score => z.add member score

/-- User 5 replies on post 42 to comment 99, which is not in the table. -/
def demoReplyPayload : PushNotificationPayload :=
  { PostID := 42, CommenterUserID := 5, CommentID := 7, CommentText := "hello",
    CommenterName := "Alice", ReplyToCommentID := 99 }

/-! ## Reading the ranking set: `GetHotPostIDsFromCache` (hotPosts.go) -/

/-- Go `strconv.Atoi` for a 64 bit `int`: an optional sign and decimal digits,
at least one.  Other texts give 0 and a syntax error; a value out of range
gives the nearest bound and a range error. -/
def Atoi (s : String) : Int × Option Error :=
  let signed : Bool × List Char :=
    match s.data with
    | '-' :: cs => (true, cs)
    | '+' :: cs => (false, cs)
    | cs => (false, cs)
  if signed.2 = [] ∨ ¬ signed.2.all (fun c => 48 ≤ c.toNat ∧ c.toNat ≤ 57) then
    (0, some (Error.other "strconv.Atoi: invalid syntax"))
  else
    let n : Int := (digitsValue signed.2 : Int)
    if signed.1 then
      if n > 9223372036854775808 then
        (-9223372036854775808, some (Error.other "strconv.Atoi: value out of range"))
      else (-n, none)
    else if n > 9223372036854775807 then
      (9223372036854775807, some (Error.other "strconv.Atoi: value out of range"))
    else (n, none)

/-- The members of a sorted set from the highest score to the lowest, members
of equal score by descending member. -/
def ZSet.ranking (z : ZSet) : List String :=
  (z.insertionSort (fun a b => a.2 > b.2 ∨ (a.2 = b.2 ∧ ¬ a.1 < b.1))).map Prod.fst

/-- Redis `ZREVRANGE key start stop`: the members at the ranks `start` to `stop`
of the descending order; a negative index counts from the end, and the range
is cut to the ranks there are. -/
def ZSet.revRange (z : ZSet) (start stop : Int) : List String :=
  let llen : Int := (z.ranking.length : Int)
  let start1 := if start < 0 then llen + start else start
  let stop1 := if stop < 0 then llen + stop else stop
  let start2 := if start1 < 0 then 0 else start1
  if start2 > stop1 ∨ start2 ≥ llen then []
  else
    let stop2 := if stop1 ≥ llen then llen - 1 else stop1
    (z.ranking.drop start2.toNat).take (stop2 - start2 + 1).toNat

/-- Source `GetHotPostIDsFromCache` (hotPosts.go) on the ranking set `z`.
`page` and `pageSize` are Go `int`s; `reply` is the reply to `ZRevRange`.  The
error of `strconv.Atoi` is not looked at. -/
def GetHotPostIDsFromCache (z : ZSet) (reply : Reply) (page pageSize : Int) :
    Except Error (List Int) :=
  let start := wrapInt64 (wrapInt64 (wrapInt64 (page - 1) * pageSize))
  let stop := wrapInt64 (wrapInt64 (start + wrapInt64 pageSize) - 1)
  match reply with
  | some msg => .error (Error.other msg)
  | none => .ok ((z.revRange start stop).map (fun s => wrapInt32 (Atoi s).1))

/-- The ids `GetHotPostIDsFromCache` returns for a page when `ZRevRange` is
carried out. -/
def hotPage (z : ZSet) (page pageSize : Int) : List Int :=
  match GetHotPostIDsFromCache z none page pageSize with
  | .ok ids => ids
  | .error _ => []

/-- A page beyond the range of `int` arithmetic: number 2^62 + 1. -/
def demoFarPage : Int := 4611686018427387905

/-! ## Example data: a post of the year 2023 -/

/-- Post 7 with 2 likes, 5 replies and 1 report, created at second 1700000001. -/
def demoLatePost : Post :=
  { ID := 7, CreatedAt := { unixNano := 1700000001000000000, zoneOffset := 0 },
    Deleted := false, UserID := 1, LikeNum := 2, ReplyNum := 5, ReportNum := 1,
    DistinctCommenterCount := 0 }

/-- A world that holds that post and ranks nothing. -/
def demoLateWorld : World :=
  { db := { posts := [demoLatePost], comments := [], postCommenters := [] },
    hotList := [], commentCache := [] }

/-! ## Example data: a stale cache, and two posts of one id -/

/-- A cache that holds, for post 2, a comment that is not in the system of
record. -/
def demoGhostCache : Cache :=
  [{ Key := "pid2", Value := [demoComment 99 2 "ghost"], TTL := CommentCacheExpireTime }]

/-- The map the batch read returns from the stale cache. -/
def demoGhostRtn : GoMap (List Comment) :=
  [(3, [demoComment 11 3 "b", demoComment 12 3 "c"]), (1, [demoComment 10 1 "a"]),
   (2, [demoComment 99 2 "ghost"])]

/-- Two posts with the id 2: one two days old, one 399 days old. -/
def demoTwins : List Post := [demoPostOn 2 398, demoPostOn 2 1]

/-! # Theorems -/

/-! ## Lemmas on association lists -/

theorem find?_filter_ne {α κ : Type} [DecidableEq κ] (f : α → κ) (l : List α) (a b : κ) :
    (l.filter (fun e => f e ≠ a)).find? (fun e => f e = b) =
      if b = a then none else l.find? (fun e => f e = b) := by
  induction l with
  | nil => simp
  | cons x xs ih =>
    by_cases hxa : f x = a
    · rw [List.filter_cons_of_neg (by simpa using hxa), ih]
      by_cases hba : b = a
      · rw [if_pos hba, if_pos hba]
      · have hxb : ¬ f x = b := fun h => hba (h ▸ hxa)
        rw [if_neg hba, if_neg hba, List.find?_cons_of_neg _ (by simpa using hxb)]
    · rw [List.filter_cons_of_pos (by simpa using hxa)]
      by_cases hxb : f x = b
      · have hba : ¬ b = a := fun h => hxa (hxb.trans h)
        rw [if_neg hba, List.find?_cons_of_pos _ (by simpa using hxb),
          List.find?_cons_of_pos _ (by simpa using hxb)]
      · rw [List.find?_cons_of_neg _ (by simpa using hxb), ih,
          List.find?_cons_of_neg _ (by simpa using hxb)]

theorem ZSet.score_rem_self (z : ZSet) (m : String) : (z.rem m).score m = none := by
  unfold ZSet.score ZSet.rem
  rw [find?_filter_ne (fun e : String × ℚ => e.1)]
  simp

theorem ZSet.score_rem_ne (z : ZSet) (m k : String) (h : k ≠ m) :
    (z.rem m).score k = z.score k := by
  unfold ZSet.score ZSet.rem
  rw [find?_filter_ne (fun e : String × ℚ => e.1), if_neg h]

theorem ZSet.score_add_self (z : ZSet) (m : String) (x : ℚ) : (z.add m x).score m = some x := by
  simp [ZSet.score, ZSet.add]

theorem ZSet.score_add_ne (z : ZSet) (m k : String) (x : ℚ) (h : k ≠ m) :
    (z.add m x).score k = z.score k := by
  have h2 : ¬ m = k := fun e => h e.symm
  unfold ZSet.score ZSet.add
  rw [List.find?_cons_of_neg _ (by simpa using h2),
    find?_filter_ne (fun e : String × ℚ => e.1), if_neg h]

theorem ZSet.rem_rem (z : ZSet) (m : String) : (z.rem m).rem m = z.rem m := by
  simp [ZSet.rem, List.filter_filter]

theorem Cache.lookup_drop_self (c : Cache) (k : String) : (c.drop k).lookup k = none := by
  unfold Cache.lookup Cache.drop
  rw [find?_filter_ne CacheItem.Key]
  simp

theorem Cache.lookup_drop_ne (c : Cache) (k j : String) (h : j ≠ k) :
    (c.drop k).lookup j = c.lookup j := by
  unfold Cache.lookup Cache.drop
  rw [find?_filter_ne CacheItem.Key, if_neg h]

theorem Cache.lookup_store_self (c : Cache) (it : CacheItem) :
    (c.store it).lookup it.Key = some it.Value := by
  simp [Cache.lookup, Cache.store]

theorem Cache.lookup_store_ne (c : Cache) (it : CacheItem) (j : String) (h : j ≠ it.Key) :
    (c.store it).lookup j = c.lookup j := by
  have h2 : ¬ it.Key = j := fun e => h e.symm
  unfold Cache.lookup Cache.store
  rw [List.find?_cons_of_neg _ (by simpa using h2), find?_filter_ne CacheItem.Key, if_neg h]

theorem GoMap.get_set_self {ν : Type} (m : GoMap ν) (k : Int) (v : ν) :
    (m.set k v).get k = some v := by
  simp [GoMap.get, GoMap.set]

theorem GoMap.get_set_ne {ν : Type} (m : GoMap ν) (k j : Int) (v : ν) (h : j ≠ k) :
    (m.set k v).get j = m.get j := by
  have h2 : ¬ k = j := fun e => h e.symm
  unfold GoMap.get GoMap.set
  rw [List.find?_cons_of_neg _ (by simpa using h2),
    find?_filter_ne (fun e : Int × ν => e.1), if_neg h]

/-! ## `Itoa` can be read back -/

theorem digitChar_toNat (d : Nat) (h : d < 10) : (digitChar d).toNat = 48 + d := by
  interval_cases d <;> rfl

theorem digitChar_ne_minus (d : Nat) (h : d < 10) : digitChar d ≠ '-' := by
  interval_cases d <;> decide

theorem digitsValue_snoc (cs : List Char) (c : Char) :
    digitsValue (cs ++ [c]) = digitsValue cs * 10 + (c.toNat - 48) := by
  simp [digitsValue, List.foldl_append]

theorem digitsValue_formatDigits (fuel : Nat) :
    ∀ n : Nat, n < fuel → digitsValue (formatDigits fuel n) = n := by
  induction fuel with
  | zero => intro n h; omega
  | succ f ih =>
    intro n h
    by_cases h10 : n < 10
    · simp [formatDigits, h10, digitsValue, digitChar_toNat n h10]
    · have hlt : n / 10 < f := by omega
      have hmod : n % 10 < 10 := Nat.mod_lt _ (by decide)
      simp only [formatDigits, if_neg h10]
      rw [digitsValue_snoc, ih _ hlt, digitChar_toNat _ hmod]
      omega

theorem formatDigits_ne_minus (fuel : Nat) :
    ∀ n : Nat, ∀ c ∈ formatDigits fuel n, c ≠ '-' := by
  induction fuel with
  | zero => intro n c hc; simp [formatDigits] at hc
  | succ f ih =>
    intro n c hc
    by_cases h10 : n < 10
    · simp only [formatDigits, if_pos h10, List.mem_singleton] at hc
      rw [hc]; exact digitChar_ne_minus n h10
    · simp only [formatDigits, if_neg h10, List.mem_append, List.mem_singleton] at hc
      rcases hc with hc | hc
      · exact ih _ c hc
      · rw [hc]; exact digitChar_ne_minus _ (Nat.mod_lt _ (by decide))

theorem decimalValue_mk_of_digits (cs : List Char) (h : ∀ c ∈ cs, c ≠ '-') :
    decimalValue (String.mk cs) = (digitsValue cs : Int) := by
  unfold decimalValue
  cases cs with
  | nil => rfl
  | cons c rest =>
    have hc : c ≠ '-' := h c (List.mem_cons_self _ _)
    split
    · rename_i cs2 heq
      simp only [List.cons.injEq] at heq
      exact absurd heq.1 hc
    · rfl

theorem decimalValue_Itoa (i : Int) : decimalValue (Itoa i) = i := by
  unfold Itoa
  by_cases hneg : i < 0
  · rw [if_pos hneg]
    show - (digitsValue (formatDigits (i.natAbs + 1) i.natAbs) : Int) = i
    rw [digitsValue_formatDigits _ _ (Nat.lt_succ_self _)]
    omega
  · rw [if_neg hneg, decimalValue_mk_of_digits _ (formatDigits_ne_minus _ _),
      digitsValue_formatDigits _ _ (Nat.lt_succ_self _)]
    omega

theorem Itoa_injective : Function.Injective Itoa := by
  intro a b h
  have := congrArg decimalValue h
  rwa [decimalValue_Itoa, decimalValue_Itoa] at this

theorem pidKey_injective (a b : Int) (h : "pid" ++ Itoa a = "pid" ++ Itoa b) : a = b := by
  apply Itoa_injective
  have h2 := congrArg String.data h
  simp only [String.data_append, List.append_cancel_left_eq] at h2
  exact String.ext h2

/-! ## The ranking score -/

theorem binaryDigits_spec (fuel : Nat) :
    ∀ n : Nat, n ≤ fuel → n ≠ 0 →
      2 ^ (binaryDigits fuel n - 1) ≤ n ∧ n < 2 ^ binaryDigits fuel n ∧
        1 ≤ binaryDigits fuel n := by
  induction fuel with
  | zero => intro n h hn; omega
  | succ f ih =>
    intro n h hn
    simp only [binaryDigits, if_neg hn]
    by_cases h2 : n / 2 = 0
    · have hn1 : n = 1 := by omega
      subst hn1
      cases f <;> simp [binaryDigits]
    · have hle : n / 2 ≤ f := by omega
      obtain ⟨h1, h3, h4⟩ := ih (n / 2) hle h2
      refine ⟨?_, ?_, by omega⟩
      · have : binaryDigits f (n / 2) + 1 - 1 = (binaryDigits f (n / 2) - 1) + 1 := by omega
        rw [this, pow_succ]
        omega
      · rw [pow_succ]
        omega

theorem binaryExponent_le (q : ℚ) (hq : 0 < q) : (2 : ℚ) ^ binaryExponent q ≤ q := by
  unfold binaryExponent
  split
  · assumption
  · have hnum : 0 < q.num := Rat.num_pos.mpr hq
    have hn0 : q.num.natAbs ≠ 0 := by omega
    have hd0 : q.den ≠ 0 := q.den_nz
    obtain ⟨hn1, _, hn3⟩ := binaryDigits_spec q.num.natAbs q.num.natAbs (le_refl _) hn0
    obtain ⟨_, hd2, hd3⟩ := binaryDigits_spec q.den q.den (le_refl _) hd0
    generalize binaryDigits q.num.natAbs q.num.natAbs = a at hn1 hn3 ⊢
    generalize binaryDigits q.den q.den = b at hd2 hd3 ⊢
    have hqeq : (q.num.natAbs : ℚ) / (q.den : ℚ) = q := by
      have h2 : (q.num.natAbs : ℚ) = (q.num : ℚ) := by
        rw [Nat.cast_natAbs, abs_of_pos hnum]
      rw [h2]
      exact Rat.num_div_den q
    have hexp : ((a : Int) - (b : Int) - 1) = ((a - 1 : Nat) : Int) - (b : Int) := by omega
    rw [hexp, zpow_sub₀ (by norm_num : (2 : ℚ) ≠ 0), zpow_natCast, zpow_natCast]
    have hdpos : (0 : ℚ) < (q.den : ℚ) := by exact_mod_cast Nat.pos_of_ne_zero hd0
    have hbpos : (0 : ℚ) < (2 : ℚ) ^ b := by positivity
    have hn1q : (2 : ℚ) ^ (a - 1) ≤ (q.num.natAbs : ℚ) := by exact_mod_cast hn1
    have hd2q : (q.den : ℚ) ≤ (2 : ℚ) ^ b := by exact_mod_cast le_of_lt hd2
    have hnn : (0 : ℚ) ≤ (q.num.natAbs : ℚ) := by positivity
    have hmain : (2 : ℚ) ^ (a - 1) / (2 : ℚ) ^ b ≤ (q.num.natAbs : ℚ) / (q.den : ℚ) := by
      rw [div_le_div_iff₀ hbpos hdpos]
      calc (2 : ℚ) ^ (a - 1) * (q.den : ℚ) ≤ (q.num.natAbs : ℚ) * (q.den : ℚ) :=
            mul_le_mul_of_nonneg_right hn1q (le_of_lt hdpos)
        _ ≤ (q.num.natAbs : ℚ) * (2 : ℚ) ^ b := mul_le_mul_of_nonneg_left hd2q hnn
    exact hmain.trans (le_of_eq hqeq)

theorem binaryExponent_lt (q : ℚ) (hq : 0 < q) : q < (2 : ℚ) ^ (binaryExponent q + 1) := by
  unfold binaryExponent
  split
  · have hnum : 0 < q.num := Rat.num_pos.mpr hq
    have hn0 : q.num.natAbs ≠ 0 := by omega
    have hd0 : q.den ≠ 0 := q.den_nz
    obtain ⟨_, hn2, hn3⟩ := binaryDigits_spec q.num.natAbs q.num.natAbs (le_refl _) hn0
    obtain ⟨hd1, _, hd3⟩ := binaryDigits_spec q.den q.den (le_refl _) hd0
    generalize binaryDigits q.num.natAbs q.num.natAbs = a at hn2 hn3 ⊢
    generalize binaryDigits q.den q.den = b at hd1 hd3 ⊢
    have hqeq : q = (q.num.natAbs : ℚ) / (q.den : ℚ) := by
      have h2 : (q.num.natAbs : ℚ) = (q.num : ℚ) := by
        rw [Nat.cast_natAbs, abs_of_pos hnum]
      rw [h2]
      exact (Rat.num_div_den q).symm
    have hexp : ((a : Int) - (b : Int) + 1) = (a : Int) - ((b - 1 : Nat) : Int) := by omega
    rw [hexp, zpow_sub₀ (by norm_num : (2 : ℚ) ≠ 0), zpow_natCast, zpow_natCast]
    have hdpos : (0 : ℚ) < (q.den : ℚ) := by exact_mod_cast Nat.pos_of_ne_zero hd0
    have hbpos : (0 : ℚ) < (2 : ℚ) ^ (b - 1) := by positivity
    have hn2q : (q.num.natAbs : ℚ) < (2 : ℚ) ^ a := by exact_mod_cast hn2
    have hd1q : (2 : ℚ) ^ (b - 1) ≤ (q.den : ℚ) := by exact_mod_cast hd1
    have hapos : (0 : ℚ) < (2 : ℚ) ^ a := by positivity
    have hmain : (q.num.natAbs : ℚ) / (q.den : ℚ) < (2 : ℚ) ^ a / (2 : ℚ) ^ (b - 1) := by
      rw [div_lt_div_iff₀ hdpos hbpos]
      calc (q.num.natAbs : ℚ) * (2 : ℚ) ^ (b - 1) ≤ (q.num.natAbs : ℚ) * (q.den : ℚ) :=
            mul_le_mul_of_nonneg_left hd1q (by positivity)
        _ < (2 : ℚ) ^ a * (q.den : ℚ) := mul_lt_mul_of_pos_right hn2q hdpos
    exact lt_of_eq_of_lt hqeq hmain
  · rename_i h
    rw [sub_add_cancel]
    exact not_le.mp h

theorem roundHalfEven_error (q : ℚ) : |((roundHalfEven q : Int) : ℚ) - q| ≤ 1 / 2 := by
  have h1 : ((⌊q⌋ : Int) : ℚ) ≤ q := Int.floor_le q
  have h2 : q < ((⌊q⌋ : Int) : ℚ) + 1 := Int.lt_floor_add_one q
  unfold roundHalfEven
  rw [abs_le]
  split
  · constructor <;> linarith
  · split
    · push_cast
      constructor <;> linarith
    · split
      · constructor <;> linarith
      · push_cast
        constructor <;> linarith

theorem roundHalfEven_intCast (n : Int) : roundHalfEven (n : ℚ) = n := by
  unfold roundHalfEven
  rw [Int.floor_intCast]
  simp

theorem roundFloat64_error (q : ℚ) : |roundFloat64 q - q| ≤ |q| / 2 ^ 53 := by
  unfold roundFloat64
  by_cases h0 : q = 0
  · simp [h0]
  · rw [if_neg h0]
    have habs : 0 < |q| := abs_pos.mpr h0
    have hbe := binaryExponent_le |q| habs
    generalize binaryExponent |q| = be at hbe
    have hpos : (0 : ℚ) < (2 : ℚ) ^ (be - 52) := by positivity
    have hr := roundHalfEven_error (|q| / (2 : ℚ) ^ (be - 52))
    generalize (roundHalfEven (|q| / (2 : ℚ) ^ (be - 52)) : Int) = m at hr
    have hscale : (2 : ℚ) ^ (be - 52) = (2 : ℚ) ^ be / 2 ^ 52 := by
      rw [zpow_sub₀ (by norm_num : (2 : ℚ) ≠ 0)]
      norm_num
    have hm : abs ((m : ℚ) * (2 : ℚ) ^ (be - 52) - abs q) ≤ abs q / 2 ^ 53 := by
      have heq : (m : ℚ) * (2 : ℚ) ^ (be - 52) - |q|
          = ((m : ℚ) - |q| / (2 : ℚ) ^ (be - 52)) * (2 : ℚ) ^ (be - 52) := by
        field_simp
      rw [heq, abs_mul, abs_of_pos hpos]
      calc abs ((m : ℚ) - abs q / (2 : ℚ) ^ (be - 52)) * (2 : ℚ) ^ (be - 52)
            ≤ 1 / 2 * (2 : ℚ) ^ (be - 52) := mul_le_mul_of_nonneg_right hr (le_of_lt hpos)
        _ = (2 : ℚ) ^ be / 2 ^ 53 := by rw [hscale]; ring
        _ ≤ |q| / 2 ^ 53 := by
            apply div_le_div_of_nonneg_right hbe
            positivity
    by_cases hneg : q < 0
    · rw [if_pos hneg]
      have hq : |q| = -q := abs_of_neg hneg
      have heq : -1 * (m : ℚ) * (2 : ℚ) ^ (be - 52) - q
          = -((m : ℚ) * (2 : ℚ) ^ (be - 52) - |q|) := by
        rw [hq]; ring
      rw [heq, abs_neg]
      exact hm
    · rw [if_neg hneg]
      have hq : |q| = q := abs_of_nonneg (not_lt.mp hneg)
      have heq : 1 * (m : ℚ) * (2 : ℚ) ^ (be - 52) - q
          = (m : ℚ) * (2 : ℚ) ^ (be - 52) - |q| := by
        rw [hq]; ring
      rw [heq]
      exact hm

theorem roundFloat64_intCast (n : Int) (hn : |n| < 2 ^ 53) : roundFloat64 (n : ℚ) = (n : ℚ) := by
  unfold roundFloat64
  by_cases h0 : (n : ℚ) = 0
  · rw [if_pos h0, h0]
  · rw [if_neg h0]
    have habs : 0 < |(n : ℚ)| := abs_pos.mpr h0
    have hbe := binaryExponent_le |(n : ℚ)| habs
    have hlt : |(n : ℚ)| < (2 : ℚ) ^ (53 : ℤ) := by
      have : ((|n| : Int) : ℚ) < ((2 ^ 53 : Int) : ℚ) := Int.cast_lt.mpr hn
      rw [Int.cast_abs] at this
      rw [zpow_ofNat]
      exact_mod_cast this
    generalize binaryExponent |(n : ℚ)| = be at hbe
    have hbe53 : be < 53 :=
      (zpow_lt_zpow_iff_right₀ (by norm_num : (1 : ℚ) < 2)).mp (lt_of_le_of_lt hbe hlt)
    obtain ⟨k, hk⟩ : ∃ k : Nat, be - 52 = -(k : Int) := ⟨(52 - be).toNat, by omega⟩
    rw [hk, zpow_neg, zpow_natCast, div_inv_eq_mul]
    have hs : |(n : ℚ)| * (2 : ℚ) ^ k = ((|n| * 2 ^ k : Int) : ℚ) := by
      push_cast
      rfl
    rw [hs, roundHalfEven_intCast]
    have hpow : (2 : ℚ) ^ k ≠ 0 := by positivity
    by_cases hneg : (n : ℚ) < 0
    · rw [if_pos hneg]
      have hn0 : n < 0 := by exact_mod_cast hneg
      rw [abs_of_neg hn0]
      push_cast
      field_simp
    · rw [if_neg hneg]
      have hn0 : 0 ≤ n := by exact_mod_cast not_lt.mp hneg
      rw [abs_of_nonneg hn0]
      push_cast
      field_simp

theorem asCounter_of_range (n : Int) (hlo : -2147483648 ≤ n) (hhi : n ≤ 2147483647) :
    asCounter n = n := by
  unfold asCounter wrapInt32
  omega

theorem ComputeScore_float (P : Post)
    (hL : -2147483648 ≤ P.LikeNum * 3 ∧ P.LikeNum * 3 ≤ 2147483647)
    (hA : -2147483648 ≤ P.LikeNum * 3 + P.ReplyNum ∧ P.LikeNum * 3 + P.ReplyNum ≤ 2147483647)
    (hC : -2147483648 ≤ P.ReportNum * 10 ∧ P.ReportNum * 10 ≤ 2147483647)
    (hU : |P.CreatedAt.Unix| ≤ 1099511627776) :
    ComputeScore P =
      roundFloat64
        (roundFloat64
            (((P.LikeNum * 3 + P.ReplyNum : Int) : ℚ) +
              roundFloat64 (((P.CreatedAt.Unix : Int) : ℚ) / 1800))
          - ((P.ReportNum * 10 : Int) : ℚ)) := by
  unfold ComputeScore toFloat64
  rw [asCounter_of_range _ hL.1 hL.2, asCounter_of_range _ hA.1 hA.2,
    asCounter_of_range _ hC.1 hC.2,
    roundFloat64_intCast (P.LikeNum * 3 + P.ReplyNum)
      (by rw [abs_lt]; constructor <;> omega),
    roundFloat64_intCast (P.ReportNum * 10) (by rw [abs_lt]; constructor <;> omega),
    roundFloat64_intCast P.CreatedAt.Unix (by
      have := hU
      rw [abs_le] at this
      rw [abs_lt]
      constructor <;> omega)]

theorem ComputeScore_near (P : Post)
    (hL : -2147483648 ≤ P.LikeNum * 3 ∧ P.LikeNum * 3 ≤ 2147483647)
    (hA : -2147483648 ≤ P.LikeNum * 3 + P.ReplyNum ∧ P.LikeNum * 3 + P.ReplyNum ≤ 2147483647)
    (hC : -2147483648 ≤ P.ReportNum * 10 ∧ P.ReportNum * 10 ≤ 2147483647)
    (hU : |P.CreatedAt.Unix| ≤ 1099511627776) :
    |ComputeScore P -
        ((P.LikeNum : ℚ) * 3 + (P.ReplyNum : ℚ) - (P.ReportNum : ℚ) * 10
          + (P.CreatedAt.Unix : ℚ) / 1800)| ≤ 1 / 524288 := by
  rw [ComputeScore_float P hL hA hC hU]
  have hAq : (-2147483648 : ℚ) ≤ ((P.LikeNum * 3 + P.ReplyNum : Int) : ℚ) ∧
      ((P.LikeNum * 3 + P.ReplyNum : Int) : ℚ) ≤ 2147483647 :=
    ⟨by exact_mod_cast hA.1, by exact_mod_cast hA.2⟩
  have hCq : (-2147483648 : ℚ) ≤ ((P.ReportNum * 10 : Int) : ℚ) ∧
      ((P.ReportNum * 10 : Int) : ℚ) ≤ 2147483647 :=
    ⟨by exact_mod_cast hC.1, by exact_mod_cast hC.2⟩
  have hUq : (-1099511627776 : ℚ) ≤ ((P.CreatedAt.Unix : Int) : ℚ) ∧
      ((P.CreatedAt.Unix : Int) : ℚ) ≤ 1099511627776 := by
    have h := abs_le.mp hU
    exact ⟨by exact_mod_cast h.1, by exact_mod_cast h.2⟩
  have hexact : (P.LikeNum : ℚ) * 3 + (P.ReplyNum : ℚ) - (P.ReportNum : ℚ) * 10
      + (P.CreatedAt.Unix : ℚ) / 1800
      = ((P.LikeNum * 3 + P.ReplyNum : Int) : ℚ) + ((P.CreatedAt.Unix : Int) : ℚ) / 1800
        - ((P.ReportNum * 10 : Int) : ℚ) := by
    push_cast
    ring
  rw [hexact]
  generalize ((P.LikeNum * 3 + P.ReplyNum : Int) : ℚ) = a at hAq ⊢
  generalize ((P.ReportNum * 10 : Int) : ℚ) = c at hCq ⊢
  generalize ((P.CreatedAt.Unix : Int) : ℚ) = u at hUq ⊢
  have hq1 : |u / 1800| ≤ 1073741824 := by
    rw [abs_le]
    constructor
    · rw [le_div_iff₀ (by norm_num : (0 : ℚ) < 1800)]; linarith [hUq.1]
    · rw [div_le_iff₀ (by norm_num : (0 : ℚ) < 1800)]; linarith [hUq.2]
  have eb : |roundFloat64 (u / 1800) - u / 1800| ≤ 1073741824 / 2 ^ 53 :=
    (roundFloat64_error (u / 1800)).trans
      (div_le_div_of_nonneg_right hq1 (by positivity))
  have hq1' := abs_le.mp hq1
  have eb' := abs_le.mp eb
  generalize roundFloat64 (u / 1800) = b at eb eb' ⊢
  have hs1 : |a + b| ≤ 4294967296 := by
    rw [abs_le]
    constructor
    · norm_num at eb' ⊢; linarith [hAq.1, hq1'.1, eb'.1]
    · norm_num at eb' ⊢; linarith [hAq.2, hq1'.2, eb'.2]
  have e1 : |roundFloat64 (a + b) - (a + b)| ≤ 4294967296 / 2 ^ 53 :=
    (roundFloat64_error (a + b)).trans
      (div_le_div_of_nonneg_right hs1 (by positivity))
  have hs1' := abs_le.mp hs1
  have e1' := abs_le.mp e1
  generalize roundFloat64 (a + b) = s1 at e1 e1' ⊢
  have hs2 : |s1 - c| ≤ 8589934592 := by
    rw [abs_le]
    constructor
    · norm_num at e1' ⊢; linarith [hs1'.1, e1'.1, hCq.2]
    · norm_num at e1' ⊢; linarith [hs1'.2, e1'.2, hCq.1]
  have e2 : |roundFloat64 (s1 - c) - (s1 - c)| ≤ 8589934592 / 2 ^ 53 :=
    (roundFloat64_error (s1 - c)).trans
      (div_le_div_of_nonneg_right hs2 (by positivity))
  have e2' := abs_le.mp e2
  generalize roundFloat64 (s1 - c) = s2 at e2 e2' ⊢
  rw [abs_le]
  norm_num at eb' e1' e2' ⊢
  constructor
  · linarith [eb'.1, e1'.1, e2'.1]
  · linarith [eb'.2, e1'.2, e2'.2]

/-- C1, counterexample: post 7 with 2 likes, 5 replies and 1 report, created
at second 1700000001.  The formula gives 1 + 1700000001/1800 = 188889089/200;
`ComputeScore` gives the `float64` next to it, 8112724598262333/2^33, and this
is the score `UpdateHotListScore` stores. -/
theorem ComputeScore_not_exact :
    ComputeScore demoLatePost = 8112724598262333 / 8589934592 ∧
    (demoLatePost.LikeNum : ℚ) * 3 + (demoLatePost.ReplyNum : ℚ)
      - (demoLatePost.ReportNum : ℚ) * 10 + (demoLatePost.CreatedAt.Unix : ℚ) / 1800
      = 188889089 / 200 ∧
    (UpdateHotListScore demoLateWorld none none none 7).1 = none ∧
    (UpdateHotListScore demoLateWorld none none none 7).2.hotList.score (Itoa 7)
      = some (8112724598262333 / 8589934592) ∧
    (8112724598262333 / 8589934592 : ℚ) ≠ 188889089 / 200 := by
  have hscore : ComputeScore demoLatePost = 8112724598262333 / 8589934592 := by decide!
  refine ⟨hscore, by decide!, rfl, ?_, by norm_num⟩
  have hu : (UpdateHotListScore demoLateWorld none none none 7).2.hotList.score (Itoa 7)
      = some (ComputeScore demoLatePost) := by
    simp only [UpdateHotListScore, demoLateWorld, firstPost]
    rw [show List.find? (fun p => decide (p.ID = 7 ∧ p.Deleted = false)) [demoLatePost]
      = some demoLatePost from rfl]
    exact ZSet.score_add_self _ _ _
  rw [hu, hscore]

/-- C1, amended: when `UpdateHotListScore` returns no error for a post stored
live in the system of record, the ranking entry of that post carries
`ComputeScore` of the stored row.  As long as the integer results
`like_num*3`, `like_num*3 + reply_num` and `report_num*10` fit the type of the
columns and the creation time is within 2^40 seconds of the epoch,
`ComputeScore` is the formula evaluated in `float64`: the integer results are
converted without error and the division by 1800, the sum and the difference
are each rounded to the nearest `float64`; it differs from the exact value of
`like_num*3 + reply_num - report_num*10 + created_at_unix/1800` by at most
2^-19. -/
theorem UpdateHotListScore_stores_score (w : World) (firstReply zremReply zaddReply : Reply)
    (postID : Int) (P : Post)
    (hP : firstPost w.db none postID = .ok P)
    (hok : (UpdateHotListScore w firstReply zremReply zaddReply postID).1 = none)
    (hL : -2147483648 ≤ P.LikeNum * 3 ∧ P.LikeNum * 3 ≤ 2147483647)
    (hA : -2147483648 ≤ P.LikeNum * 3 + P.ReplyNum ∧ P.LikeNum * 3 + P.ReplyNum ≤ 2147483647)
    (hC : -2147483648 ≤ P.ReportNum * 10 ∧ P.ReportNum * 10 ≤ 2147483647)
    (hU : |P.CreatedAt.Unix| ≤ 1099511627776) :
    (UpdateHotListScore w firstReply zremReply zaddReply postID).2.hotList.score (Itoa postID)
      = some (ComputeScore P) ∧
    ComputeScore P =
      roundFloat64
        (roundFloat64
            (((P.LikeNum * 3 + P.ReplyNum : Int) : ℚ) +
              roundFloat64 (((P.CreatedAt.Unix : Int) : ℚ) / 1800))
          - ((P.ReportNum * 10 : Int) : ℚ)) ∧
    |ComputeScore P -
        ((P.LikeNum : ℚ) * 3 + (P.ReplyNum : ℚ) - (P.ReportNum : ℚ) * 10
          + (P.CreatedAt.Unix : ℚ) / 1800)| ≤ 1 / 524288 := by
  refine ⟨?_, ComputeScore_float P hL hA hC hU, ComputeScore_near P hL hA hC hU⟩
  cases firstReply with
  | some msg => simp [UpdateHotListScore, firstPost] at hok
  | none =>
    cases zaddReply with
    | some msg => simp [UpdateHotListScore, hP] at hok
    | none =>
      simp only [UpdateHotListScore, hP]
      exact ZSet.score_add_self _ _ _

/-- Witness of C1: post 7 of the example world, created at second 3600, is
ranked with `ComputeScore` of its row, which is within 2^-19 of
2*3 + 5 - 1*10 + 3600/1800 = 3. -/
theorem UpdateHotListScore_stores_score_witness :
    (UpdateHotListScore demoWorld none none none 7).2.hotList.score (Itoa 7)
      = some (ComputeScore demoPost) ∧
    |ComputeScore demoPost -
        ((demoPost.LikeNum : ℚ) * 3 + (demoPost.ReplyNum : ℚ) - (demoPost.ReportNum : ℚ) * 10
          + (demoPost.CreatedAt.Unix : ℚ) / 1800)| ≤ 1 / 524288 :=
  have h := UpdateHotListScore_stores_score demoWorld none none none 7 demoPost rfl rfl
    (by decide) (by decide) (by decide) (by decide)
  ⟨h.1, h.2.2⟩

/-! ## Deleting a post -/

theorem firstPost_after_delete (posts : List Post) (comments : List Comment)
    (mappings : List PostCommenter) (pid : Int) :
    firstPost
      { posts := posts.map (fun p =>
          if p.ID = pid ∧ p.Deleted = false then { p with Deleted := true } else p),
        comments := comments, postCommenters := mappings } none pid
      = .error Error.ErrRecordNotFound := by
  have hnone : (posts.map (fun p =>
      if p.ID = pid ∧ p.Deleted = false then { p with Deleted := true } else p)).find?
      (fun p => p.ID = pid ∧ p.Deleted = false) = none := by
    rw [List.find?_eq_none]
    intro x hx
    rw [List.mem_map] at hx
    obtain ⟨y, _, hy⟩ := hx
    by_cases hc : y.ID = pid ∧ y.Deleted = false
    · rw [if_pos hc] at hy
      subst hy
      simp
    · rw [if_neg hc] at hy
      subst hy
      simpa using hc
  simp only [firstPost, hnone]

/-- C2, counterexample: post 7 of the example world is deleted under a report
while the store refuses the `ZRem`.  `DeleteByReport` does not look at the
reply: it returns no error, the post is gone from the system of record, and the
ranking set still has its entry for post 7. -/
theorem DeleteByReport_post_keeps_entry :
    (DeleteByReport demoWorld
      { delete := none, update := none, first := none, zadd := none,
        zrem := some "redis: connection refused", cacheDelete := none }
      { IsComment := false, PostID := 7, CommentID := 0 }).1 = none ∧
    firstPost (DeleteByReport demoWorld
      { delete := none, update := none, first := none, zadd := none,
        zrem := some "redis: connection refused", cacheDelete := none }
      { IsComment := false, PostID := 7, CommentID := 0 }).2.db none 7
      = .error Error.ErrRecordNotFound ∧
    (DeleteByReport demoWorld
      { delete := none, update := none, first := none, zadd := none,
        zrem := some "redis: connection refused", cacheDelete := none }
      { IsComment := false, PostID := 7, CommentID := 0 }).2.hotList.score (Itoa 7)
      = some 1 := by
  refine ⟨rfl, rfl, ?_⟩
  decide

/-- C2, amended: when `DeleteByReport` deletes a post (the report is not about
a comment and the delete is carried out) it returns no error whatever the
store answers to the `ZRem`: if the `ZRem` is carried out the ranking set has
no entry for the post afterwards, if it is refused the ranking set is as it
was.  A following `UpdateHotListScore` of that post finds no row and returns
no error; it leaves every other entry of the ranking set with its score, and
the post has no entry after it if the entry was removed before or the `ZRem` of
this call is carried out, in which case the call is what removes an entry that
the delete left behind.  When its own `ZRem` is refused the call changes
nothing. -/
theorem DeleteByReport_post_then_UpdateHotListScore (w : World) (replies : DeleteReplies)
    (report : Report) (zremReply zaddReply : Reply)
    (hpost : report.IsComment = false)
    (hok : (DeleteByReport w replies report).1 = none) :
    (replies.zrem = none →
      (DeleteByReport w replies report).2.hotList.score (Itoa report.PostID) = none) ∧
    (replies.zrem ≠ none → (DeleteByReport w replies report).2.hotList = w.hotList) ∧
    firstPost (DeleteByReport w replies report).2.db none report.PostID
      = .error Error.ErrRecordNotFound ∧
    (UpdateHotListScore (DeleteByReport w replies report).2 none zremReply zaddReply
      report.PostID).1 = none ∧
    (∀ member : String, member ≠ Itoa report.PostID →
      (UpdateHotListScore (DeleteByReport w replies report).2 none zremReply zaddReply
        report.PostID).2.hotList.score member
        = (DeleteByReport w replies report).2.hotList.score member) ∧
    (replies.zrem = none ∨ zremReply = none →
      (UpdateHotListScore (DeleteByReport w replies report).2 none zremReply zaddReply
        report.PostID).2.hotList.score (Itoa report.PostID) = none) ∧
    (replies.zrem = none → ∀ member : String,
      (UpdateHotListScore (DeleteByReport w replies report).2 none zremReply zaddReply
        report.PostID).2.hotList.score member
        = (DeleteByReport w replies report).2.hotList.score member) ∧
    (zremReply = none →
      (UpdateHotListScore (DeleteByReport w replies report).2 none zremReply zaddReply
        report.PostID).2.hotList
        = (DeleteByReport w replies report).2.hotList.rem (Itoa report.PostID)) ∧
    (zremReply ≠ none →
      (UpdateHotListScore (DeleteByReport w replies report).2 none zremReply zaddReply
        report.PostID).2.hotList = (DeleteByReport w replies report).2.hotList) ∧
    (UpdateHotListScore (DeleteByReport w replies report).2 none zremReply zaddReply
      report.PostID).2.db = (DeleteByReport w replies report).2.db := by
  cases hdel : replies.delete with
  | some msg => simp [DeleteByReport, hpost, hdel] at hok
  | none =>
    have hdb : (DeleteByReport w replies report).2.db =
        { w.db with posts := w.db.posts.map (fun p =>
          if p.ID = report.PostID ∧ p.Deleted = false then { p with Deleted := true }
          else p) } := by
      cases hz : replies.zrem <;> simp [DeleteByReport, hpost, hdel, hz]
    have hhot : (DeleteByReport w replies report).2.hotList =
        match replies.zrem with
        | some _ => w.hotList
        | none => w.hotList.rem (Itoa report.PostID) := by
      cases hz : replies.zrem <;> simp [DeleteByReport, hpost, hdel, hz]
    have hfirst : firstPost (DeleteByReport w replies report).2.db none report.PostID
        = .error Error.ErrRecordNotFound := by
      rw [hdb]
      exact firstPost_after_delete w.db.posts w.db.comments w.db.postCommenters report.PostID
    have hupd : (UpdateHotListScore (DeleteByReport w replies report).2 none zremReply zaddReply
        report.PostID) =
        match zremReply with
        | some _ => (none, (DeleteByReport w replies report).2)
        | none => (none, { (DeleteByReport w replies report).2 with
            hotList := (DeleteByReport w replies report).2.hotList.rem (Itoa report.PostID) }) := by
      simp only [UpdateHotListScore, hfirst, if_true]
    have hone : replies.zrem = none →
        (DeleteByReport w replies report).2.hotList.score (Itoa report.PostID) = none := by
      intro hz
      rw [hhot, hz]
      exact ZSet.score_rem_self _ _
    have hother : ∀ member : String, member ≠ Itoa report.PostID →
        (UpdateHotListScore (DeleteByReport w replies report).2 none zremReply zaddReply
          report.PostID).2.hotList.score member
          = (DeleteByReport w replies report).2.hotList.score member := by
      intro member hm
      rw [hupd]
      cases zremReply with
      | some msg => rfl
      | none => exact ZSet.score_rem_ne _ _ _ hm
    have hgone : replies.zrem = none ∨ zremReply = none →
        (UpdateHotListScore (DeleteByReport w replies report).2 none zremReply zaddReply
          report.PostID).2.hotList.score (Itoa report.PostID) = none := by
      intro h
      rw [hupd]
      cases zremReply with
      | none => exact ZSet.score_rem_self _ _
      | some msg =>
        rcases h with h | h
        · exact hone h
        · cases h
    refine ⟨hone, ?_, hfirst, ?_, hother, hgone, ?_, ?_, ?_, ?_⟩
    · intro hz
      rw [hhot]
      cases hz2 : replies.zrem with
      | none => exact absurd hz2 hz
      | some msg => rfl
    · rw [hupd]
      cases zremReply <;> rfl
    · intro hz member
      by_cases hm : member = Itoa report.PostID
      · rw [hm, hgone (Or.inl hz), hone hz]
      · exact hother member hm
    · intro hz
      rw [hupd, hz]
    · intro hz
      rw [hupd]
      cases zremReply with
      | none => exact absurd rfl hz
      | some msg => rfl
    · rw [hupd]
      cases zremReply <;> rfl

/-- Witness of C2: post 7 is deleted from the example world while the store
refuses the `ZRem`; the `UpdateHotListScore` that follows, with its `ZRem`
carried out, removes the entry of post 7 and returns no error. -/
theorem DeleteByReport_post_then_UpdateHotListScore_witness :
    (UpdateHotListScore (DeleteByReport demoWorld
      { delete := none, update := none, first := none, zadd := none,
        zrem := some "redis: connection refused", cacheDelete := none }
      { IsComment := false, PostID := 7, CommentID := 0 }).2 none none none 7).1 = none ∧
    (UpdateHotListScore (DeleteByReport demoWorld
      { delete := none, update := none, first := none, zadd := none,
        zrem := some "redis: connection refused", cacheDelete := none }
      { IsComment := false, PostID := 7, CommentID := 0 }).2 none none none
        7).2.hotList.score (Itoa 7) = none :=
  have h := DeleteByReport_post_then_UpdateHotListScore demoWorld
    { delete := none, update := none, first := none, zadd := none,
      zrem := some "redis: connection refused", cacheDelete := none }
    { IsComment := false, PostID := 7, CommentID := 0 } none none rfl rfl
  ⟨h.2.2.2.1, h.2.2.2.2.2.1 (Or.inr rfl)⟩

/-! ## The batch read: what each loop computes -/

theorem partitionStep_of_hit (cache : Cache) (getReply : String → Reply) (now : Time)
    (st : Partition) (p : Post) (v : List Comment)
    (he : NeedCacheComment p now = true) (hv : cacheAnswer cache getReply p.ID = some v) :
    partitionStep cache getReply now st p = { st with rtn := st.rtn.set p.ID v } := by
  unfold cacheAnswer at hv
  unfold partitionStep
  simp only [he, Bool.not_true, Bool.false_eq_true, if_false]
  split at hv
  · rename_i cs hcs
    simp only [Option.some.injEq] at hv
    rw [hv]
  · exact absurd hv (by simp)

theorem partitionStep_of_not_hit (cache : Cache) (getReply : String → Reply) (now : Time)
    (st : Partition) (p : Post) (h : isEligibleHit cache getReply now p = false) :
    partitionStep cache getReply now st p =
      { st with noCachePidsArray := st.noCachePidsArray ++ [p.ID] } := by
  unfold isEligibleHit cacheAnswer at h
  unfold partitionStep
  by_cases he : NeedCacheComment p now = true
  · simp only [he, Bool.not_true, Bool.false_eq_true, if_false]
    simp only [he, Bool.true_and] at h
    split at h
    · simp at h
    · rfl
  · simp [he]

theorem partition_fold (cache : Cache) (getReply : String → Reply) (now : Time)
    (posts : List Post) :
    ∀ st : Partition,
      (posts.foldl (partitionStep cache getReply now) st).noCachePidsArray =
        st.noCachePidsArray ++
          (posts.filter (fun p => !isEligibleHit cache getReply now p)).map Post.ID ∧
      ∀ pid : Int, (posts.foldl (partitionStep cache getReply now) st).rtn.get pid =
        if posts.any (fun p => p.ID = pid && isEligibleHit cache getReply now p) = true
        then cacheAnswer cache getReply pid else st.rtn.get pid := by
  induction posts with
  | nil => intro st; simp
  | cons p ps ih =>
    intro st
    rw [List.foldl_cons]
    cases hh : isEligibleHit cache getReply now p with
    | false =>
      rw [partitionStep_of_not_hit cache getReply now st p hh]
      obtain ⟨h1, h2⟩ := ih { st with noCachePidsArray := st.noCachePidsArray ++ [p.ID] }
      refine ⟨?_, ?_⟩
      · rw [h1]; simp [List.filter_cons, hh]
      · intro pid
        rw [h2 pid]
        simp [List.any_cons, hh]
    | true =>
      have hh2 := hh
      unfold isEligibleHit at hh2
      rw [Bool.and_eq_true] at hh2
      obtain ⟨he, hsome⟩ := hh2
      obtain ⟨v, hv⟩ := Option.isSome_iff_exists.mp hsome
      rw [partitionStep_of_hit cache getReply now st p v he hv]
      obtain ⟨h1, h2⟩ := ih { st with rtn := st.rtn.set p.ID v }
      refine ⟨?_, ?_⟩
      · rw [h1]; simp [List.filter_cons, hh]
      · intro pid
        rw [h2 pid]
        by_cases hpid : pid = p.ID
        · subst hpid
          simp [List.any_cons, hh, GoMap.get_set_self, hv]
        · have hne : ¬ p.ID = pid := fun e => hpid e.symm
          simp [List.any_cons, hne, GoMap.get_set_ne _ _ _ _ hpid]

theorem groupByPost_fold (pid : Int) (cs : List Comment) :
    ∀ m : GoMap (List Comment),
      ((cs.foldl (fun m comment =>
          m.set comment.PostID ((m.get comment.PostID).getD [] ++ [comment])) m).get pid).getD []
        = (m.get pid).getD [] ++ cs.filter (fun c => c.PostID = pid) := by
  induction cs with
  | nil => intro m; simp
  | cons c rest ih =>
    intro m
    rw [List.foldl_cons, ih]
    by_cases hc : c.PostID = pid
    · subst hc
      rw [GoMap.get_set_self]
      simp [List.filter_cons]
    · have hne : pid ≠ c.PostID := fun e => hc e.symm
      rw [GoMap.get_set_ne _ _ _ _ hne]
      simp [List.filter_cons, hc]

theorem commentsOf_groupByPost (cs : List Comment) (pid : Int) :
    commentsOf (groupByPost cs) pid = cs.filter (fun c => c.PostID = pid) := by
  have h := groupByPost_fold pid cs []
  have hnil : (GoMap.get ([] : GoMap (List Comment)) pid).getD [] = [] := rfl
  rw [hnil, List.nil_append] at h
  unfold commentsOf
  unfold groupByPost
  cases hg : GoMap.get (cs.foldl (fun m comment =>
      m.set comment.PostID ((m.get comment.PostID).getD [] ++ [comment])) []) pid with
  | none => rw [hg] at h; simpa using h
  | some v => rw [hg] at h; simpa using h

theorem mergeStep_eq (posts : List Post) (now : Time) (commentsMap : GoMap (List Comment))
    (setReply : String → Reply) (st : Merge) (pid : Int) :
    mergeStep posts now commentsMap setReply st pid =
      { rtn := st.rtn.set pid (commentsOf commentsMap pid),
        sets := if shouldCache posts now pid = true
          then st.sets ++ [itemFor commentsMap pid] else st.sets,
        cache := if shouldCache posts now pid = true
          then (commentCacheSet st.cache (setReply ("pid" ++ Itoa pid))
            (itemFor commentsMap pid)).2 else st.cache } := by
  unfold mergeStep shouldCache itemFor commentsOf
  cases hg : (buildPostMap posts).get pid with
  | none => simp [hg]
  | some p =>
    by_cases he : NeedCacheComment p now = true
    · simp [hg, he]
    · simp [hg, he]

theorem merge_fold (posts : List Post) (now : Time) (commentsMap : GoMap (List Comment))
    (setReply : String → Reply) (pids : List Int) :
    ∀ st : Merge,
      (∀ pid : Int, (pids.foldl (mergeStep posts now commentsMap setReply) st).rtn.get pid =
        if pid ∈ pids then some (commentsOf commentsMap pid) else st.rtn.get pid) ∧
      (pids.foldl (mergeStep posts now commentsMap setReply) st).sets =
        st.sets ++ (pids.filter (shouldCache posts now)).map (itemFor commentsMap) := by
  induction pids with
  | nil => intro st; simp
  | cons q qs ih =>
    intro st
    rw [List.foldl_cons]
    obtain ⟨h1, h2⟩ := ih (mergeStep posts now commentsMap setReply st q)
    refine ⟨?_, ?_⟩
    · intro pid
      rw [h1 pid, mergeStep_eq]
      by_cases hq : pid ∈ qs
      · simp [hq]
      · by_cases hpq : pid = q
        · subst hpq
          simp [hq, GoMap.get_set_self]
        · simp [hq, hpq, GoMap.get_set_ne _ _ _ _ hpq]
    · rw [h2, mergeStep_eq]
      by_cases hs : shouldCache posts now q = true
      · simp [hs, List.filter_cons]
      · simp [hs, List.filter_cons]

theorem buildPostMap_fold_sound (pid : Int) (q : Post) (posts : List Post) :
    ∀ m : GoMap Post, (posts.foldl (fun m p => m.set p.ID p) m).get pid = some q →
      (q ∈ posts ∧ q.ID = pid) ∨ m.get pid = some q := by
  induction posts with
  | nil => intro m h; exact Or.inr h
  | cons p ps ih =>
    intro m h
    rw [List.foldl_cons] at h
    rcases ih _ h with ⟨hq, hid⟩ | hm
    · exact Or.inl ⟨List.mem_cons_of_mem _ hq, hid⟩
    · by_cases hp : pid = p.ID
      · rw [hp, GoMap.get_set_self] at hm
        simp only [Option.some.injEq] at hm
        subst hm
        exact Or.inl ⟨List.mem_cons_self _ _, hp.symm⟩
      · rw [GoMap.get_set_ne _ _ _ _ hp] at hm
        exact Or.inr hm

theorem buildPostMap_fold_complete (pid : Int) (posts : List Post) :
    ∀ m : GoMap Post, ((∃ p ∈ posts, p.ID = pid) ∨ (m.get pid).isSome = true) →
      ((posts.foldl (fun m p => m.set p.ID p) m).get pid).isSome = true := by
  induction posts with
  | nil =>
    intro m h
    rcases h with ⟨p, hp, _⟩ | h
    · cases hp
    · exact h
  | cons p ps ih =>
    intro m h
    rw [List.foldl_cons]
    apply ih
    by_cases hp : pid = p.ID
    · right
      rw [hp, GoMap.get_set_self]
      rfl
    · rcases h with ⟨x, hx, hxid⟩ | h
      · rcases List.mem_cons.mp hx with rfl | hx2
        · exact absurd hxid.symm hp
        · exact Or.inl ⟨x, hx2, hxid⟩
      · right
        rw [GoMap.get_set_ne _ _ _ _ hp]
        exact h

theorem buildPostMap_get_of_mem (posts : List Post) (p : Post) (hp : p ∈ posts) :
    ∃ q, (buildPostMap posts).get p.ID = some q ∧ q ∈ posts ∧ q.ID = p.ID := by
  have hsome := buildPostMap_fold_complete p.ID posts [] (Or.inl ⟨p, hp, rfl⟩)
  obtain ⟨q, hq⟩ := Option.isSome_iff_exists.mp hsome
  rcases buildPostMap_fold_sound p.ID q posts [] hq with h | h
  · exact ⟨q, hq, h.1, h.2⟩
  · cases h

theorem NeedCacheComment_congr (p q : Post) (now : Time) (h : p.CreatedAt = q.CreatedAt) :
    NeedCacheComment p now = NeedCacheComment q now := by
  unfold NeedCacheComment
  rw [h]

theorem shouldCache_of_mem (posts : List Post) (now : Time)
    (hsame : ∀ p ∈ posts, ∀ q ∈ posts, p.ID = q.ID → p.CreatedAt = q.CreatedAt)
    (p : Post) (hp : p ∈ posts) :
    shouldCache posts now p.ID = NeedCacheComment p now := by
  obtain ⟨q, hq, hqmem, hqid⟩ := buildPostMap_get_of_mem posts p hp
  unfold shouldCache
  rw [hq]
  exact NeedCacheComment_congr q p now (hsame q hqmem p hp hqid)

theorem batch_noCache (cache : Cache) (getReply : String → Reply) (now : Time)
    (posts : List Post) :
    (posts.foldl (partitionStep cache getReply now)
      { rtn := [], noCachePidsArray := [] }).noCachePidsArray
      = idsToQuery cache getReply now posts := by
  rw [(partition_fold cache getReply now posts { rtn := [], noCachePidsArray := [] }).1]
  rfl

theorem batch_queries (db : Db) (cache : Cache) (getReply : String → Reply)
    (queryReply : Reply) (setReply : String → Reply) (posts : List Post) (now : Time) :
    (GetMultipleCommentsWithCache db cache getReply queryReply setReply posts now).queries =
      if idsToQuery cache getReply now posts = [] then []
      else [idsToQuery cache getReply now posts] := by
  unfold GetMultipleCommentsWithCache
  simp only [batch_noCache]
  by_cases hnil : idsToQuery cache getReply now posts = []
  · simp [hnil]
  · have hpos : (idsToQuery cache getReply now posts).length > 0 :=
      List.length_pos.mpr hnil
    simp only [hpos, if_true, if_neg hnil]
    cases queryReply <;> simp [GetMultipleComments]

theorem batch_get (db : Db) (cache : Cache) (getReply : String → Reply)
    (queryReply : Reply) (setReply : String → Reply) (posts : List Post) (now : Time)
    (rtn : GoMap (List Comment))
    (hok : (GetMultipleCommentsWithCache db cache getReply queryReply setReply posts now).result
      = .ok rtn) (pid : Int) :
    rtn.get pid =
      if pid ∈ idsToQuery cache getReply now posts then
        some ((GetMultipleComments db none (idsToQuery cache getReply now posts)).1.filter
          (fun c => c.PostID = pid))
      else if posts.any (fun p => p.ID = pid && isEligibleHit cache getReply now p) = true
        then cacheAnswer cache getReply pid else none := by
  have hrtn := (partition_fold cache getReply now posts
    { rtn := [], noCachePidsArray := [] }).2
  unfold GetMultipleCommentsWithCache at hok
  simp only [batch_noCache] at hok
  by_cases hnil : idsToQuery cache getReply now posts = []
  · simp only [hnil, List.length_nil, gt_iff_lt, lt_self_iff_false, if_false,
      Except.ok.injEq] at hok
    rw [← hok, hrtn pid, hnil]
    simp [GoMap.get]
  · have hpos : (idsToQuery cache getReply now posts).length > 0 :=
      List.length_pos.mpr hnil
    simp only [hpos, if_true] at hok
    cases queryReply with
    | some msg => simp [GetMultipleComments] at hok
    | none =>
      simp only [GetMultipleComments, Except.ok.injEq] at hok
      rw [← hok, (merge_fold posts now _ setReply _ _).1 pid, commentsOf_groupByPost,
        hrtn pid]
      simp [GetMultipleComments, GoMap.get]

theorem batch_sets (db : Db) (cache : Cache) (getReply : String → Reply)
    (queryReply : Reply) (setReply : String → Reply) (posts : List Post) (now : Time)
    (rtn : GoMap (List Comment))
    (hok : (GetMultipleCommentsWithCache db cache getReply queryReply setReply posts now).result
      = .ok rtn) :
    (GetMultipleCommentsWithCache db cache getReply queryReply setReply posts now).sets =
      ((idsToQuery cache getReply now posts).filter (shouldCache posts now)).map
        (itemFor (groupByPost
          (GetMultipleComments db none (idsToQuery cache getReply now posts)).1)) := by
  unfold GetMultipleCommentsWithCache at hok ⊢
  simp only [batch_noCache] at hok ⊢
  by_cases hnil : idsToQuery cache getReply now posts = []
  · simp [hnil]
  · have hpos : (idsToQuery cache getReply now posts).length > 0 :=
      List.length_pos.mpr hnil
    simp only [hpos, if_true] at hok ⊢
    cases queryReply with
    | some msg => simp [GetMultipleComments] at hok
    | none =>
      simp only [GetMultipleComments]
      rw [(merge_fold posts now _ setReply _ _).2]
      simp

theorem mem_idsToQuery (cache : Cache) (getReply : String → Reply) (now : Time)
    (posts : List Post) (pid : Int) :
    pid ∈ idsToQuery cache getReply now posts ↔
      ∃ p ∈ posts, isEligibleHit cache getReply now p = false ∧ p.ID = pid := by
  unfold idsToQuery
  simp only [List.mem_map, List.mem_filter, Bool.not_eq_true', and_assoc]

theorem not_hit_iff (cache : Cache) (getReply : String → Reply) (now : Time) (p : Post) :
    (!isEligibleHit cache getReply now p) =
      (isIneligible now p || isEligibleMiss cache getReply now p) := by
  unfold isEligibleHit isIneligible isEligibleMiss
  cases NeedCacheComment p now <;> cases cacheAnswer cache getReply p.ID <;> rfl

theorem cacheAnswer_of_reply_none (cache : Cache) (getReply : String → Reply) (pid : Int)
    (cs : List Comment) (h : cacheAnswer cache getReply pid = some cs) :
    cache.lookup ("pid" ++ Itoa pid) = some cs := by
  unfold cacheAnswer commentCacheGet at h
  cases hr : getReply ("pid" ++ Itoa pid) with
  | some msg => simp [hr] at h
  | none =>
    cases hl : cache.lookup ("pid" ++ Itoa pid) with
    | none => simp [hr, hl] at h
    | some v => simpa [hr, hl] using h

theorem query_filter_nil (db : Db) (ids : List Int) (pid : Int)
    (hzero : ∀ c ∈ db.comments, c.PostID ≠ pid) :
    (GetMultipleComments db none ids).1.filter (fun c => c.PostID = pid) = [] := by
  rw [List.filter_eq_nil_iff]
  intro c hc
  simp only [GetMultipleComments, orderByIdAsc, List.mem_insertionSort, List.mem_filter] at hc
  simpa using hzero c hc.1

/-! ## The batch read: C4, C5, C6 -/

/-- C4, amended: for every list of posts and every cache state, when
`GetMultipleCommentsWithCache` succeeds the returned map has an entry exactly
for the ids of the requested posts.  A post read from the system of record
(ineligible, or missed in the cache) that has no comment there is mapped to the
empty sequence, not left out; so is every requested post without comments when
the cache holds only comments of the system of record.  A post answered from
the cache is mapped to the list the cache holds, whatever the system of record
holds. -/
theorem GetMultipleCommentsWithCache_entry_per_post (db : Db) (cache : Cache)
    (getReply : String → Reply) (queryReply : Reply) (setReply : String → Reply)
    (posts : List Post) (now : Time) (rtn : GoMap (List Comment))
    (hok : (GetMultipleCommentsWithCache db cache getReply queryReply setReply posts now).result
      = .ok rtn) :
    (∀ pid : Int, (rtn.get pid).isSome = true ↔ ∃ p ∈ posts, p.ID = pid) ∧
    (∀ p ∈ posts, isEligibleHit cache getReply now p = false →
      (∀ c ∈ db.comments, c.PostID ≠ p.ID) → rtn.get p.ID = some []) ∧
    ((∀ (pid : Int) (cs : List Comment), cache.lookup ("pid" ++ Itoa pid) = some cs →
        ∀ c ∈ cs, c ∈ db.comments ∧ c.PostID = pid) →
      ∀ p ∈ posts, (∀ c ∈ db.comments, c.PostID ≠ p.ID) → rtn.get p.ID = some []) := by
  have hget := batch_get db cache getReply queryReply setReply posts now rtn hok
  have hzero : ∀ p ∈ posts, isEligibleHit cache getReply now p = false →
      (∀ c ∈ db.comments, c.PostID ≠ p.ID) → rtn.get p.ID = some [] := by
    intro p hp hmiss hnone
    have hmem : p.ID ∈ idsToQuery cache getReply now posts :=
      (mem_idsToQuery cache getReply now posts p.ID).mpr ⟨p, hp, hmiss, rfl⟩
    rw [hget p.ID, if_pos hmem, query_filter_nil db _ p.ID hnone]
  refine ⟨?_, hzero, ?_⟩
  · intro pid
    rw [hget pid]
    constructor
    · intro h
      by_cases hmem : pid ∈ idsToQuery cache getReply now posts
      · obtain ⟨p, hp, _, hid⟩ := (mem_idsToQuery cache getReply now posts pid).mp hmem
        exact ⟨p, hp, hid⟩
      · rw [if_neg hmem] at h
        by_cases hany : posts.any (fun p => p.ID = pid && isEligibleHit cache getReply now p) = true
        · obtain ⟨p, hp, hcond⟩ := List.any_eq_true.mp hany
          simp only [Bool.and_eq_true, decide_eq_true_eq] at hcond
          exact ⟨p, hp, hcond.1⟩
        · rw [if_neg hany] at h
          cases h
    · rintro ⟨p, hp, hid⟩
      by_cases hmem : pid ∈ idsToQuery cache getReply now posts
      · rw [if_pos hmem]; rfl
      · rw [if_neg hmem]
        have hhit : isEligibleHit cache getReply now p = true := by
          by_contra hne
          exact hmem ((mem_idsToQuery cache getReply now posts pid).mpr
            ⟨p, hp, by simpa using hne, hid⟩)
        have hany : posts.any (fun p => p.ID = pid && isEligibleHit cache getReply now p) = true :=
          List.any_eq_true.mpr ⟨p, hp, by simp [hid, hhit]⟩
        rw [if_pos hany]
        unfold isEligibleHit at hhit
        rw [Bool.and_eq_true] at hhit
        rw [← hid]
        exact hhit.2
  · intro hcoh p hp hnone
    cases hh : isEligibleHit cache getReply now p with
    | false => exact hzero p hp hh hnone
    | true =>
      by_cases hmem : p.ID ∈ idsToQuery cache getReply now posts
      · rw [hget p.ID, if_pos hmem, query_filter_nil db _ p.ID hnone]
      · have hany : posts.any
            (fun q => q.ID = p.ID && isEligibleHit cache getReply now q) = true :=
          List.any_eq_true.mpr ⟨p, hp, by simp [hh]⟩
        rw [hget p.ID, if_neg hmem, if_pos hany]
        have hh2 := hh
        unfold isEligibleHit at hh2
        rw [Bool.and_eq_true] at hh2
        obtain ⟨cs, hcs⟩ := Option.isSome_iff_exists.mp hh2.2
        rw [hcs]
        have hl := cacheAnswer_of_reply_none cache getReply p.ID cs hcs
        cases cs with
        | nil => rfl
        | cons c rest =>
          exact absurd (hcoh p.ID _ hl c (List.mem_cons_self _ _)).2
            (hnone c (hcoh p.ID _ hl c (List.mem_cons_self _ _)).1)

/-- C5: `GetMultipleCommentsWithCache` sends at most one query to the system of
record; the query names exactly the ids of the posts that are ineligible or
eligible but missed in the cache, it is sent whenever there is such a post, and
no query is sent when every post is an eligible hit. -/
theorem GetMultipleCommentsWithCache_single_query (db : Db) (cache : Cache)
    (getReply : String → Reply) (queryReply : Reply) (setReply : String → Reply)
    (posts : List Post) (now : Time) :
    (GetMultipleCommentsWithCache db cache getReply queryReply setReply posts now).queries.length
      ≤ 1 ∧
    (GetMultipleCommentsWithCache db cache getReply queryReply setReply posts now).queries =
      (if (posts.filter (fun p =>
            isIneligible now p || isEligibleMiss cache getReply now p)).map Post.ID = []
        then []
        else [(posts.filter (fun p =>
            isIneligible now p || isEligibleMiss cache getReply now p)).map Post.ID]) ∧
    (∀ q ∈ (GetMultipleCommentsWithCache db cache getReply queryReply setReply posts now).queries,
      ∀ pid : Int, pid ∈ q ↔
        ∃ p ∈ posts, (isIneligible now p || isEligibleMiss cache getReply now p) = true
          ∧ p.ID = pid) ∧
    ((posts.all (fun p => isEligibleHit cache getReply now p) = true) ↔
      (GetMultipleCommentsWithCache db cache getReply queryReply setReply posts now).queries
        = []) := by
  have hids : idsToQuery cache getReply now posts =
      (posts.filter (fun p =>
        isIneligible now p || isEligibleMiss cache getReply now p)).map Post.ID := by
    unfold idsToQuery
    simp only [not_hit_iff]
  have hq := batch_queries db cache getReply queryReply setReply posts now
  rw [hids] at hq
  refine ⟨?_, hq, ?_, ?_⟩
  · rw [hq]; split <;> simp
  · intro q hqmem pid
    rw [hq] at hqmem
    split at hqmem
    · cases hqmem
    · simp only [List.mem_singleton] at hqmem
      subst hqmem
      simp only [List.mem_map, List.mem_filter, and_assoc]
  · rw [hq]
    constructor
    · intro hall
      rw [if_pos]
      rw [List.map_eq_nil_iff, List.filter_eq_nil_iff]
      intro p hp
      have hhit := List.all_eq_true.mp hall p hp
      rw [← not_hit_iff, hhit]
      simp
    · intro hnil
      split at hnil
      · rename_i hempty
        rw [List.map_eq_nil_iff, List.filter_eq_nil_iff] at hempty
        rw [List.all_eq_true]
        intro p hp
        have := hempty p hp
        rw [← not_hit_iff] at this
        simpa using this
      · cases hnil

theorem isEligibleMiss_congr (cache : Cache) (getReply : String → Reply) (now : Time)
    (p q : Post) (hid : p.ID = q.ID) (hc : p.CreatedAt = q.CreatedAt) :
    isEligibleMiss cache getReply now p = isEligibleMiss cache getReply now q := by
  unfold isEligibleMiss
  rw [NeedCacheComment_congr p q now hc, hid]

theorem miss_of_not_hit (cache : Cache) (getReply : String → Reply) (now : Time) (p : Post)
    (hh : isEligibleHit cache getReply now p = false) (he : NeedCacheComment p now = true) :
    isEligibleMiss cache getReply now p = true := by
  have h := not_hit_iff cache getReply now p
  rw [hh] at h
  unfold isIneligible at h
  rw [he] at h
  simpa using h.symm

theorem not_hit_of_miss (cache : Cache) (getReply : String → Reply) (now : Time) (p : Post)
    (hm : isEligibleMiss cache getReply now p = true) :
    isEligibleHit cache getReply now p = false ∧ NeedCacheComment p now = true := by
  unfold isEligibleMiss at hm
  rw [Bool.and_eq_true] at hm
  refine ⟨?_, hm.1⟩
  unfold isEligibleHit
  rw [hm.1]
  have := hm.2
  cases hca : cacheAnswer cache getReply p.ID with
  | none => rfl
  | some v => rw [hca] at this; cases this

theorem batch_sets_spec (db : Db) (cache : Cache)
    (getReply : String → Reply) (queryReply : Reply) (setReply : String → Reply)
    (posts : List Post) (now : Time) (rtn : GoMap (List Comment))
    (hsame : ∀ p ∈ posts, ∀ q ∈ posts, p.ID = q.ID → p.CreatedAt = q.CreatedAt)
    (hok : (GetMultipleCommentsWithCache db cache getReply queryReply setReply posts now).result
      = .ok rtn) :
    (∀ p ∈ posts,
      (∃ it ∈ (GetMultipleCommentsWithCache db cache getReply queryReply setReply
          posts now).sets, it.Key = "pid" ++ Itoa p.ID) ↔
        isEligibleMiss cache getReply now p = true) ∧
    (∀ it ∈ (GetMultipleCommentsWithCache db cache getReply queryReply setReply
        posts now).sets,
      ∃ p ∈ posts, it.Key = "pid" ++ Itoa p.ID ∧ isEligibleMiss cache getReply now p = true ∧
        rtn.get p.ID = some it.Value ∧ it.TTL = 5 * 3600 * 1000000000) := by
  have hget := batch_get db cache getReply queryReply setReply posts now rtn hok
  have hsets := batch_sets db cache getReply queryReply setReply posts now rtn hok
  have hitems : ∀ it ∈ (GetMultipleCommentsWithCache db cache getReply queryReply setReply
      posts now).sets,
      ∃ p ∈ posts, it.Key = "pid" ++ Itoa p.ID ∧ isEligibleMiss cache getReply now p = true ∧
        rtn.get p.ID = some it.Value ∧ it.TTL = 5 * 3600 * 1000000000 := by
    intro it hit
    rw [hsets, List.mem_map] at hit
    obtain ⟨pid, hpid, hitem⟩ := hit
    rw [List.mem_filter] at hpid
    obtain ⟨hmem, hshould⟩ := hpid
    obtain ⟨p, hp, hnohit, hid⟩ := (mem_idsToQuery cache getReply now posts pid).mp hmem
    subst hid
    rw [shouldCache_of_mem posts now hsame p hp] at hshould
    refine ⟨p, hp, ?_, miss_of_not_hit cache getReply now p hnohit hshould, ?_, ?_⟩
    · rw [← hitem]; rfl
    · rw [hget p.ID, if_pos hmem, ← hitem]
      simp only [itemFor, commentsOf_groupByPost]
    · rw [← hitem]
      simp [itemFor, CommentCacheExpireTime, nsPerSecond]
  refine ⟨?_, hitems⟩
  intro p hp
  constructor
  · rintro ⟨it, hit, hkey⟩
    obtain ⟨q, hq, hqkey, hqmiss, _, _⟩ := hitems it hit
    have hid : q.ID = p.ID := pidKey_injective _ _ (hqkey.symm.trans hkey)
    rw [← isEligibleMiss_congr cache getReply now q p hid (hsame q hq p hp hid)]
    exact hqmiss
  · intro hmiss
    obtain ⟨hnohit, helig⟩ := not_hit_of_miss cache getReply now p hmiss
    refine ⟨itemFor (groupByPost
      (GetMultipleComments db none (idsToQuery cache getReply now posts)).1) p.ID, ?_, rfl⟩
    rw [hsets, List.mem_map]
    refine ⟨p.ID, ?_, rfl⟩
    rw [List.mem_filter]
    refine ⟨(mem_idsToQuery cache getReply now posts p.ID).mpr ⟨p, hp, hnohit, rfl⟩, ?_⟩
    rw [shouldCache_of_mem posts now hsame p hp]
    exact helig

/-! ### Scenario: post 1 eligible and cached, post 2 eligible and not cached,
post 3 too old to be cached -/

/-- Witness of C4: in the scenario the returned map has entries for exactly
posts 1, 2 and 3, and post 2, which has no comments, is mapped to `[]`. -/
theorem GetMultipleCommentsWithCache_entry_per_post_witness :
    (∀ pid : Int, (demoRtn.get pid).isSome = true ↔ ∃ p ∈ demoPosts, p.ID = pid) ∧
    demoRtn.get 2 = some [] :=
  have h := GetMultipleCommentsWithCache_entry_per_post demoDb demoCache (fun _ => none) none
    (fun _ => none) demoPosts demoNow demoRtn rfl
  ⟨h.1, h.2.1 (demoPostOn 2 397) (by decide) rfl (by decide)⟩

/-! ## The single read -/

/-- C7 (the code at the failing input): post 1 is eligible and not cached, the
query of the system of record succeeds, the cache `Set` fails.
`GetCommentsWithCache` hands back the fetched comments together with the error
of the `Set`, where the batch read of the same post returns its map without
error. -/
theorem GetCommentsWithCache_returns_set_error :
    (GetCommentsWithCache demoDb [] none none (some "redis: connection refused")
      (demoPostOn 1 398) demoNow).comments = [demoComment 10 1 "a"] ∧
    (GetCommentsWithCache demoDb [] none none (some "redis: connection refused")
      (demoPostOn 1 398) demoNow).err = some (Error.other "redis: connection refused") ∧
    (GetMultipleCommentsWithCache demoDb [] (fun _ => none) none
      (fun _ => some "redis: connection refused") [demoPostOn 1 398] demoNow).result
      = .ok [(1, [demoComment 10 1 "a"])] :=
  ⟨rfl, rfl, rfl⟩

/-! ## Invalidating the cached comments of a post -/

theorem UpdateHotListScore_frame (w : World) (firstReply zremReply zaddReply : Reply)
    (postID : Int) :
    (UpdateHotListScore w firstReply zremReply zaddReply postID).2.commentCache
      = w.commentCache ∧
    (UpdateHotListScore w firstReply zremReply zaddReply postID).2.db = w.db := by
  unfold UpdateHotListScore
  cases firstPost w.db firstReply postID with
  | error err =>
    by_cases he : err = Error.ErrRecordNotFound
    · cases zremReply <;> simp [he]
    · simp [he]
  | ok post =>
    cases zaddReply <;> simp

theorem DelCommentCache_ok (c : Cache) (reply : Reply) (pid : Int)
    (h : (DelCommentCache c reply pid).1 = none) :
    (DelCommentCache c reply pid).2 = c.drop ("pid" ++ Itoa pid) := by
  cases reply with
  | some msg => simp [DelCommentCache, commentCacheDelete] at h
  | none => rfl

theorem drop_pid_lookup (c : Cache) (pid : Int) :
    (c.drop ("pid" ++ Itoa pid)).lookup ("pid" ++ Itoa pid) = none ∧
    (∀ key : String, key ≠ "pid" ++ Itoa pid →
      (c.drop ("pid" ++ Itoa pid)).lookup key = c.lookup key) ∧
    (∀ q : Int, q ≠ pid →
      (c.drop ("pid" ++ Itoa pid)).lookup ("pid" ++ Itoa q) = c.lookup ("pid" ++ Itoa q)) := by
  refine ⟨Cache.lookup_drop_self _ _, fun key hk => Cache.lookup_drop_ne _ _ _ hk, ?_⟩
  intro q hq
  exact Cache.lookup_drop_ne _ _ _ (fun e => hq (pidKey_injective _ _ e))

theorem GetCommentsWithCache_of_absent (db : Db) (cache : Cache)
    (getReply queryReply setReply : Reply) (post : Post) (now : Time)
    (he : NeedCacheComment post now = true)
    (habs : cache.lookup ("pid" ++ Itoa post.ID) = none) :
    (GetCommentsWithCache db cache getReply queryReply setReply post now).queried = [post.ID] ∧
    (GetCommentsWithCache db cache getReply queryReply setReply post now).comments =
      (GetComments db queryReply post.ID).1 := by
  unfold GetCommentsWithCache
  have hget : ∃ e, commentCacheGet cache getReply ("pid" ++ Itoa post.ID) = .error e := by
    unfold commentCacheGet
    cases getReply with
    | some msg => exact ⟨_, rfl⟩
    | none => rw [habs]; exact ⟨_, rfl⟩
  obtain ⟨e, hge⟩ := hget
  simp only [he, Bool.not_true, Bool.false_eq_true, if_false, hge]
  cases hq : (GetComments db queryReply post.ID).2 <;> simp

theorem SaveComment_ok (w : World) (saveReply delReply : Reply) (newID uid : Int)
    (text tag typ filePath : String) (pid replyTo : Int) (name metaStr : String)
    (hok : (SaveComment w saveReply delReply newID uid text tag typ filePath pid replyTo
      name metaStr).1.2 = none) :
    (SaveComment w saveReply delReply newID uid text tag typ filePath pid replyTo
      name metaStr).2.commentCache = w.commentCache.drop ("pid" ++ Itoa pid) ∧
    (SaveComment w saveReply delReply newID uid text tag typ filePath pid replyTo
      name metaStr).2.db.comments = w.db.comments ++
        [{ ID := newID, Deleted := false, Tag := tag, UserID := uid, PostID := pid,
           ReplyTo := replyTo, Text := text, Typ := typ, FilePath := filePath, Name := name,
           FileMetadata := metaStr }] := by
  cases saveReply with
  | some msg => simp [SaveComment] at hok
  | none => exact ⟨DelCommentCache_ok w.commentCache delReply pid hok, rfl⟩

theorem DeleteByReport_comment_ok (w : World) (replies : DeleteReplies) (report : Report)
    (hc : report.IsComment = true) (hok : (DeleteByReport w replies report).1 = none) :
    (DeleteByReport w replies report).2.commentCache =
      w.commentCache.drop ("pid" ++ Itoa report.PostID) := by
  unfold DeleteByReport at hok ⊢
  simp only [hc, if_true] at hok ⊢
  cases hd : replies.delete with
  | some msg => simp [hd] at hok
  | none =>
    simp only [hd] at hok ⊢
    cases hu : replies.update with
    | some msg => simp [hu] at hok
    | none =>
      simp only [hu] at hok ⊢
      rw [(UpdateHotListScore_frame _ _ _ _ _).1] at hok ⊢
      exact DelCommentCache_ok _ _ _ hok

/-- C8: after `SaveComment` has stored a comment on post `pid` and returned no
error, and after `DeleteByReport` has deleted a comment under a report on post
`PostID` and returned no error, the comment cache has no entry for that post,
the entries of all other posts are what they were, and the next read of the
post while it is cache-eligible queries the system of record and returns the
full list of its comments. -/
theorem comment_write_invalidates_cache (w : World) :
    (∀ (saveReply delReply : Reply) (newID uid : Int) (text tag typ filePath : String)
        (pid replyTo : Int) (name metaStr : String),
      (SaveComment w saveReply delReply newID uid text tag typ filePath pid replyTo
        name metaStr).1.2 = none →
      (SaveComment w saveReply delReply newID uid text tag typ filePath pid replyTo
        name metaStr).2.commentCache.lookup ("pid" ++ Itoa pid) = none ∧
      (∀ q : Int, q ≠ pid →
        (SaveComment w saveReply delReply newID uid text tag typ filePath pid replyTo
          name metaStr).2.commentCache.lookup ("pid" ++ Itoa q)
          = w.commentCache.lookup ("pid" ++ Itoa q)) ∧
      (∀ (post : Post) (now : Time) (getReply setReply : Reply),
        post.ID = pid → NeedCacheComment post now = true →
        (GetCommentsWithCache
          (SaveComment w saveReply delReply newID uid text tag typ filePath pid replyTo
            name metaStr).2.db
          (SaveComment w saveReply delReply newID uid text tag typ filePath pid replyTo
            name metaStr).2.commentCache getReply none setReply post now).queried = [pid] ∧
        (GetCommentsWithCache
          (SaveComment w saveReply delReply newID uid text tag typ filePath pid replyTo
            name metaStr).2.db
          (SaveComment w saveReply delReply newID uid text tag typ filePath pid replyTo
            name metaStr).2.commentCache getReply none setReply post now).comments =
          orderByIdAsc ((w.db.comments ++
            [{ ID := newID, Deleted := false, Tag := tag, UserID := uid, PostID := pid,
               ReplyTo := replyTo, Text := text, Typ := typ, FilePath := filePath,
               Name := name, FileMetadata := metaStr : Comment }]).filter
                 (fun c => c.PostID = pid)))) ∧
    (∀ (replies : DeleteReplies) (report : Report),
      report.IsComment = true → (DeleteByReport w replies report).1 = none →
      (DeleteByReport w replies report).2.commentCache.lookup
        ("pid" ++ Itoa report.PostID) = none ∧
      (∀ q : Int, q ≠ report.PostID →
        (DeleteByReport w replies report).2.commentCache.lookup ("pid" ++ Itoa q)
          = w.commentCache.lookup ("pid" ++ Itoa q)) ∧
      (∀ (post : Post) (now : Time) (getReply setReply : Reply),
        post.ID = report.PostID → NeedCacheComment post now = true →
        (GetCommentsWithCache (DeleteByReport w replies report).2.db
          (DeleteByReport w replies report).2.commentCache getReply none setReply
          post now).queried = [report.PostID] ∧
        (GetCommentsWithCache (DeleteByReport w replies report).2.db
          (DeleteByReport w replies report).2.commentCache getReply none setReply
          post now).comments =
          orderByIdAsc ((DeleteByReport w replies report).2.db.comments.filter
            (fun c => c.PostID = report.PostID)))) := by
  constructor
  · intro saveReply delReply newID uid text tag typ filePath pid replyTo name metaStr hok
    obtain ⟨hcache, hdb⟩ := SaveComment_ok w saveReply delReply newID uid text tag typ
      filePath pid replyTo name metaStr hok
    obtain ⟨h1, _, h3⟩ := drop_pid_lookup w.commentCache pid
    rw [hcache]
    refine ⟨h1, h3, ?_⟩
    intro post now getReply setReply hid he
    subst hid
    obtain ⟨hq, hcs⟩ := GetCommentsWithCache_of_absent
      (SaveComment w saveReply delReply newID uid text tag typ filePath post.ID replyTo
        name metaStr).2.db (w.commentCache.drop ("pid" ++ Itoa post.ID))
      getReply none setReply post now he h1
    refine ⟨hq, ?_⟩
    rw [hcs]
    simp only [GetComments, hdb]
  · intro replies report hc hok
    have hcache := DeleteByReport_comment_ok w replies report hc hok
    obtain ⟨h1, _, h3⟩ := drop_pid_lookup w.commentCache report.PostID
    rw [hcache]
    refine ⟨h1, h3, ?_⟩
    intro post now getReply setReply hid he
    rw [← hid] at h1 ⊢
    obtain ⟨hq, hcs⟩ := GetCommentsWithCache_of_absent (DeleteByReport w replies report).2.db
      (w.commentCache.drop ("pid" ++ Itoa post.ID)) getReply none setReply post now he h1
    refine ⟨hq, ?_⟩
    rw [hcs]
    simp only [GetComments]

/-- Witness of C8: a comment saved on post 1 drops the cached list of post 1 and
keeps that of post 3; deleting comment 11 of post 3 drops the list of post 3. -/
theorem comment_write_invalidates_cache_witness :
    ((SaveComment demoCachedWorld none none 13 9 "d" "" "text" "" 1 0 "Alice"
        "").2.commentCache.lookup ("pid" ++ Itoa 1) = none ∧
      (SaveComment demoCachedWorld none none 13 9 "d" "" "text" "" 1 0 "Alice"
        "").2.commentCache.lookup ("pid" ++ Itoa 3)
        = demoCachedWorld.commentCache.lookup ("pid" ++ Itoa 3)) ∧
    (DeleteByReport demoCachedWorld
      { delete := none, update := none, first := none, zadd := none, zrem := none,
        cacheDelete := none }
      { IsComment := true, PostID := 3, CommentID := 11 }).2.commentCache.lookup
        ("pid" ++ Itoa 3) = none :=
  have hs := (comment_write_invalidates_cache demoCachedWorld).1 none none 13 9 "d" "" "text" ""
    1 0 "Alice" "" rfl
  have hd := (comment_write_invalidates_cache demoCachedWorld).2
    { delete := none, update := none, first := none, zadd := none, zrem := none,
        cacheDelete := none }
    { IsComment := true, PostID := 3, CommentID := 11 } rfl rfl
  ⟨⟨hs.1, hs.2.1 3 (by decide)⟩, hd.1⟩

/-! ## Commenter names -/

theorem GenCommenterName_author (DzName : String)
    (GetCommenterName : Int → List String → List String → String)
    (db : Db) (replies : NameReplies) (dzUserID czUserID postID : Int)
    (names0 names1 : List String) (h : dzUserID = czUserID) :
    GenCommenterName DzName GetCommenterName db replies dzUserID czUserID postID names0 names1
      = ((DzName, none), db) := by
  unfold GenCommenterName
  rw [if_pos h]

theorem GenCommenterName_found (DzName : String)
    (GetCommenterName : Int → List String → List String → String)
    (db : Db) (replies : NameReplies) (dzUserID czUserID postID : Int)
    (names0 names1 : List String) (m : PostCommenter) (h : dzUserID ≠ czUserID)
    (hl : replies.lookup = none) (hm : findMapping db postID czUserID = some m) :
    GenCommenterName DzName GetCommenterName db replies dzUserID czUserID postID names0 names1
      = ((m.CommenterName, none), db) := by
  unfold findMapping at hm
  unfold GenCommenterName
  rw [if_neg h]
  simp only [hl, hm]

theorem GenCommenterName_ok_cases (DzName : String)
    (GetCommenterName : Int → List String → List String → String)
    (db : Db) (replies : NameReplies) (dzUserID czUserID postID : Int)
    (names0 names1 : List String)
    (hok : (GenCommenterName DzName GetCommenterName db replies dzUserID czUserID postID
      names0 names1).1.2 = none) :
    (dzUserID = czUserID ∧
      GenCommenterName DzName GetCommenterName db replies dzUserID czUserID postID
        names0 names1 = ((DzName, none), db)) ∨
    (dzUserID ≠ czUserID ∧ ∃ m, findMapping db postID czUserID = some m ∧
      GenCommenterName DzName GetCommenterName db replies dzUserID czUserID postID
        names0 names1 = ((m.CommenterName, none), db)) ∨
    (dzUserID ≠ czUserID ∧ findMapping db postID czUserID = none ∧
      ∃ post, firstPost db none postID = .ok post ∧
        GenCommenterName DzName GetCommenterName db replies dzUserID czUserID postID
          names0 names1 =
          ((GetCommenterName (post.DistinctCommenterCount + 1) names0 names1, none),
            allocated db post postID czUserID
              (GetCommenterName (post.DistinctCommenterCount + 1) names0 names1))) := by
  by_cases hdz : dzUserID = czUserID
  · exact Or.inl ⟨hdz, GenCommenterName_author _ _ _ _ _ _ _ _ _ hdz⟩
  · right
    cases hl : replies.lookup with
    | some msg =>
      unfold GenCommenterName at hok
      simp [hdz, hl] at hok
    | none =>
      cases hm : findMapping db postID czUserID with
      | some m =>
        exact Or.inl ⟨hdz, m, rfl, GenCommenterName_found _ _ _ _ _ _ _ _ _ m hdz hl hm⟩
      | none =>
        right
        refine ⟨hdz, rfl, ?_⟩
        unfold findMapping at hm
        unfold GenCommenterName at hok ⊢
        simp only [if_neg hdz, hl, hm, ne_eq, not_true_eq_false, if_false] at hok ⊢
        cases hlock : replies.lock with
        | some msg => simp [firstPost, hlock] at hok
        | none =>
          cases hf : firstPost db none postID with
          | error e => simp [hlock, hf] at hok
          | ok post =>
            simp only [hlock, hf] at hok ⊢
            cases hc : replies.create with
            | some msg => simp [hc] at hok
            | none =>
              simp only [hc] at hok ⊢
              cases hu : replies.update with
              | some msg => simp [hu] at hok
              | none =>
                exact ⟨post, rfl, rfl⟩

theorem GenCommenterName_mappings (DzName : String)
    (GetCommenterName : Int → List String → List String → String)
    (db : Db) (replies : NameReplies) (dzUserID czUserID postID : Int)
    (names0 names1 : List String) :
    (GenCommenterName DzName GetCommenterName db replies dzUserID czUserID postID
      names0 names1).2.postCommenters = db.postCommenters ∨
    (findMapping db postID czUserID = none ∧ ∃ newName,
      (GenCommenterName DzName GetCommenterName db replies dzUserID czUserID postID
        names0 names1).2.postCommenters =
        db.postCommenters ++
          [{ PostID := postID, UserID := czUserID, CommenterName := newName }]) := by
  by_cases hdz : dzUserID = czUserID
  · left; rw [GenCommenterName_author _ _ _ _ _ _ _ _ _ hdz]
  · cases hl : replies.lookup with
    | some msg =>
      left
      unfold GenCommenterName
      simp [hdz, hl]
    | none =>
      cases hm : findMapping db postID czUserID with
      | some m =>
        left; rw [GenCommenterName_found _ _ _ _ _ _ _ _ _ m hdz hl hm]
      | none =>
        unfold findMapping at hm
        unfold GenCommenterName
        simp only [if_neg hdz, hl, hm, ne_eq, not_true_eq_false, if_false]
        cases hf : firstPost db replies.lock postID with
        | error e => left; rfl
        | ok post =>
          simp only []
          cases hc : replies.create with
          | some msg => left; rfl
          | none =>
            right
            refine ⟨trivial, GetCommenterName (post.DistinctCommenterCount + 1) names0 names1, ?_⟩
            cases hu : replies.update <;> rfl

theorem findMapping_step (DzName : String)
    (GetCommenterName : Int → List String → List String → String)
    (db : Db) (replies : NameReplies) (dzUserID czUserID postID : Int)
    (names0 names1 : List String) (P U : Int) (m : PostCommenter)
    (hm : findMapping db P U = some m) :
    findMapping (GenCommenterName DzName GetCommenterName db replies dzUserID czUserID postID
      names0 names1).2 P U = some m ∧
    pairCount (GenCommenterName DzName GetCommenterName db replies dzUserID czUserID postID
      names0 names1).2 P U = pairCount db P U := by
  rcases GenCommenterName_mappings DzName GetCommenterName db replies dzUserID czUserID
    postID names0 names1 with h | ⟨hnone, newName, h⟩
  · unfold findMapping at hm
    unfold findMapping pairCount
    rw [h]
    exact ⟨hm, rfl⟩
  · have hne : ¬ (postID = P ∧ czUserID = U) := by
      rintro ⟨rfl, rfl⟩
      rw [hm] at hnone
      cases hnone
    unfold findMapping at hm
    unfold findMapping pairCount
    rw [h]
    refine ⟨?_, ?_⟩
    · rw [List.find?_append, hm]
      rfl
    · rw [List.filter_append, List.length_append]
      simp [hne]

theorem findMapping_runNameCalls (DzName : String)
    (GetCommenterName : Int → List String → List String → String)
    (P U : Int) (m : PostCommenter) (calls : List NameCall) :
    ∀ db : Db, findMapping db P U = some m →
      findMapping (runNameCalls DzName GetCommenterName db calls) P U = some m ∧
      pairCount (runNameCalls DzName GetCommenterName db calls) P U = pairCount db P U := by
  induction calls with
  | nil => intro db h; exact ⟨h, rfl⟩
  | cons c cs ih =>
    intro db h
    obtain ⟨h1, h2⟩ := findMapping_step DzName GetCommenterName db c.replies c.dzUserID
      c.czUserID c.postID c.names0 c.names1 P U m h
    obtain ⟨h3, h4⟩ := ih _ h1
    unfold runNameCalls at h3 h4 ⊢
    rw [List.foldl_cons]
    exact ⟨h3, h4.trans h2⟩

theorem pairCount_of_findMapping_none (db : Db) (P U : Int)
    (h : findMapping db P U = none) : pairCount db P U = 0 := by
  unfold findMapping at h
  unfold pairCount
  rw [List.length_eq_zero, List.filter_eq_nil_iff]
  intro m hm
  exact List.find?_eq_none.mp h m hm

theorem GenCommenterName_ok_mapping (DzName : String)
    (GetCommenterName : Int → List String → List String → String)
    (db : Db) (replies : NameReplies) (dzUserID czUserID postID : Int)
    (names0 names1 : List String) (hU : dzUserID ≠ czUserID)
    (hok : (GenCommenterName DzName GetCommenterName db replies dzUserID czUserID postID
      names0 names1).1.2 = none) :
    (∃ m, findMapping (GenCommenterName DzName GetCommenterName db replies dzUserID czUserID
        postID names0 names1).2 postID czUserID = some m ∧
      m.CommenterName = (GenCommenterName DzName GetCommenterName db replies dzUserID
        czUserID postID names0 names1).1.1) ∧
    (findMapping db postID czUserID = none →
      pairCount (GenCommenterName DzName GetCommenterName db replies dzUserID czUserID
        postID names0 names1).2 postID czUserID = 1) := by
  rcases GenCommenterName_ok_cases DzName GetCommenterName db replies dzUserID czUserID
    postID names0 names1 hok with ⟨hdz, _⟩ | ⟨_, m, hm, hres⟩ | ⟨_, hm, post, _, hres⟩
  · exact absurd hdz hU
  · rw [hres]
    refine ⟨⟨m, hm, rfl⟩, ?_⟩
    intro hnone
    rw [hm] at hnone
    cases hnone
  · rw [hres]
    refine ⟨⟨PostCommenter.mk postID czUserID
      (GetCommenterName (post.DistinctCommenterCount + 1) names0 names1), ?_, rfl⟩, ?_⟩
    · unfold findMapping at hm
      unfold findMapping allocated
      simp only
      rw [List.find?_append, hm]
      simp
    · intro _
      have h0 := pairCount_of_findMapping_none db postID czUserID hm
      unfold pairCount at h0
      unfold pairCount allocated
      simp only
      rw [List.filter_append, List.length_append, h0]
      simp

/-- C10: once `GenCommenterName` has returned a name for a user who is not the
author of the post, every later call for the same post and user that returns
without error returns that name and leaves all tables as they were, whatever
calls for this or other users and posts ran in between; the number of
mappings of the pair does not change any more, and it is one when the pair had
no mapping before the first call. -/
theorem GenCommenterName_stable (DzName : String)
    (GetCommenterName : Int → List String → List String → String)
    (db : Db) (first later : NameReplies) (dzUserID czUserID postID : Int)
    (names0 names1 names2 names3 : List String) (between : List NameCall)
    (hU : dzUserID ≠ czUserID)
    (hfirst : (GenCommenterName DzName GetCommenterName db first dzUserID czUserID postID
      names0 names1).1.2 = none)
    (hlater : (GenCommenterName DzName GetCommenterName
      (runNameCalls DzName GetCommenterName
        (GenCommenterName DzName GetCommenterName db first dzUserID czUserID postID
          names0 names1).2 between)
      later dzUserID czUserID postID names2 names3).1.2 = none) :
    (GenCommenterName DzName GetCommenterName
      (runNameCalls DzName GetCommenterName
        (GenCommenterName DzName GetCommenterName db first dzUserID czUserID postID
          names0 names1).2 between)
      later dzUserID czUserID postID names2 names3).1.1 =
      (GenCommenterName DzName GetCommenterName db first dzUserID czUserID postID
        names0 names1).1.1 ∧
    (GenCommenterName DzName GetCommenterName
      (runNameCalls DzName GetCommenterName
        (GenCommenterName DzName GetCommenterName db first dzUserID czUserID postID
          names0 names1).2 between)
      later dzUserID czUserID postID names2 names3).2 =
      runNameCalls DzName GetCommenterName
        (GenCommenterName DzName GetCommenterName db first dzUserID czUserID postID
          names0 names1).2 between ∧
    pairCount (runNameCalls DzName GetCommenterName
        (GenCommenterName DzName GetCommenterName db first dzUserID czUserID postID
          names0 names1).2 between) postID czUserID =
      pairCount (GenCommenterName DzName GetCommenterName db first dzUserID czUserID postID
        names0 names1).2 postID czUserID ∧
    (findMapping db postID czUserID = none →
      pairCount (runNameCalls DzName GetCommenterName
        (GenCommenterName DzName GetCommenterName db first dzUserID czUserID postID
          names0 names1).2 between) postID czUserID = 1) := by
  obtain ⟨⟨m, hm, hname⟩, hone⟩ := GenCommenterName_ok_mapping DzName GetCommenterName db
    first dzUserID czUserID postID names0 names1 hU hfirst
  obtain ⟨hrun, hcount⟩ := findMapping_runNameCalls DzName GetCommenterName postID czUserID m
    between _ hm
  rcases GenCommenterName_ok_cases DzName GetCommenterName _ later dzUserID czUserID
    postID names2 names3 hlater with ⟨hdz, _⟩ | ⟨_, m2, hm2, hres2⟩ | ⟨_, hnone, _⟩
  · exact absurd hdz hU
  · rw [hrun] at hm2
    simp only [Option.some.injEq] at hm2
    subst hm2
    rw [hres2]
    exact ⟨hname, rfl, hcount, fun h => hcount.trans (hone h)⟩
  · rw [hrun] at hnone
    cases hnone

/-- Witness of C10: user 5 is named on post 42, users 6 and 7 comment, and user
5 is given the same name again. -/
theorem GenCommenterName_stable_witness :
    (GenCommenterName "洞主" demoNames
      (runNameCalls "洞主" demoNames
        (GenCommenterName "洞主" demoNames demoNameDb allCarriedOut 1 5 42 [] []).2
        demoBetween)
      allCarriedOut 1 5 42 [] []).1.1 =
      (GenCommenterName "洞主" demoNames demoNameDb allCarriedOut 1 5 42 [] []).1.1 :=
  (GenCommenterName_stable "洞主" demoNames demoNameDb allCarriedOut allCarriedOut 1 5 42
    [] [] [] [] demoBetween (by decide) rfl rfl).1

/-- C12: every store operation of `GenCommenterName` that fails is handed to
the caller as the error, with an empty name: the mapping lookup, the locking
read of the post, the insert of the mapping and the update of the counter.  A
call that returns an error has not touched the posts table; only when the
counter update fails has it inserted a mapping row, and the enclosing
transaction, which is rolled back on an error, leaves the tables as they were
before the call.  A call that returns no error has either changed nothing or
inserted the mapping row and raised the counter together. -/
theorem GenCommenterName_all_or_nothing (DzName : String)
    (GetCommenterName : Int → List String → List String → String)
    (db : Db) (replies : NameReplies) (dzUserID czUserID postID : Int)
    (names0 names1 : List String) :
    (dzUserID ≠ czUserID → ∀ msg, replies.lookup = some msg →
      GenCommenterName DzName GetCommenterName db replies dzUserID czUserID postID
        names0 names1 = (("", some (Error.other msg)), db)) ∧
    (dzUserID ≠ czUserID → replies.lookup = none → findMapping db postID czUserID = none →
      ∀ msg, replies.lock = some msg →
      GenCommenterName DzName GetCommenterName db replies dzUserID czUserID postID
        names0 names1 = (("", some (Error.other msg)), db)) ∧
    (dzUserID ≠ czUserID → replies.lookup = none → findMapping db postID czUserID = none →
      replies.lock = none → ∀ post, firstPost db none postID = .ok post →
      ∀ msg, replies.create = some msg →
      GenCommenterName DzName GetCommenterName db replies dzUserID czUserID postID
        names0 names1 = (("", some (Error.other msg)), db)) ∧
    (dzUserID ≠ czUserID → replies.lookup = none → findMapping db postID czUserID = none →
      replies.lock = none → ∀ post, firstPost db none postID = .ok post →
      replies.create = none → ∀ msg, replies.update = some msg →
      GenCommenterName DzName GetCommenterName db replies dzUserID czUserID postID
        names0 names1 = (("", some (Error.other msg)),
          { db with postCommenters := db.postCommenters ++
              [{ PostID := postID, UserID := czUserID,
                 CommenterName :=
                   GetCommenterName (post.DistinctCommenterCount + 1) names0 names1 }] })) ∧
    (∀ e, (GenCommenterName DzName GetCommenterName db replies dzUserID czUserID postID
        names0 names1).1.2 = some e →
      (GenCommenterName DzName GetCommenterName db replies dzUserID czUserID postID
        names0 names1).1.1 = "" ∧
      (GenCommenterName DzName GetCommenterName db replies dzUserID czUserID postID
        names0 names1).2.posts = db.posts ∧
      GenCommenterNameInTransaction DzName GetCommenterName db replies dzUserID czUserID
        postID names0 names1 = (("", some e), db)) ∧
    ((GenCommenterName DzName GetCommenterName db replies dzUserID czUserID postID
        names0 names1).1.2 = none →
      GenCommenterNameInTransaction DzName GetCommenterName db replies dzUserID czUserID
        postID names0 names1 =
        GenCommenterName DzName GetCommenterName db replies dzUserID czUserID postID
          names0 names1 ∧
      ((GenCommenterName DzName GetCommenterName db replies dzUserID czUserID postID
          names0 names1).2 = db ∨
        ∃ post newName, firstPost db none postID = .ok post ∧
          (GenCommenterName DzName GetCommenterName db replies dzUserID czUserID postID
            names0 names1).2 = allocated db post postID czUserID newName)) := by
  refine ⟨?_, ?_, ?_, ?_, ?_, ?_⟩
  · intro hdz msg hl
    unfold GenCommenterName
    simp [hdz, hl]
  · intro hdz hl hm msg hlock
    unfold findMapping at hm
    unfold GenCommenterName
    simp only [if_neg hdz, hl, hm, ne_eq, not_true_eq_false, if_false, hlock, firstPost]
  · intro hdz hl hm hlock post hf msg hc
    unfold findMapping at hm
    unfold GenCommenterName
    simp only [if_neg hdz, hl, hm, ne_eq, not_true_eq_false, if_false, hlock, hf, hc]
  · intro hdz hl hm hlock post hf hc msg hu
    unfold findMapping at hm
    unfold GenCommenterName
    simp only [if_neg hdz, hl, hm, ne_eq, not_true_eq_false, if_false, hlock, hf, hc, hu]
  · intro e he
    have hname : (GenCommenterName DzName GetCommenterName db replies dzUserID czUserID postID
        names0 names1).1.1 = "" ∧
      (GenCommenterName DzName GetCommenterName db replies dzUserID czUserID postID
        names0 names1).2.posts = db.posts := by
      by_cases hdz : dzUserID = czUserID
      · rw [GenCommenterName_author _ _ _ _ _ _ _ _ _ hdz] at he
        cases he
      · cases hl : replies.lookup with
        | some msg =>
          unfold GenCommenterName
          simp [hdz, hl]
        | none =>
          cases hm : findMapping db postID czUserID with
          | some m =>
            rw [GenCommenterName_found _ _ _ _ _ _ _ _ _ m hdz hl hm] at he
            cases he
          | none =>
            unfold findMapping at hm
            unfold GenCommenterName at he ⊢
            simp only [if_neg hdz, hl, hm, ne_eq, not_true_eq_false, if_false] at he ⊢
            cases hf : firstPost db replies.lock postID with
            | error err => simp [hf]
            | ok post =>
              simp only [hf] at he ⊢
              cases hc : replies.create with
              | some msg => simp [hc]
              | none =>
                simp only [hc] at he ⊢
                cases hu : replies.update with
                | some msg => simp [hu]
                | none => simp [hu] at he
    refine ⟨hname.1, hname.2, ?_⟩
    unfold GenCommenterNameInTransaction
    simp only [he]
    rw [Prod.mk.injEq]
    refine ⟨?_, rfl⟩
    rw [Prod.ext_iff]
    exact ⟨hname.1, he⟩
  · intro hok
    refine ⟨?_, ?_⟩
    · unfold GenCommenterNameInTransaction
      simp only [hok]
    · rcases GenCommenterName_ok_cases DzName GetCommenterName db replies dzUserID czUserID
        postID names0 names1 hok with ⟨_, hres⟩ | ⟨_, m, _, hres⟩ | ⟨_, _, post, hf, hres⟩
      · left; rw [hres]
      · left; rw [hres]
      · right
        exact ⟨post, _, hf, by rw [hres]⟩

/-- Witness of C12: the counter update of the first comment of user 5 on post 42
fails; the call returns the error with an empty name and the transaction
leaves no mapping and the count 0. -/
theorem GenCommenterName_all_or_nothing_witness :
    GenCommenterNameInTransaction "洞主" demoNames demoNameDb
      { lookup := none, lock := none, create := none, update := some "deadlock" }
      1 5 42 [] [] = (("", some (Error.other "deadlock")), demoNameDb) :=
  ((GenCommenterName_all_or_nothing "洞主" demoNames demoNameDb
    { lookup := none, lock := none, create := none, update := some "deadlock" }
    1 5 42 [] []).2.2.2.2.1 (Error.other "deadlock") rfl).2.2

/-! ## MessagePack: what is written is read back -/

theorem bigEndian_length (width n : Nat) : (bigEndian width n).length = width := by
  induction width with
  | zero => rfl
  | succ w ih => simp [bigEndian, ih]

theorem fromBigEndian_bigEndian (width n : Nat) :
    fromBigEndian (bigEndian width n) = n % 256 ^ width := by
  induction width with
  | zero => simp [bigEndian, fromBigEndian, Nat.mod_one]
  | succ w ih =>
    simp only [bigEndian, fromBigEndian, bigEndian_length, ih]
    rw [pow_succ, Nat.mod_mul]
    ring

theorem takeBytes_append (s rest : Bytes) :
    takeBytes s.length (s ++ rest) = .ok (s, rest) := by
  unfold takeBytes
  rw [if_pos (by simp)]
  simp

theorem takeSized_append (width : Nat) (s rest : Bytes) (h : s.length < 256 ^ width) :
    takeSized width (bigEndian width s.length ++ (s ++ rest)) = .ok (s, rest) := by
  unfold takeSized
  have h1 := takeBytes_append (bigEndian width s.length) (s ++ rest)
  rw [bigEndian_length] at h1
  rw [h1]
  simp only
  rw [fromBigEndian_bigEndian, Nat.mod_eq_of_lt h]
  exact takeBytes_append s rest

theorem decodeRaw_encodeString (s rest : Bytes) (h : s.length < 2 ^ 32) :
    decodeRaw (encodeString s ++ rest) = .ok (s, rest) := by
  unfold encodeString
  by_cases h32 : s.length < 32
  · rw [if_pos h32]
    simp only [List.cons_append, decodeRaw]
    rw [if_neg (by omega), if_pos (by omega)]
    have e : 160 + s.length - 160 = s.length := by omega
    rw [e]
    exact takeBytes_append s rest
  · rw [if_neg h32]
    by_cases h256 : s.length < 256
    · rw [if_pos h256]
      simp only [List.cons_append, decodeRaw, List.append_assoc]
      rw [if_neg (by decide), if_neg (by decide), if_pos (by decide)]
      exact takeSized_append 1 s rest (by simpa using h256)
    · rw [if_neg h256]
      by_cases h16 : s.length ≤ 65535
      · rw [if_pos h16]
        simp only [List.cons_append, decodeRaw, List.append_assoc]
        rw [if_neg (by decide), if_neg (by decide), if_neg (by decide), if_pos (by decide)]
        exact takeSized_append 2 s rest (by norm_num; omega)
      · rw [if_neg h16]
        simp only [List.cons_append, decodeRaw, List.append_assoc]
        rw [if_neg (by decide), if_neg (by decide), if_neg (by decide), if_neg (by decide),
          if_pos (by decide)]
        exact takeSized_append 4 s rest (by norm_num at h ⊢; omega)

theorem decodeRaw_encodeBytes (b rest : Bytes) (h : b.length < 2 ^ 32) :
    decodeRaw (encodeBytes b ++ rest) = .ok (b, rest) := by
  unfold encodeBytes
  by_cases h256 : b.length < 256
  · rw [if_pos h256]
    simp only [List.cons_append, decodeRaw, List.append_assoc]
    rw [if_neg (by decide), if_neg (by decide), if_pos (by decide)]
    exact takeSized_append 1 b rest (by simpa using h256)
  · rw [if_neg h256]
    by_cases h16 : b.length ≤ 65535
    · rw [if_pos h16]
      simp only [List.cons_append, decodeRaw, List.append_assoc]
      rw [if_neg (by decide), if_neg (by decide), if_neg (by decide), if_pos (by decide)]
      exact takeSized_append 2 b rest (by norm_num; omega)
    · rw [if_neg h16]
      simp only [List.cons_append, decodeRaw, List.append_assoc]
      rw [if_neg (by decide), if_neg (by decide), if_neg (by decide), if_neg (by decide),
        if_pos (by decide)]
      exact takeSized_append 4 b rest (by norm_num at h ⊢; omega)

theorem unmarshalTask_marshalTask (task : Task)
    (ht : task.Typ.length < 2 ^ 32) (hp : task.Payload.length < 2 ^ 32) :
    unmarshalTask (marshalTask task) = .ok task := by
  have hk1 : typeKey.length < 2 ^ 32 := by decide
  have hk2 : payloadKey.length < 2 ^ 32 := by decide
  have hne : ¬ payloadKey = typeKey := by decide
  unfold marshalTask unmarshalTask
  simp only
  rw [if_pos (by decide)]
  have e2 : (130 : Nat) - 128 = 2 := rfl
  rw [e2]
  simp only [decodeFields, List.append_assoc]
  rw [decodeRaw_encodeString typeKey _ hk1]
  simp only [if_true]
  rw [decodeRaw_encodeString task.Typ _ ht]
  simp only
  rw [decodeRaw_encodeString payloadKey _ hk2]
  simp only [if_neg hne, if_true]
  have := decodeRaw_encodeBytes task.Payload [] hp
  rw [List.append_nil] at this
  rw [this]

/-! ## The immediate queue: C13, C14 -/

/-- C13: the bytes `Enqueue` pushes for a task type and the serialized payload,
both shorter than `2 ^ 32` bytes, are at the head of the immediate queue, and
`msgpack.Unmarshal` in the worker decodes them to the task with exactly that
type and those payload bytes; a worker that pops them hands this task to
`processTask`. -/
theorem Enqueue_round_trip (q : Queues) (taskType payloadBytes : Bytes)
    (ht : taskType.length < 2 ^ 32) (hp : payloadBytes.length < 2 ^ 32) :
    (Enqueue q (.ok payloadBytes) none taskType).1 = none ∧
    (Enqueue q (.ok payloadBytes) none taskType).2.defaultQueue =
      marshalTask { Typ := taskType, Payload := payloadBytes } :: q.defaultQueue ∧
    unmarshalTask (marshalTask { Typ := taskType, Payload := payloadBytes }) =
      .ok { Typ := taskType, Payload := payloadBytes } ∧
    (q.defaultQueue = [] →
      (workerRound none { queues := (Enqueue q (.ok payloadBytes) none taskType).2,
                          popped := [], processed := [] }).processed =
        [{ Typ := taskType, Payload := payloadBytes }]) := by
  have hrt := unmarshalTask_marshalTask { Typ := taskType, Payload := payloadBytes } ht hp
  refine ⟨rfl, rfl, hrt, ?_⟩
  intro hq
  simp only [Enqueue, workerRound, hq, BRPop, List.reverse_cons, List.reverse_nil,
    List.nil_append, hrt]

/-- Witness of C13: a push-notification task with a three-byte payload. -/
theorem Enqueue_round_trip_witness :
    unmarshalTask (marshalTask { Typ := TaskPushNotification, Payload := [147, 1, 2] }) =
      .ok { Typ := TaskPushNotification, Payload := [147, 1, 2] } :=
  (Enqueue_round_trip { defaultQueue := [], delayedQueue := [] } TaskPushNotification
    [147, 1, 2] (by decide) (by decide)).2.2.1

theorem BRPop_snoc (xs : List Bytes) (b : Bytes) : BRPop (xs ++ [b]) = some (b, xs) := by
  simp [BRPop]

theorem BRPop_some (queue remaining : List Bytes) (value : Bytes)
    (h : BRPop queue = some (value, remaining)) : queue = remaining ++ [value] := by
  unfold BRPop at h
  cases hr : queue.reverse with
  | nil => rw [hr] at h; cases h
  | cons last before =>
    rw [hr] at h
    simp only [Option.some.injEq, Prod.mk.injEq] at h
    have := congrArg List.reverse hr
    rw [List.reverse_reverse] at this
    rw [this, ← h.1, ← h.2]
    simp

theorem workerRound_invariant (popReply : Reply) (st : WorkerState) :
    (workerRound popReply st).popped ++ (workerRound popReply st).queues.defaultQueue.reverse =
      st.popped ++ st.queues.defaultQueue.reverse ∧
    (st.processed = st.popped.filterMap decodable →
      (workerRound popReply st).processed =
        (workerRound popReply st).popped.filterMap decodable) ∧
    (workerRound popReply st).queues.delayedQueue = st.queues.delayedQueue := by
  unfold workerRound
  cases popReply with
  | some msg => exact ⟨rfl, fun h => h, rfl⟩
  | none =>
    cases hb : BRPop st.queues.defaultQueue with
    | none => exact ⟨rfl, fun h => h, rfl⟩
    | some vr =>
      obtain ⟨value, remaining⟩ := vr
      have hq := BRPop_some _ _ _ hb
      cases hu : unmarshalTask value with
      | error e =>
        simp only [hu]
        refine ⟨?_, ?_, trivial⟩
        · rw [hq]; simp
        · intro h
          rw [h, List.filterMap_append]
          simp [decodable, hu]
      | ok task =>
        simp only [hu]
        refine ⟨?_, ?_, trivial⟩
        · rw [hq]; simp
        · intro h
          rw [h, List.filterMap_append]
          simp [decodable, hu]

theorem runQueue_invariant (events : List QueueEvent) :
    ∀ st : WorkerState,
      (runQueue events st).popped ++ (runQueue events st).queues.defaultQueue.reverse =
        st.popped ++ st.queues.defaultQueue.reverse ++ pushedBy events ∧
      (st.processed = st.popped.filterMap decodable →
        (runQueue events st).processed = (runQueue events st).popped.filterMap decodable) := by
  induction events with
  | nil => intro st; simp [runQueue, pushedBy]
  | cons ev rest ih =>
    intro st
    unfold runQueue at ih ⊢
    rw [List.foldl_cons]
    cases ev with
    | work popReply =>
      obtain ⟨h1, h2, _⟩ := workerRound_invariant popReply st
      obtain ⟨i1, i2⟩ := ih (workerRound popReply st)
      refine ⟨?_, fun h => i2 (h2 h)⟩
      simp only at i1 ⊢
      rw [i1, h1]
      simp [pushedBy]
    | enqueue taskType marshalled pushReply =>
      have key : ({ st with queues := (Enqueue st.queues marshalled pushReply taskType).2 }
            : WorkerState).popped ++
          ({ st with queues := (Enqueue st.queues marshalled pushReply taskType).2 }
            : WorkerState).queues.defaultQueue.reverse ++ pushedBy rest =
          st.popped ++ st.queues.defaultQueue.reverse ++
            pushedBy (QueueEvent.enqueue taskType marshalled pushReply :: rest) := by
        cases marshalled with
        | error e => simp [Enqueue, pushedBy]
        | ok payloadBytes =>
          cases pushReply with
          | some msg => simp [Enqueue, pushedBy]
          | none => simp [Enqueue, pushedBy]
      obtain ⟨i1, i2⟩ := ih { st with queues := (Enqueue st.queues marshalled pushReply taskType).2 }
      refine ⟨?_, fun h => i2 h⟩
      simp only at i1 ⊢
      rw [i1]
      exact key

theorem runQueue_append (a b : List QueueEvent) (st : WorkerState) :
    runQueue (a ++ b) st = runQueue b (runQueue a st) := by
  unfold runQueue
  rw [List.foldl_append]

theorem pushedBy_append_work (events : List QueueEvent) (n : Nat) :
    pushedBy (events ++ List.replicate n (QueueEvent.work none)) = pushedBy events ∧
    tasksPushedBy (events ++ List.replicate n (QueueEvent.work none)) = tasksPushedBy events := by
  unfold pushedBy tasksPushedBy
  rw [List.filterMap_append, List.filterMap_append]
  have h1 : ∀ k : Nat, List.filterMap (fun ev =>
      match ev with
      | QueueEvent.enqueue taskType (Except.ok payloadBytes) none =>
        some (marshalTask { Typ := taskType, Payload := payloadBytes })
      | _ => none) (List.replicate k (QueueEvent.work none)) = [] := by
    intro k
    induction k with
    | zero => rfl
    | succ k ih => rw [List.replicate_succ, List.filterMap_cons]; exact ih
  have h2 : ∀ k : Nat, List.filterMap (fun ev =>
      match ev with
      | QueueEvent.enqueue taskType (Except.ok payloadBytes) none =>
        some ({ Typ := taskType, Payload := payloadBytes } : Task)
      | _ => none) (List.replicate k (QueueEvent.work none)) = [] := by
    intro k
    induction k with
    | zero => rfl
    | succ k ih => rw [List.replicate_succ, List.filterMap_cons]; exact ih
  rw [h1 n, h2 n, List.append_nil, List.append_nil]
  exact ⟨rfl, rfl⟩

theorem worker_drains (n : Nat) :
    ∀ st : WorkerState, st.queues.defaultQueue.length ≤ n →
      (runQueue (List.replicate n (QueueEvent.work none)) st).queues.defaultQueue = [] := by
  induction n with
  | zero =>
    intro st h
    simp only [List.replicate_zero, runQueue, List.foldl_nil]
    exact List.length_eq_zero.mp (Nat.le_zero.mp h)
  | succ k ih =>
    intro st h
    rw [List.replicate_succ]
    unfold runQueue at ih ⊢
    rw [List.foldl_cons]
    apply ih
    have hinv := (workerRound_invariant none st).1
    have hlen := congrArg List.length hinv
    simp only [List.length_append, List.length_reverse] at hlen
    show (workerRound none st).queues.defaultQueue.length ≤ k
    cases hb : BRPop st.queues.defaultQueue with
    | none =>
      have hq : st.queues.defaultQueue = [] := by
        unfold BRPop at hb
        cases hr : st.queues.defaultQueue.reverse with
        | nil => exact List.reverse_eq_nil_iff.mp hr
        | cons x xs => rw [hr] at hb; cases hb
      have : workerRound none st = st := by
        unfold workerRound
        simp only [hb]
      rw [this, hq]
      exact Nat.zero_le k
    | some vr =>
      have hp : (workerRound none st).popped.length = st.popped.length + 1 := by
        unfold workerRound
        simp only [hb]
        cases unmarshalTask vr.1 <;> simp
      omega

theorem decodable_pushedBy (events : List QueueEvent) (h : sizesFit events = true) :
    (pushedBy events).filterMap decodable = tasksPushedBy events := by
  induction events with
  | nil => rfl
  | cons ev rest ih =>
    unfold sizesFit at h ih
    rw [List.all_cons, Bool.and_eq_true] at h
    have ih2 := ih h.2
    unfold pushedBy tasksPushedBy at ih2 ⊢
    cases ev with
    | work popReply => simpa [List.filterMap_cons] using ih2
    | enqueue taskType marshalled pushReply =>
      cases marshalled with
      | error e => simpa [List.filterMap_cons] using ih2
      | ok payloadBytes =>
        cases pushReply with
        | some msg => simpa [List.filterMap_cons] using ih2
        | none =>
          have hs := h.1
          simp only [Bool.and_eq_true, decide_eq_true_eq] at hs
          have hrt := unmarshalTask_marshalTask { Typ := taskType, Payload := payloadBytes }
            hs.1 hs.2
          simp only [List.filterMap_cons, decodable, hrt]
          rw [← ih2]

/-- C14: in every run of calls of `Enqueue`, which push at the head of the
immediate queue, and rounds of the worker, which pop at its tail, what the
worker has popped followed by what is still queued, from the tail on, is the
sequence of pushed values in the order of the calls: the worker consumes the
values in the order they were enqueued, each once, and after at least as many
further rounds as there were values it has consumed them all.  When the types
and payloads are shorter than `2 ^ 32` bytes, the tasks handed to `processTask`
are the submitted tasks in the same order. -/
theorem worker_consumes_in_order (events : List QueueEvent) (delayed : DelayedSet) :
    (runQueue events (freshWorker delayed)).popped ++
        (runQueue events (freshWorker delayed)).queues.defaultQueue.reverse =
      pushedBy events ∧
    (runQueue events (freshWorker delayed)).popped <+: pushedBy events ∧
    (∀ n : Nat, (pushedBy events).length ≤ n →
      (runQueue (events ++ List.replicate n (QueueEvent.work none))
        (freshWorker delayed)).popped = pushedBy events ∧
      (runQueue (events ++ List.replicate n (QueueEvent.work none))
        (freshWorker delayed)).queues.defaultQueue = []) ∧
    (sizesFit events = true →
      (runQueue events (freshWorker delayed)).processed <+: tasksPushedBy events ∧
      ∀ n : Nat, (pushedBy events).length ≤ n →
        (runQueue (events ++ List.replicate n (QueueEvent.work none))
          (freshWorker delayed)).processed = tasksPushedBy events) := by
  have hinv := runQueue_invariant events (freshWorker delayed)
  have h1 : (runQueue events (freshWorker delayed)).popped ++
      (runQueue events (freshWorker delayed)).queues.defaultQueue.reverse = pushedBy events := by
    have := hinv.1
    simpa [freshWorker] using this
  have hproc := hinv.2 rfl
  have hdrain : ∀ n : Nat, (pushedBy events).length ≤ n →
      (runQueue (events ++ List.replicate n (QueueEvent.work none))
        (freshWorker delayed)).popped = pushedBy events ∧
      (runQueue (events ++ List.replicate n (QueueEvent.work none))
        (freshWorker delayed)).queues.defaultQueue = [] := by
    intro n hn
    have hlen : (runQueue events (freshWorker delayed)).queues.defaultQueue.length ≤ n := by
      have := congrArg List.length h1
      simp only [List.length_append, List.length_reverse] at this
      omega
    have hempty : (runQueue (events ++ List.replicate n (QueueEvent.work none))
        (freshWorker delayed)).queues.defaultQueue = [] := by
      rw [runQueue_append]
      exact worker_drains n _ hlen
    have hall := (runQueue_invariant (events ++ List.replicate n (QueueEvent.work none))
      (freshWorker delayed)).1
    rw [hempty, (pushedBy_append_work events n).1] at hall
    refine ⟨?_, hempty⟩
    simpa [freshWorker] using hall
  refine ⟨h1, ⟨_, h1⟩, hdrain, ?_⟩
  intro hfit
  have hdec := decodable_pushedBy events hfit
  refine ⟨?_, ?_⟩
  · rw [hproc, ← hdec, ← h1, List.filterMap_append]
    exact ⟨_, rfl⟩
  · intro n hn
    have hproc2 := (runQueue_invariant (events ++ List.replicate n (QueueEvent.work none))
      (freshWorker delayed)).2 rfl
    rw [hproc2, (hdrain n hn).1, hdec]

/-- Witness of C14: the three tasks are handed to `processTask` in the order of
their submission. -/
theorem worker_consumes_in_order_witness :
    (runQueue demoRun (freshWorker [])).processed <+:
      [{ Typ := TaskSendEmail, Payload := [1] },
       { Typ := TaskPushNotification, Payload := [2] },
       { Typ := TaskSendEmail, Payload := [3] }] :=
  ((worker_consumes_in_order demoRun []).2.2.2 (by decide)).1

/-! ## The delayed queue: C15, C16 -/

theorem occurrences_of_nodup (m : Bytes) (l : List Bytes) (hn : l.Nodup) (hm : m ∈ l) :
    occurrences m l = 1 := by
  unfold occurrences
  induction l with
  | nil => cases hm
  | cons x xs ih =>
    rw [List.nodup_cons] at hn
    by_cases hx : x = m
    · subst hx
      have hnil : xs.filter (fun y => y = x) = [] := by
        rw [List.filter_eq_nil_iff]
        intro y hy
        have : y ≠ x := fun e => hn.1 (e ▸ hy)
        simpa using this
      simp [List.filter_cons, hnil]
    · rcases List.mem_cons.mp hm with h | h
      · exact absurd h.symm hx
      · simp only [List.filter_cons, hx, decide_False, Bool.false_eq_true, if_false]
        exact ih hn.2 h

theorem occurrences_of_not_mem (m : Bytes) (l : List Bytes) (hm : m ∉ l) :
    occurrences m l = 0 := by
  unfold occurrences
  rw [List.length_eq_zero, List.filter_eq_nil_iff]
  intro y hy
  have : y ≠ m := fun e => hm (e ▸ hy)
  simpa using this

theorem mem_rangeByScore (z : DelayedSet) (max : ℚ) (m : Bytes) :
    m ∈ z.rangeByScore max ↔ ∃ e ∈ z, e.2 ≤ max ∧ e.1 = m := by
  unfold DelayedSet.rangeByScore
  simp only [List.mem_map, List.mem_insertionSort, List.mem_filter, decide_eq_true_eq,
    and_assoc]

theorem due_iff (t d t2 : Int) :
    ((((({ unixNano := t, zoneOffset := 0 } : Time).Add d).Unix : Int) : ℚ) ≤
        (((({ unixNano := t2, zoneOffset := 0 } : Time).Unix : Int)) : ℚ)) ↔
      (t + d) / 1000000000 ≤ t2 / 1000000000 := by
  simp only [Time.Add, Time.Unix, nsPerSecond, Int.cast_le]

theorem due_bound (t d t2 : Int) (h : (t + d) / 1000000000 ≤ t2 / 1000000000) :
    d - 1000000000 < t2 - t := by
  omega

theorem due_of_elapsed (t d t2 : Int) (h : d ≤ t2 - t) :
    (t + d) / 1000000000 ≤ t2 / 1000000000 := by
  apply Int.ediv_le_ediv (by decide)
  omega

/-- C15 (the code at the failing input): a task is enqueued with a delay of 2
seconds at 0.9 s after the epoch; its score is the whole second 2.  The tick at
2.0 s, which is 1.1 s after the call, finds the score at most its own second 2
and moves the task to the immediate queue. -/
theorem delayed_task_promoted_early :
    (EnqueueWithDelay demoQueues (.ok [147, 1, 2]) none
      { unixNano := 900000000, zoneOffset := 0 } 2000000000 TaskPushNotification).2.delayedQueue
      = [(demoTaskBytes, 2)] ∧
    (schedulerTick
      (EnqueueWithDelay demoQueues (.ok [147, 1, 2]) none
        { unixNano := 900000000, zoneOffset := 0 } 2000000000 TaskPushNotification).2
      { unixNano := 2000000000, zoneOffset := 0 } none none).defaultQueue = [demoTaskBytes] ∧
    (2000000000 : Int) - 900000000 < 2000000000 := by
  have hscore : (((({ unixNano := 900000000, zoneOffset := 0 } : Time).Add 2000000000).Unix : Int)
      : ℚ) = 2 := by
    norm_num [Time.Add, Time.Unix, nsPerSecond]
  have hnow : (((({ unixNano := 2000000000, zoneOffset := 0 } : Time).Unix : Int)) : ℚ) = 2 := by
    norm_num [Time.Unix, nsPerSecond]
  have h1 : (EnqueueWithDelay demoQueues (.ok [147, 1, 2]) none
      { unixNano := 900000000, zoneOffset := 0 } 2000000000 TaskPushNotification).2
      = { defaultQueue := [], delayedQueue := [(demoTaskBytes, 2)] } := by
    simp only [EnqueueWithDelay, hscore, demoQueues, DelayedSet.add, demoTaskBytes]
    rfl
  rw [h1]
  refine ⟨rfl, ?_, by decide⟩
  have hr : DelayedSet.rangeByScore [(demoTaskBytes, 2)] 2 = [demoTaskBytes] := by
    simp [DelayedSet.rangeByScore]
  simp only [schedulerTick, hnow, hr]
  rfl

theorem runPipeline_pushes (tasks : List Bytes) :
    ∀ q : Queues, runPipeline (tasks.map QueueCommand.lpush) q =
      { defaultQueue := tasks.reverse ++ q.defaultQueue, delayedQueue := q.delayedQueue } := by
  induction tasks with
  | nil => intro q; rfl
  | cons t rest ih =>
    intro q
    unfold runPipeline at ih ⊢
    rw [List.map_cons, List.foldl_cons, ih]
    simp [QueueCommand.apply]

theorem runPipeline_all (tasks : List Bytes) (q : Queues) :
    runPipeline (pipelineOf tasks) q =
      { defaultQueue := tasks.reverse ++ q.defaultQueue,
        delayedQueue := q.delayedQueue.rem tasks } := by
  unfold pipelineOf
  have h := runPipeline_pushes tasks q
  unfold runPipeline at h ⊢
  rw [List.foldl_append, h]
  rfl

theorem runPipeline_prefix (tasks : List Bytes) (q : Queues) (k : Nat) :
    (k ≤ tasks.length ∧ runPipeline ((pipelineOf tasks).take k) q =
      { defaultQueue := (tasks.take k).reverse ++ q.defaultQueue,
        delayedQueue := q.delayedQueue }) ∨
    (tasks.length < k ∧ runPipeline ((pipelineOf tasks).take k) q =
      runPipeline (pipelineOf tasks) q) := by
  by_cases hk : k ≤ tasks.length
  · left
    refine ⟨hk, ?_⟩
    unfold pipelineOf
    rw [List.take_append_of_le_length (by simpa using hk), ← List.map_take]
    exact runPipeline_pushes _ q
  · right
    refine ⟨by omega, ?_⟩
    rw [List.take_of_length_le]
    unfold pipelineOf
    simp only [List.length_append, List.length_map, List.length_singleton]
    omega

theorem eq_of_same_member (z : DelayedSet) (hset : (z.map Prod.fst).Nodup)
    (e1 e2 : Bytes × ℚ) (h1 : e1 ∈ z) (h2 : e2 ∈ z) (h : e1.1 = e2.1) : e1 = e2 :=
  @List.inj_on_of_nodup_map (Bytes × ℚ) Bytes Prod.fst z hset e1 h1 e2 h2 h

theorem rangeByScore_perm (z : DelayedSet) (max : ℚ) :
    (z.rangeByScore max).Perm ((z.filter (fun e => e.2 ≤ max)).map Prod.fst) := by
  unfold DelayedSet.rangeByScore
  exact (List.perm_insertionSort _ _).map Prod.fst

theorem rangeByScore_nodup (z : DelayedSet) (max : ℚ) (hset : (z.map Prod.fst).Nodup) :
    (z.rangeByScore max).Nodup := by
  rw [(rangeByScore_perm z max).nodup_iff]
  exact (List.Sublist.map Prod.fst (List.filter_sublist z)).nodup hset

/-- C16: whatever prefix of the pipeline of a tick the store has carried out,
every member that was in the delayed set before the tick is still in it or is
in the immediate queue.  After a complete tick on a set that holds each member
once, the members with a score of at most `now` have each been pushed exactly
once, at the head of the immediate queue, and are gone from the delayed set,
and the members with a higher score are there with their scores as before. -/
theorem schedulerTick_never_loses (q : Queues) (now : Time)
    (hset : (q.delayedQueue.map Prod.fst).Nodup) :
    (∀ (rangeReply : Reply) (carriedOut : Option Nat), ∀ e ∈ q.delayedQueue,
      e ∈ (schedulerTick q now rangeReply carriedOut).delayedQueue ∨
      e.1 ∈ (schedulerTick q now rangeReply carriedOut).defaultQueue) ∧
    (schedulerTick q now none none).defaultQueue =
      (q.delayedQueue.rangeByScore ((now.Unix : Int) : ℚ)).reverse ++ q.defaultQueue ∧
    (∀ e ∈ q.delayedQueue, e.2 ≤ ((now.Unix : Int) : ℚ) →
      occurrences e.1 (q.delayedQueue.rangeByScore ((now.Unix : Int) : ℚ)) = 1 ∧
      e ∉ (schedulerTick q now none none).delayedQueue) ∧
    (∀ m : Bytes, (∀ e ∈ q.delayedQueue, e.1 = m → ¬ e.2 ≤ ((now.Unix : Int) : ℚ)) →
      occurrences m (q.delayedQueue.rangeByScore ((now.Unix : Int) : ℚ)) = 0) ∧
    (schedulerTick q now none none).delayedQueue =
      q.delayedQueue.filter (fun e => ¬ e.2 ≤ ((now.Unix : Int) : ℚ)) := by
  have hfull : schedulerTick q now none none =
      { defaultQueue := (q.delayedQueue.rangeByScore ((now.Unix : Int) : ℚ)).reverse ++
          q.defaultQueue,
        delayedQueue := q.delayedQueue.rem
          (q.delayedQueue.rangeByScore ((now.Unix : Int) : ℚ)) } := by
    unfold schedulerTick
    simp only
    by_cases h0 : (q.delayedQueue.rangeByScore ((now.Unix : Int) : ℚ)).length = 0
    · rw [if_pos h0]
      have hnil := List.length_eq_zero.mp h0
      rw [hnil]
      simp [DelayedSet.rem]
    · rw [if_neg h0]
      exact runPipeline_all _ q
  have hrem : q.delayedQueue.rem (q.delayedQueue.rangeByScore ((now.Unix : Int) : ℚ)) =
      q.delayedQueue.filter (fun e => ¬ e.2 ≤ ((now.Unix : Int) : ℚ)) := by
    unfold DelayedSet.rem
    apply List.filter_congr
    intro e he
    have hiff : e.1 ∈ q.delayedQueue.rangeByScore ((now.Unix : Int) : ℚ) ↔
        e.2 ≤ ((now.Unix : Int) : ℚ) := by
      rw [mem_rangeByScore]
      constructor
      · rintro ⟨e2, he2, hle, hm⟩
        rw [← eq_of_same_member q.delayedQueue hset e2 e he2 he hm]
        exact hle
      · intro hle
        exact ⟨e, he, hle, rfl⟩
    simp only [hiff]
  refine ⟨?_, ?_, ?_, ?_, ?_⟩
  · intro rangeReply carriedOut e he
    unfold schedulerTick
    cases rangeReply with
    | some msg => exact Or.inl he
    | none =>
      simp only
      by_cases h0 : (q.delayedQueue.rangeByScore ((now.Unix : Int) : ℚ)).length = 0
      · rw [if_pos h0]; exact Or.inl he
      · rw [if_neg h0]
        have hallcase : e ∈ (runPipeline
              (pipelineOf (q.delayedQueue.rangeByScore ((now.Unix : Int) : ℚ))) q).delayedQueue ∨
            e.1 ∈ (runPipeline
              (pipelineOf (q.delayedQueue.rangeByScore ((now.Unix : Int) : ℚ))) q).defaultQueue := by
          rw [runPipeline_all]
          simp only
          by_cases hm : e.1 ∈ q.delayedQueue.rangeByScore ((now.Unix : Int) : ℚ)
          · right
            rw [List.mem_append, List.mem_reverse]
            exact Or.inl hm
          · left
            unfold DelayedSet.rem
            rw [List.mem_filter]
            exact ⟨he, by simpa using hm⟩
        cases carriedOut with
        | none => exact hallcase
        | some k =>
          simp only
          rcases runPipeline_prefix (q.delayedQueue.rangeByScore ((now.Unix : Int) : ℚ)) q k
            with ⟨_, hp⟩ | ⟨_, hp⟩
          · rw [hp]; exact Or.inl he
          · rw [hp]; exact hallcase
  · rw [hfull]
  · intro e he hle
    refine ⟨?_, ?_⟩
    · apply occurrences_of_nodup _ _ (rangeByScore_nodup _ _ hset)
      rw [mem_rangeByScore]
      exact ⟨e, he, hle, rfl⟩
    · rw [hfull]
      simp only
      rw [hrem, List.mem_filter]
      rintro ⟨_, hnot⟩
      simp only [decide_eq_true_eq] at hnot
      exact hnot hle
  · intro m hm
    apply occurrences_of_not_mem
    rw [mem_rangeByScore]
    rintro ⟨e, he, hle, hme⟩
    exact hm e he hme hle
  · rw [hfull]
    exact hrem

/-- Witness of C16: the tick at second 3 pushes the task due at second 2 and
leaves the one due at second 9. -/
theorem schedulerTick_never_loses_witness :
    (schedulerTick demoDelayed { unixNano := 3000000000, zoneOffset := 0 } none none).delayedQueue
      = demoDelayed.delayedQueue.filter
          (fun e => ¬ e.2 ≤ (((({ unixNano := 3000000000, zoneOffset := 0 } : Time).Unix : Int))
            : ℚ)) :=
  (schedulerTick_never_loses demoDelayed { unixNano := 3000000000, zoneOffset := 0 }
    (by decide)).2.2.2.2

/-! ## Push notifications: C19 -/

theorem foldSet_sound {α : Type} (key : α → Int) (k : Int) (x : α) (l : List α) :
    ∀ m : GoMap α, (l.foldl (fun m a => m.set (key a) a) m).get k = some x →
      (x ∈ l ∧ key x = k) ∨ m.get k = some x := by
  induction l with
  | nil => intro m h; exact Or.inr h
  | cons a rest ih =>
    intro m h
    rw [List.foldl_cons] at h
    rcases ih _ h with ⟨hx, hk⟩ | hm
    · exact Or.inl ⟨List.mem_cons_of_mem _ hx, hk⟩
    · by_cases ha : k = key a
      · rw [ha, GoMap.get_set_self] at hm
        simp only [Option.some.injEq] at hm
        subst hm
        exact Or.inl ⟨List.mem_cons_self _ _, ha.symm⟩
      · rw [GoMap.get_set_ne _ _ _ _ ha] at hm
        exact Or.inr hm

theorem foldSet_complete {α : Type} (key : α → Int) (k : Int) (l : List α) :
    ∀ m : GoMap α, ((∃ a ∈ l, key a = k) ∨ (m.get k).isSome = true) →
      ((l.foldl (fun m a => m.set (key a) a) m).get k).isSome = true := by
  induction l with
  | nil =>
    intro m h
    rcases h with ⟨a, ha, _⟩ | h
    · cases ha
    · exact h
  | cons a rest ih =>
    intro m h
    rw [List.foldl_cons]
    apply ih
    by_cases ha : k = key a
    · right
      rw [ha, GoMap.get_set_self]
      rfl
    · rcases h with ⟨x, hx, hxk⟩ | h
      · rcases List.mem_cons.mp hx with rfl | hx2
        · exact absurd hxk.symm ha
        · exact Or.inl ⟨x, hx2, hxk⟩
      · right
        rw [GoMap.get_set_ne _ _ _ _ ha]
        exact h

theorem settingsMap_get (table : List PushSettings) (userIDs : List Int)
    (hkey : (table.map (fun s => s.UserID)).Nodup) (uid : Int) (huid : uid ∈ userIDs) :
    (∀ s ∈ table, s.UserID = uid →
      GoMap.get ((table.filter (fun s => s.UserID ∈ userIDs)).foldl
        (fun (m : GoMap PushSettings) s => m.set s.UserID s) []) uid = some s) ∧
    ((∀ s ∈ table, s.UserID ≠ uid) →
      GoMap.get ((table.filter (fun s => s.UserID ∈ userIDs)).foldl
        (fun (m : GoMap PushSettings) s => m.set s.UserID s) []) uid = none) := by
  constructor
  · intro s hs hsu
    have hin : s ∈ table.filter (fun s => s.UserID ∈ userIDs) := by
      rw [List.mem_filter]
      exact ⟨hs, by simpa [hsu] using huid⟩
    have hsome : (GoMap.get ((table.filter (fun s => s.UserID ∈ userIDs)).foldl
        (fun (m : GoMap PushSettings) s => m.set s.UserID s) []) uid).isSome = true :=
      foldSet_complete (fun s : PushSettings => s.UserID) uid
        (table.filter (fun s => s.UserID ∈ userIDs)) [] (Or.inl ⟨s, hin, hsu⟩)
    obtain ⟨s2, hs2⟩ := Option.isSome_iff_exists.mp hsome
    rcases foldSet_sound (fun s : PushSettings => s.UserID) uid s2
      (table.filter (fun s => s.UserID ∈ userIDs)) [] hs2 with ⟨hm, hk⟩ | h
    · have hs2t : s2 ∈ table := (List.mem_filter.mp hm).1
      have : s2 = s := @List.inj_on_of_nodup_map PushSettings Int (fun s => s.UserID) table hkey
        s2 hs2t s hs (hk.trans hsu.symm)
      rw [hs2, this]
    · cases h
  · intro hnone
    cases hg : GoMap.get ((table.filter (fun s => s.UserID ∈ userIDs)).foldl
        (fun (m : GoMap PushSettings) s => m.set s.UserID s) []) uid with
    | none => rfl
    | some s2 =>
      rcases foldSet_sound (fun s : PushSettings => s.UserID) uid s2
        (table.filter (fun s => s.UserID ∈ userIDs)) [] hg with ⟨hm, hk⟩ | h
      · exact absurd hk (hnone s2 (List.mem_filter.mp hm).1)
      · cases h

theorem shares_bit_iff (a b : Nat) :
    (a &&& b) > 0 ↔ ∃ i, a.testBit i = true ∧ b.testBit i = true := by
  constructor
  · intro h
    obtain ⟨i, hi⟩ := Nat.ne_zero_implies_bit_true (Nat.pos_iff_ne_zero.mp h)
    rw [Nat.testBit_and, Bool.and_eq_true] at hi
    exact ⟨i, hi⟩
  · rintro ⟨i, h1, h2⟩
    apply Nat.pos_of_ne_zero
    intro h0
    have : (a &&& b).testBit i = true := by
      rw [Nat.testBit_and, h1, h2]; rfl
    rw [h0, Nat.zero_testBit] at this
    cases this

theorem mem_zip_map {α β : Type} (f : α → β) (l : List α) (p : α × β)
    (h : p ∈ l.zip (l.map f)) : p.1 ∈ l ∧ p.2 = f p.1 := by
  induction l with
  | nil => simp at h
  | cons a rest ih =>
    rw [List.map_cons, List.zip_cons_cons, List.mem_cons] at h
    rcases h with rfl | h
    · exact ⟨List.mem_cons_self _ _, rfl⟩
    · exact ⟨List.mem_cons_of_mem _ (ih h).1, (ih h).2⟩

/-- C19: with one preference row per user and the preferences read without
error, `PreProcessPushMessages` returns as many messages as it was given, in
the same order and equal to them in every field other than `DoPush`.  For a
recipient with a stored bitmask `DoPush` is true exactly when the bitmask and
the message type share a bit; for a recipient without one it is true exactly
when the type shares a bit with the system-message or the reply class, so that
a favorited-only message is not pushed when the favorited class shares no bit
with those two. -/
theorem PreProcessPushMessages_marks (types : PushTypes) (table : List PushSettings)
    (reply : Reply) (msgs : List PushMessage)
    (hkey : (table.map (fun s => s.UserID)).Nodup)
    (hok : (PreProcessPushMessages types table reply msgs).1 = none) :
    (PreProcessPushMessages types table reply msgs).2.length = msgs.length ∧
    (PreProcessPushMessages types table reply msgs).2.map (fun m => { m with DoPush := false })
      = msgs.map (fun m => { m with DoPush := false }) ∧
    (∀ p ∈ msgs.zip (PreProcessPushMessages types table reply msgs).2,
      p.2 = { p.1 with DoPush := p.2.DoPush } ∧
      (∀ s ∈ table, s.UserID = p.1.UserID →
        (p.2.DoPush = true ↔
          ∃ i, s.Settings.testBit i = true ∧ p.1.Typ.testBit i = true)) ∧
      ((∀ s ∈ table, s.UserID ≠ p.1.UserID) →
        (p.2.DoPush = true ↔
          ∃ i, p.1.Typ.testBit i = true ∧
            (types.SystemMessage ||| types.ReplyMeComment).testBit i = true) ∧
        (types.CommentInFavorited &&& (types.SystemMessage ||| types.ReplyMeComment) = 0 →
          p.1.Typ = types.CommentInFavorited → p.2.DoPush = false))) := by
  cases reply with
  | some msg => simp [PreProcessPushMessages] at hok
  | none =>
    simp only [PreProcessPushMessages]
    refine ⟨by simp, ?_, ?_⟩
    · rw [List.map_map]
      apply List.map_congr_left
      intro m _
      simp only [Function.comp]
      split <;> split <;> rfl
    · intro p hp
      obtain ⟨hmem, hp2⟩ := mem_zip_map _ msgs p hp
      have huid : p.1.UserID ∈ msgs.map (fun msg => msg.UserID) :=
        List.mem_map_of_mem (fun msg : PushMessage => msg.UserID) hmem
      obtain ⟨hfound, hnone⟩ := settingsMap_get table (msgs.map (fun msg => msg.UserID)) hkey
        p.1.UserID huid
      refine ⟨?_, ?_, ?_⟩
      · rw [hp2]
        split <;> split <;> rfl
      · intro s hs hsu
        rw [hp2, hfound s hs hsu, ← shares_bit_iff]
        simp only
        split
        · rename_i h; simp [h]
        · rename_i h; simp [h]
      · intro hno
        rw [hp2, hnone hno]
        simp only
        refine ⟨?_, ?_⟩
        · rw [← shares_bit_iff]
          split
          · rename_i h; simp [h]
          · rename_i h; simp [h]
        · intro hdisj htyp
          rw [htyp, hdisj]
          simp

/-! ## Push notifications: C18 -/

theorem attentions_fold_from_first (types : PushTypes) (TrimText : String → Nat → String)
    (payload : PushNotificationPayload) (post : Post) (clock : Nat → Time) :
    ∀ (rest : List Attention) (first : PushMessage) (others : List PushMessage),
      (rest.foldl (attentionStep types TrimText payload post clock) (first :: others)).map
          (fun m => (m.UserID, m.Typ))
        = (first.UserID,
            if first.UserID ∈ rest.map (fun a => a.UserID)
            then first.Typ ||| types.CommentInFavorited else first.Typ)
          :: (others.map (fun m => (m.UserID, m.Typ)) ++
              (rest.filter (fun a =>
                  a.UserID ≠ first.UserID ∧ a.UserID ≠ payload.CommenterUserID)).map
                (fun a => (a.UserID, types.CommentInFavorited))) := by
  intro rest
  induction rest with
  | nil => intro first others; simp
  | cons a rest ih =>
    intro first others
    rw [List.foldl_cons]
    by_cases h1 : a.UserID = first.UserID
    · have hstep : attentionStep types TrimText payload post clock (first :: others) a
          = { first with Typ := first.Typ ||| types.CommentInFavorited } :: others := by
        simp [attentionStep, h1]
      rw [hstep, ih]
      have hfilter : List.filter (fun a =>
            decide (a.UserID ≠ first.UserID ∧ a.UserID ≠ payload.CommenterUserID)) (a :: rest)
          = List.filter (fun a =>
            decide (a.UserID ≠ first.UserID ∧ a.UserID ≠ payload.CommenterUserID)) rest := by
        rw [List.filter_cons_of_neg]
        simp [h1]
      rw [hfilter]
      have hmem : first.UserID ∈ (a :: rest).map (fun a => a.UserID) := by
        rw [List.map_cons, ← h1]
        exact List.mem_cons_self _ _
      rw [if_pos hmem]
      congr 1
      show (first.UserID, _) = _
      congr 1
      split
      · rw [Nat.lor_assoc, Nat.or_self]
      · rfl
    · have hmem : first.UserID ∈ (a :: rest).map (fun a => a.UserID)
          ↔ first.UserID ∈ rest.map (fun a => a.UserID) := by
        rw [List.map_cons, List.mem_cons]
        constructor
        · rintro (h | h)
          · exact absurd h.symm h1
          · exact h
        · exact Or.inr
      have hmem2 : first.UserID ∈ a.UserID :: rest.map (fun a => a.UserID)
          ↔ first.UserID ∈ rest.map (fun a => a.UserID) := by
        rw [← List.map_cons (fun a : Attention => a.UserID)]
        exact hmem
      by_cases h2 : a.UserID = payload.CommenterUserID
      · have hstep : attentionStep types TrimText payload post clock (first :: others) a
            = first :: others := by
          simp only [attentionStep]
          rw [if_neg h1, if_neg (not_not.mpr h2)]
        rw [hstep, ih]
        have hfilter : List.filter (fun a =>
              decide (a.UserID ≠ first.UserID ∧ a.UserID ≠ payload.CommenterUserID)) (a :: rest)
            = List.filter (fun a =>
              decide (a.UserID ≠ first.UserID ∧ a.UserID ≠ payload.CommenterUserID)) rest := by
          rw [List.filter_cons_of_neg]
          simp [h2]
        rw [hfilter]
        simp only [hmem]
      · have hstep : attentionStep types TrimText payload post clock (first :: others) a
            = first :: (others ++ [newPushMessage TrimText payload post
                (clock (first :: others).length) types.CommentInFavorited a.UserID]) := by
          simp [attentionStep, h1, h2]
        rw [hstep, ih]
        have hfilter : List.filter (fun a =>
              decide (a.UserID ≠ first.UserID ∧ a.UserID ≠ payload.CommenterUserID)) (a :: rest)
            = a :: List.filter (fun a =>
              decide (a.UserID ≠ first.UserID ∧ a.UserID ≠ payload.CommenterUserID)) rest := by
          rw [List.filter_cons_of_pos]
          simp [h1, h2]
        rw [hfilter]
        simp only [hmem, hmem2, List.map_append, List.map_cons, List.map_nil, List.append_assoc,
          List.singleton_append, newPushMessage]

theorem attentions_fold_from_nil (types : PushTypes) (TrimText : String → Nat → String)
    (payload : PushNotificationPayload) (post : Post) (clock : Nat → Time) :
    ∀ (rest : List Attention), (rest.map (fun a => a.UserID)).Nodup →
      (rest.foldl (attentionStep types TrimText payload post clock) []).map
          (fun m => (m.UserID, m.Typ))
        = (rest.filter (fun a => a.UserID ≠ payload.CommenterUserID)).map
            (fun a => (a.UserID, types.CommentInFavorited)) := by
  intro rest
  induction rest with
  | nil => intro _; rfl
  | cons a rest ih =>
    intro hnodup
    rw [List.map_cons, List.nodup_cons] at hnodup
    rw [List.foldl_cons]
    by_cases h2 : a.UserID = payload.CommenterUserID
    · have hstep : attentionStep types TrimText payload post clock [] a = [] := by
        simp [attentionStep, h2]
      rw [hstep, ih hnodup.2, List.filter_cons_of_neg]
      simp [h2]
    · have hstep : attentionStep types TrimText payload post clock [] a
          = [newPushMessage TrimText payload post (clock 0) types.CommentInFavorited
              a.UserID] := by
        simp [attentionStep, h2]
      rw [hstep, attentions_fold_from_first, List.filter_cons_of_pos (by simpa using h2)]
      have hnot : ¬ a.UserID ∈ rest.map (fun a => a.UserID) := hnodup.1
      have hfilter : List.filter (fun b : Attention =>
            decide (b.UserID ≠ (newPushMessage TrimText payload post (clock 0)
              types.CommentInFavorited a.UserID).UserID ∧ b.UserID ≠ payload.CommenterUserID)) rest
          = List.filter (fun b : Attention => decide (b.UserID ≠ payload.CommenterUserID)) rest := by
        apply List.filter_congr
        intro b hb
        have hne : b.UserID ≠ a.UserID := by
          intro h
          exact hnot (h ▸ List.mem_map_of_mem (fun a : Attention => a.UserID) hb)
        simp [newPushMessage, hne]
      rw [hfilter]
      simp [newPushMessage, hnot]

theorem assembleMessages_pairs (types : PushTypes) (TrimText : String → Nat → String)
    (payload : PushNotificationPayload) (post : Post) (clock : Nat → Time)
    (replyToUserID : Int) (attentions : List Attention)
    (hnodup : (attentions.map (fun a => a.UserID)).Nodup) :
    (assembleMessages types TrimText payload post clock replyToUserID attentions).map
        (fun m => (m.UserID, m.Typ))
      = (if replyToUserID ≠ payload.CommenterUserID then
          [(replyToUserID,
            if replyToUserID ∈ attentions.map (fun a => a.UserID)
            then types.ReplyMeComment ||| types.CommentInFavorited else types.ReplyMeComment)]
         else []) ++
        (attentions.filter (fun a =>
            a.UserID ≠ replyToUserID ∧ a.UserID ≠ payload.CommenterUserID)).map
          (fun a => (a.UserID, types.CommentInFavorited)) := by
  unfold assembleMessages
  by_cases hr : replyToUserID = payload.CommenterUserID
  · simp only [ne_eq, hr, not_true_eq_false, if_false, List.nil_append]
    rw [attentions_fold_from_nil types TrimText payload post clock attentions hnodup]
    congr 1
    apply List.filter_congr
    intro a _
    simp
  · simp only [ne_eq, hr, not_false_eq_true, if_true]
    rw [attentions_fold_from_first]
    simp [newPushMessage]

/-- C18: for a list of favoriting users without repeated user ids, the messages
`handlePushNotification` assembles go to distinct users; the commenter is not
among them; the recipients are exactly the user replied to and the favoriting
users, the commenter left out; the message of the user replied to carries the
reply flag, together with the favorited flag exactly when that user favorited
the post, and every other message carries the favorited flag only. -/
theorem assembleMessages_recipients (types : PushTypes) (TrimText : String → Nat → String)
    (payload : PushNotificationPayload) (post : Post) (clock : Nat → Time)
    (replyToUserID : Int) (attentions : List Attention)
    (hnodup : (attentions.map (fun a => a.UserID)).Nodup) :
    ((assembleMessages types TrimText payload post clock replyToUserID attentions).map
        (fun m => m.UserID)).Nodup ∧
    (∀ m ∈ assembleMessages types TrimText payload post clock replyToUserID attentions,
      m.UserID ≠ payload.CommenterUserID) ∧
    (∀ u : Int,
      u ∈ (assembleMessages types TrimText payload post clock replyToUserID attentions).map
          (fun m => m.UserID)
        ↔ u ≠ payload.CommenterUserID ∧
          (u = replyToUserID ∨ u ∈ attentions.map (fun a => a.UserID))) ∧
    (∀ m ∈ assembleMessages types TrimText payload post clock replyToUserID attentions,
      m.UserID = replyToUserID →
        m.Typ = if replyToUserID ∈ attentions.map (fun a => a.UserID)
          then types.ReplyMeComment ||| types.CommentInFavorited
          else types.ReplyMeComment) ∧
    (∀ m ∈ assembleMessages types TrimText payload post clock replyToUserID attentions,
      m.UserID ≠ replyToUserID → m.Typ = types.CommentInFavorited) := by
  have hL := assembleMessages_pairs types TrimText payload post clock replyToUserID attentions
    hnodup
  have husers : (assembleMessages types TrimText payload post clock replyToUserID attentions).map
        (fun m => m.UserID)
      = (if replyToUserID ≠ payload.CommenterUserID then [replyToUserID] else []) ++
        (attentions.filter (fun a =>
            a.UserID ≠ replyToUserID ∧ a.UserID ≠ payload.CommenterUserID)).map
          (fun a => a.UserID) := by
    have := congrArg (List.map Prod.fst) hL
    rw [List.map_map, List.map_append, List.map_map] at this
    rw [show (fun m : PushMessage => m.UserID)
      = Prod.fst ∘ (fun m : PushMessage => (m.UserID, m.Typ)) from rfl, this]
    congr 1
    split <;> rfl
  have hpair : ∀ m ∈ assembleMessages types TrimText payload post clock replyToUserID attentions,
      (replyToUserID ≠ payload.CommenterUserID ∧ m.UserID = replyToUserID ∧
        m.Typ = if replyToUserID ∈ attentions.map (fun a => a.UserID)
          then types.ReplyMeComment ||| types.CommentInFavorited
          else types.ReplyMeComment) ∨
      (m.UserID ≠ replyToUserID ∧ m.UserID ≠ payload.CommenterUserID ∧
        m.UserID ∈ attentions.map (fun a => a.UserID) ∧ m.Typ = types.CommentInFavorited) := by
    intro m hm
    have hin := List.mem_map_of_mem (fun m : PushMessage => (m.UserID, m.Typ)) hm
    rw [hL, List.mem_append] at hin
    rcases hin with hin | hin
    · left
      by_cases hr : replyToUserID = payload.CommenterUserID
      · simp [hr] at hin
      · rw [if_pos hr, List.mem_singleton, Prod.mk.injEq] at hin
        exact ⟨hr, hin.1, hin.2⟩
    · right
      rw [List.mem_map] at hin
      obtain ⟨a, ha, hpa⟩ := hin
      rw [Prod.mk.injEq] at hpa
      rw [List.mem_filter] at ha
      have hcond : a.UserID ≠ replyToUserID ∧ a.UserID ≠ payload.CommenterUserID := by
        simpa using ha.2
      rw [← hpa.1, ← hpa.2]
      exact ⟨hcond.1, hcond.2, List.mem_map_of_mem (fun a : Attention => a.UserID) ha.1, rfl⟩
  have hsub : ((attentions.filter (fun a =>
        a.UserID ≠ replyToUserID ∧ a.UserID ≠ payload.CommenterUserID)).map
          (fun a => a.UserID)).Nodup :=
    hnodup.sublist (List.Sublist.map _ (List.filter_sublist _))
  refine ⟨?_, ?_, ?_, ?_, ?_⟩
  · rw [husers]
    by_cases hr : replyToUserID = payload.CommenterUserID
    · simpa [hr] using hsub
    · rw [if_pos hr, List.singleton_append, List.nodup_cons]
      refine ⟨?_, hsub⟩
      intro hin
      rw [List.mem_map] at hin
      obtain ⟨a, ha, hau⟩ := hin
      have hcond : a.UserID ≠ replyToUserID ∧ a.UserID ≠ payload.CommenterUserID := by
        simpa using (List.mem_filter.mp ha).2
      exact hcond.1 hau
  · intro m hm
    rcases hpair m hm with ⟨hr, hu, _⟩ | ⟨_, hc, _⟩
    · rw [hu]; exact hr
    · exact hc
  · intro u
    rw [husers, List.mem_append]
    constructor
    · rintro (h | h)
      · by_cases hr : replyToUserID = payload.CommenterUserID
        · simp [hr] at h
        · rw [if_pos hr, List.mem_singleton] at h
          exact ⟨h ▸ hr, Or.inl h⟩
      · rw [List.mem_map] at h
        obtain ⟨a, ha, hau⟩ := h
        have hcond : a.UserID ≠ replyToUserID ∧ a.UserID ≠ payload.CommenterUserID := by
          simpa using (List.mem_filter.mp ha).2
        exact ⟨hau ▸ hcond.2, Or.inr (hau ▸ List.mem_map_of_mem (fun a : Attention => a.UserID)
          (List.mem_filter.mp ha).1)⟩
    · rintro ⟨hc, h⟩
      by_cases hur : u = replyToUserID
      · left
        rw [if_pos (hur ▸ hc), List.mem_singleton]
        exact hur
      · right
        rcases h with h | h
        · exact absurd h hur
        · rw [List.mem_map] at h ⊢
          obtain ⟨a, ha, hau⟩ := h
          refine ⟨a, ?_, hau⟩
          rw [List.mem_filter]
          refine ⟨ha, ?_⟩
          simp [hau, hur, hc]
  · intro m hm hu
    rcases hpair m hm with ⟨_, _, ht⟩ | ⟨hne, _⟩
    · exact ht
    · exact absurd hu hne
  · intro m hm hu
    rcases hpair m hm with ⟨_, he, _⟩ | ⟨_, _, _, ht⟩
    · exact absurd he hu
    · exact ht

/-- Witness of C18: post 42 of user 1, favorited by users 1, 5 and 8, and a
comment of user 5. -/
theorem assembleMessages_recipients_witness :
    ((assembleMessages demoTypes demoTrim demoNotifyPayload demoNotifyPost demoClock 1
        demoAttentions).map (fun m => m.UserID)).Nodup ∧
    ∀ m ∈ assembleMessages demoTypes demoTrim demoNotifyPayload demoNotifyPost demoClock 1
        demoAttentions, m.UserID ≠ demoNotifyPayload.CommenterUserID :=
  ⟨(assembleMessages_recipients demoTypes demoTrim demoNotifyPayload demoNotifyPost demoClock 1
      demoAttentions (by decide)).1,
   (assembleMessages_recipients demoTypes demoTrim demoNotifyPayload demoNotifyPost demoClock 1
      demoAttentions (by decide)).2.1⟩

/-- Witness of C19: the preferences of users 8 and 9 and the two example
messages. -/
theorem PreProcessPushMessages_marks_witness :
    (PreProcessPushMessages demoTypes demoSettings none demoMessages).2.length
      = demoMessages.length :=
  (PreProcessPushMessages_marks demoTypes demoSettings none demoMessages (by decide) rfl).1

/-! ## Push notifications: C17 -/

theorem SendToPushService_carried_out (table msgs : List PushMessage) :
    SendToPushService table none msgs = table ++ msgs.filter (fun msg => msg.DoPush) := by
  unfold SendToPushService
  by_cases h : (msgs.filter (fun msg => msg.DoPush)).length = 0
  · simp only [h, if_true]
    rw [List.length_eq_zero.mp h, List.append_nil]
  · simp only [h, if_false]

theorem handlePushNotification_allDone (types : PushTypes) (TrimText : String → Nat → String)
    (store : NotifyStore) (clock : Nat → Time) (payload : PushNotificationPayload) :
    handlePushNotification types TrimText store allDone clock (.ok payload)
      = (none, { store with
          pushMessages := store.pushMessages ++
            recordsToPush types TrimText store clock payload }) := by
  unfold handlePushNotification recordsToPush
  simp only [allDone]
  cases hf : firstPost store.db none payload.PostID with
  | error e =>
    have he : e = Error.ErrRecordNotFound := by
      unfold firstPost at hf
      simp only at hf
      split at hf
      · cases hf
      · cases hf; rfl
    simp [he]
  | ok post =>
    simp only
    by_cases hd : post.Deleted = true
    · simp [hd]
    · simp only [hd, Bool.false_eq_true, if_false]
      have hp : (PreProcessPushMessages types store.pushSettings none
          (assembleMessages types TrimText payload post clock
            (replyTarget store.db payload post)
            (store.attentions.filter (fun a => a.PostID = post.ID)))).1 = none := rfl
      simp only [hp, SendToPushService_carried_out]

theorem attentionStep_withoutTime (types : PushTypes) (TrimText : String → Nat → String)
    (payload : PushNotificationPayload) (post : Post) (clock1 clock2 : Nat → Time)
    (acc1 acc2 : List PushMessage) (a : Attention)
    (h : acc1.map withoutTime = acc2.map withoutTime) :
    (attentionStep types TrimText payload post clock1 acc1 a).map withoutTime
      = (attentionStep types TrimText payload post clock2 acc2 a).map withoutTime := by
  cases acc1 with
  | nil =>
    cases acc2 with
    | nil =>
      simp only [attentionStep]
      split
      · simp [withoutTime, newPushMessage]
      · rfl
    | cons f2 o2 => simp at h
  | cons f1 o1 =>
    cases acc2 with
    | nil => simp at h
    | cons f2 o2 =>
      rw [List.map_cons, List.map_cons, List.cons.injEq] at h
      obtain ⟨hf, ho⟩ := h
      have hu : f1.UserID = f2.UserID := by
        have hc := congrArg (fun m : PushMessage => m.UserID) hf
        exact hc
      have ht : f1.Typ = f2.Typ := by
        have hc := congrArg (fun m : PushMessage => m.Typ) hf
        exact hc
      simp only [attentionStep, ← hu]
      split
      · rw [List.map_cons, List.map_cons, ho]
        congr 1
        simp only [withoutTime, PushMessage.mk.injEq] at hf ⊢
        simp [hf, ht]
      · split
        · rw [List.map_append, List.map_append, List.map_cons, List.map_cons, hf, ho]
          simp [withoutTime, newPushMessage]
        · rw [List.map_cons, List.map_cons, hf, ho]

theorem assembleMessages_withoutTime (types : PushTypes) (TrimText : String → Nat → String)
    (payload : PushNotificationPayload) (post : Post) (clock1 clock2 : Nat → Time)
    (replyToUserID : Int) (attentions : List Attention) :
    (assembleMessages types TrimText payload post clock1 replyToUserID attentions).map withoutTime
      = (assembleMessages types TrimText payload post clock2 replyToUserID attentions).map
          withoutTime := by
  unfold assembleMessages
  have hfold : ∀ (rest : List Attention) (acc1 acc2 : List PushMessage),
      acc1.map withoutTime = acc2.map withoutTime →
      (rest.foldl (attentionStep types TrimText payload post clock1) acc1).map withoutTime
        = (rest.foldl (attentionStep types TrimText payload post clock2) acc2).map
            withoutTime := by
    intro rest
    induction rest with
    | nil => intro acc1 acc2 h; exact h
    | cons a rest ih =>
      intro acc1 acc2 h
      rw [List.foldl_cons, List.foldl_cons]
      exact ih _ _ (attentionStep_withoutTime types TrimText payload post clock1 clock2 _ _ a h)
  apply hfold
  split
  · simp [withoutTime, newPushMessage]
  · rfl

theorem PreProcessPushMessages_withoutTime (types : PushTypes) (table : List PushSettings)
    (msgs1 msgs2 : List PushMessage) (h : msgs1.map withoutTime = msgs2.map withoutTime) :
    (PreProcessPushMessages types table none msgs1).2.map withoutTime
      = (PreProcessPushMessages types table none msgs2).2.map withoutTime := by
  have hu : msgs1.map (fun msg => msg.UserID) = msgs2.map (fun msg => msg.UserID) := by
    have := congrArg (List.map (fun msg : PushMessage => msg.UserID)) h
    simpa [List.map_map, Function.comp, withoutTime] using this
  simp only [PreProcessPushMessages, hu]
  generalize (List.foldl (fun (m : GoMap PushSettings) s => m.set s.UserID s) []
    (table.filter (fun s => s.UserID ∈ msgs2.map (fun msg => msg.UserID)))) = settingsMap
  have hcomm : ∀ msgs : List PushMessage,
      (msgs.map (fun msg =>
        match GoMap.get settingsMap msg.UserID with
        | some s =>
          if (s.Settings &&& msg.Typ) > 0 then { msg with DoPush := true }
          else { msg with DoPush := false }
        | none =>
          if (msg.Typ &&& (types.SystemMessage ||| types.ReplyMeComment)) > 0
          then { msg with DoPush := true }
          else { msg with DoPush := false })).map withoutTime
      = (msgs.map withoutTime).map (fun msg =>
        match GoMap.get settingsMap msg.UserID with
        | some s =>
          if (s.Settings &&& msg.Typ) > 0 then { msg with DoPush := true }
          else { msg with DoPush := false }
        | none =>
          if (msg.Typ &&& (types.SystemMessage ||| types.ReplyMeComment)) > 0
          then { msg with DoPush := true }
          else { msg with DoPush := false }) := by
    intro msgs
    rw [List.map_map, List.map_map]
    apply List.map_congr_left
    intro m _
    simp only [Function.comp, withoutTime]
    split <;> split <;> rfl
  rw [hcomm msgs1, hcomm msgs2, h]

theorem filter_withoutTime (l1 l2 : List PushMessage)
    (h : l1.map withoutTime = l2.map withoutTime) :
    (l1.filter (fun msg => msg.DoPush)).map withoutTime
      = (l2.filter (fun msg => msg.DoPush)).map withoutTime := by
  induction l1 generalizing l2 with
  | nil =>
    cases l2 with
    | nil => rfl
    | cons b l2 => simp at h
  | cons a l1 ih =>
    cases l2 with
    | nil => simp at h
    | cons b l2 =>
      rw [List.map_cons, List.map_cons, List.cons.injEq] at h
      have hd : a.DoPush = b.DoPush := by
        have hc := congrArg (fun m : PushMessage => m.DoPush) h.1
        exact hc
      rw [List.filter_cons, List.filter_cons, hd]
      split
      · rw [List.map_cons, List.map_cons, h.1, ih l2 h.2]
      · exact ih l2 h.2

theorem recordsToPush_withoutTime (types : PushTypes) (TrimText : String → Nat → String)
    (store : NotifyStore) (clock1 clock2 : Nat → Time) (payload : PushNotificationPayload) :
    (recordsToPush types TrimText store clock1 payload).map withoutTime
      = (recordsToPush types TrimText store clock2 payload).map withoutTime := by
  unfold recordsToPush
  cases firstPost store.db none payload.PostID with
  | error e => rfl
  | ok post =>
    simp only
    split
    · rfl
    · exact filter_withoutTime _ _
        (PreProcessPushMessages_withoutTime types store.pushSettings _ _
          (assembleMessages_withoutTime types TrimText payload post clock1 clock2 _ _))

/-- C17, counterexample: with post 42 of user 1 favorited by users 1, 5 and 8
and a comment of user 5, one delivery of the task persists two push-message
records and a second delivery of the same task persists two more, so that two
deliveries leave four records where one leaves two. -/
theorem handlePushNotification_not_idempotent :
    (handlePushNotification demoTypes demoTrim demoNotifyStore allDone demoClock
      (.ok demoNotifyPayload)).2.pushMessages.length = 2 ∧
    (handlePushNotification demoTypes demoTrim
      (handlePushNotification demoTypes demoTrim demoNotifyStore allDone demoClock
        (.ok demoNotifyPayload)).2 allDone demoClock
      (.ok demoNotifyPayload)).2.pushMessages.length = 4 ∧
    (handlePushNotification demoTypes demoTrim
      (handlePushNotification demoTypes demoTrim demoNotifyStore allDone demoClock
        (.ok demoNotifyPayload)).2 allDone demoClock
      (.ok demoNotifyPayload)).2.pushMessages
      ≠ (handlePushNotification demoTypes demoTrim demoNotifyStore allDone demoClock
        (.ok demoNotifyPayload)).2.pushMessages := by
  have h1 : (handlePushNotification demoTypes demoTrim demoNotifyStore allDone demoClock
      (.ok demoNotifyPayload)).2.pushMessages.length = 2 := by decide
  have h2 : (handlePushNotification demoTypes demoTrim
      (handlePushNotification demoTypes demoTrim demoNotifyStore allDone demoClock
        (.ok demoNotifyPayload)).2 allDone demoClock
      (.ok demoNotifyPayload)).2.pushMessages.length = 4 := by decide
  refine ⟨h1, h2, ?_⟩
  intro h
  rw [h, h1] at h2
  exact absurd h2 (by decide)

/-- C17, amended: when the store carries out every command, a delivery of a
decoded task leaves the posts, comments, attentions and push settings as they
were and appends to `push_messages` the records marked for pushing; a second
delivery of the same task to the store the first one left appends records once
more, which agree with those of the first delivery in every field except the
time stamp.  Two deliveries thus persist every record twice. -/
theorem handlePushNotification_two_deliveries (types : PushTypes)
    (TrimText : String → Nat → String) (store : NotifyStore) (clock1 clock2 : Nat → Time)
    (payload : PushNotificationPayload) :
    handlePushNotification types TrimText store allDone clock1 (.ok payload)
      = (none, { store with
          pushMessages := store.pushMessages ++
            recordsToPush types TrimText store clock1 payload }) ∧
    handlePushNotification types TrimText
        (handlePushNotification types TrimText store allDone clock1 (.ok payload)).2
        allDone clock2 (.ok payload)
      = (none, { store with
          pushMessages := store.pushMessages ++
            recordsToPush types TrimText store clock1 payload ++
            recordsToPush types TrimText store clock2 payload }) ∧
    (recordsToPush types TrimText store clock2 payload).map withoutTime
      = (recordsToPush types TrimText store clock1 payload).map withoutTime ∧
    (recordsToPush types TrimText store clock2 payload).length
      = (recordsToPush types TrimText store clock1 payload).length := by
  have hsame := recordsToPush_withoutTime types TrimText store clock2 clock1 payload
  refine ⟨handlePushNotification_allDone types TrimText store clock1 payload, ?_, hsame, ?_⟩
  · rw [handlePushNotification_allDone types TrimText store clock1 payload,
      handlePushNotification_allDone]
    rfl
  · have := congrArg List.length hsame
    simpa using this

/-! ## Cold start: C20 -/

theorem orderByIdAsc_sorted (cs : List Comment) :
    (orderByIdAsc cs).Sorted (fun a b => a.ID ≤ b.ID) :=
  @List.sorted_insertionSort Comment (fun a b => a.ID ≤ b.ID) _
    ⟨fun a b => le_total a.ID b.ID⟩ ⟨fun _ _ _ hab hbc => le_trans hab hbc⟩ cs

theorem batch_query_ok (db : Db) (cache : Cache) (getReply : String → Reply)
    (queryReply : Reply) (setReply : String → Reply) (posts : List Post) (now : Time)
    (rtn : GoMap (List Comment))
    (hok : (GetMultipleCommentsWithCache db cache getReply queryReply setReply posts now).result
      = .ok rtn)
    (hne : idsToQuery cache getReply now posts ≠ []) : queryReply = none := by
  unfold GetMultipleCommentsWithCache at hok
  simp only [batch_noCache] at hok
  have hpos : (idsToQuery cache getReply now posts).length > 0 := List.length_pos.mpr hne
  simp only [hpos, if_true] at hok
  cases queryReply with
  | none => rfl
  | some msg => simp [GetMultipleComments] at hok

/-- C22: when `GetMultipleCommentsWithCache` succeeds, a post it read from the
system of record (a post that is not answered from the cache) is mapped to the
comments of the query result with that `post_id`: exactly those, each as often
as the query result holds it, in the order of the query result, which is by
ascending id; hence every comment in the sequence of a post belongs to that
post. -/
theorem GetMultipleCommentsWithCache_groups_by_post (db : Db) (cache : Cache)
    (getReply : String → Reply) (queryReply : Reply) (setReply : String → Reply)
    (posts : List Post) (now : Time) (rtn : GoMap (List Comment))
    (hok : (GetMultipleCommentsWithCache db cache getReply queryReply setReply posts now).result
      = .ok rtn)
    (pid : Int) (hpid : pid ∈ idsToQuery cache getReply now posts) :
    ∃ cs : List Comment, rtn.get pid = some cs ∧
      cs = (GetMultipleComments db queryReply (idsToQuery cache getReply now posts)).1.filter
        (fun c => c.PostID = pid) ∧
      (∀ c : Comment, c ∈ cs ↔
        c ∈ (GetMultipleComments db queryReply (idsToQuery cache getReply now posts)).1 ∧
          c.PostID = pid) ∧
      (∀ c : Comment, c.PostID = pid → cs.count c =
        (GetMultipleComments db queryReply (idsToQuery cache getReply now posts)).1.count c) ∧
      (∀ c : Comment, c.PostID ≠ pid → cs.count c = 0) ∧
      cs.Sublist (GetMultipleComments db queryReply (idsToQuery cache getReply now posts)).1 ∧
      (GetMultipleComments db queryReply (idsToQuery cache getReply now posts)).1.Sorted
        (fun a b => a.ID ≤ b.ID) ∧
      cs.Sorted (fun a b => a.ID ≤ b.ID) := by
  have hq : queryReply = none :=
    batch_query_ok db cache getReply queryReply setReply posts now rtn hok
      (List.ne_nil_of_mem hpid)
  subst hq
  have hget := batch_get db cache getReply none setReply posts now rtn hok pid
  rw [if_pos hpid] at hget
  have hsorted : (GetMultipleComments db none (idsToQuery cache getReply now posts)).1.Sorted
      (fun a b => a.ID ≤ b.ID) := orderByIdAsc_sorted _
  refine ⟨_, hget, rfl, ?_, ?_, ?_, List.filter_sublist _, hsorted,
    hsorted.sublist (List.filter_sublist _)⟩
  · intro c
    rw [List.mem_filter]
    simp
  · intro c hc
    rw [List.count_filter]
    simpa using hc
  · intro c hc
    rw [List.count_eq_zero]
    intro hmem
    rw [List.mem_filter] at hmem
    exact hc (by simpa using hmem.2)

/-- Witness of C22: in the scenario post 3, which is too old to be cached, is
mapped to its two comments by ascending id. -/
theorem GetMultipleCommentsWithCache_groups_by_post_witness :
    ∃ cs : List Comment, demoRtn.get 3 = some cs ∧
      cs = (GetMultipleComments demoDb none
        (idsToQuery demoCache (fun _ => none) demoNow demoPosts)).1.filter
          (fun c => c.PostID = 3) :=
  have h := GetMultipleCommentsWithCache_groups_by_post demoDb demoCache (fun _ => none) none
    (fun _ => none) demoPosts demoNow demoRtn rfl 3 (by decide)
  h.imp (fun _ hcs => ⟨hcs.1, hcs.2.1⟩)

/-! ## Push notifications: C24 -/

/-- C24 (the code at the failing input): post 42 of user 1 is favorited by users
1, 5 and 8 and has no comment 99.  For a payload of user 5 that names comment
99 as replied to, the lookup of the comment finds nothing, its error is not
looked at, and the handler takes the zero value 0 as the user replied to: the
first message it assembles is a reply notification addressed to user 0, who is
neither the author of the post nor among the favoriting users, and the handler
stores it in `push_messages`. -/
theorem handlePushNotification_addresses_zero_user :
    replyTarget demoNotifyStore.db demoReplyPayload demoNotifyPost = 0 ∧
    (assembleMessages demoTypes demoTrim demoReplyPayload demoNotifyPost demoClock
      (replyTarget demoNotifyStore.db demoReplyPayload demoNotifyPost)
      (demoNotifyStore.attentions.filter (fun a => a.PostID = demoNotifyPost.ID))).map
        (fun m => (m.UserID, m.Typ)) = [(0, 2), (1, 4), (8, 4)] ∧
    (handlePushNotification demoTypes demoTrim demoNotifyStore allDone demoClock
      (.ok demoReplyPayload)).2.pushMessages.map (fun m => (m.UserID, m.Typ, m.DoPush))
        = [(0, 2, true), (8, 4, true)] ∧
    demoNotifyPost.UserID ≠ 0 ∧
    (∀ a ∈ demoNotifyStore.attentions, a.UserID ≠ 0) ∧
    demoNotifyStore.db.comments = [] := by
  refine ⟨by decide, by decide, by decide, by decide, by decide, rfl⟩

/-! ## The delayed queue: C23 -/

theorem schedulerTick_complete (q : Queues) (now : Time) :
    schedulerTick q now none none =
      { defaultQueue := (q.delayedQueue.rangeByScore ((now.Unix : Int) : ℚ)).reverse ++
          q.defaultQueue,
        delayedQueue := q.delayedQueue.rem
          (q.delayedQueue.rangeByScore ((now.Unix : Int) : ℚ)) } := by
  unfold schedulerTick
  simp only
  by_cases h0 : (q.delayedQueue.rangeByScore ((now.Unix : Int) : ℚ)).length = 0
  · rw [if_pos h0]
    have hnil := List.length_eq_zero.mp h0
    rw [hnil]
    simp [DelayedSet.rem]
  · rw [if_neg h0]
    exact runPipeline_all _ q

theorem occurrences_perm (m : Bytes) (l1 l2 : List Bytes) (h : l1.Perm l2) :
    occurrences m l1 = occurrences m l2 := by
  unfold occurrences
  exact (h.filter _).length_eq

theorem EnqueueWithDelay_twice (q : Queues) (payloadBytes taskType : Bytes)
    (now1 now2 : Time) (delay1 delay2 : Int) :
    (EnqueueWithDelay (EnqueueWithDelay q (.ok payloadBytes) none now1 delay1 taskType).2
        (.ok payloadBytes) none now2 delay2 taskType)
      = (none,
          { defaultQueue := q.defaultQueue,
            delayedQueue :=
              (marshalTask { Typ := taskType, Payload := payloadBytes },
                ((((now2.Add delay2).Unix : Int)) : ℚ)) ::
              q.delayedQueue.filter
                (fun e => e.1 ≠ marshalTask { Typ := taskType, Payload := payloadBytes }) }) := by
  simp only [EnqueueWithDelay, DelayedSet.add]
  congr 2
  rw [List.filter_cons_of_neg (by simp), List.filter_filter]
  congr 1
  apply List.filter_congr
  intro e _
  simp

theorem occurrences_head_only (m : Bytes) (l : List Bytes) (h : m ∉ l) :
    occurrences m (m :: l) = 1 := by
  have h0 := occurrences_of_not_mem m l h
  unfold occurrences at h0 ⊢
  rw [List.filter_cons_of_pos (by simp), List.length_cons, h0]

theorem occurrences_append (m : Bytes) (l1 l2 : List Bytes) :
    occurrences m (l1 ++ l2) = occurrences m l1 + occurrences m l2 := by
  unfold occurrences
  rw [List.filter_append, List.length_append]

theorem not_mem_filter_ne (z : DelayedSet) (m : Bytes) (p : Bytes × ℚ → Bool) :
    m ∉ ((z.filter (fun e => e.1 ≠ m)).filter p).map Prod.fst := by
  intro h
  rw [List.mem_map] at h
  obtain ⟨e, he, hm⟩ := h
  have h2 := (List.mem_filter.mp (List.mem_filter.mp he).1).2
  simp [hm] at h2

/-- C23: two calls of `EnqueueWithDelay` with the same type and the same
serialized payload, both carried out, leave the delayed set with exactly one
member for the task, whose score is the due second of the second call; the
other members are as before.  A complete tick at or after that second finds the
task once, pushes it once onto the immediate queue and removes it, so that no
later tick finds it again; a tick before that second does not find it. -/
theorem EnqueueWithDelay_twice_one_member (q : Queues) (payloadBytes taskType : Bytes)
    (now1 now2 : Time) (delay1 delay2 : Int) :
    (EnqueueWithDelay q (.ok payloadBytes) none now1 delay1 taskType).1 = none ∧
    (EnqueueWithDelay (EnqueueWithDelay q (.ok payloadBytes) none now1 delay1 taskType).2
      (.ok payloadBytes) none now2 delay2 taskType).1 = none ∧
    occurrences (marshalTask { Typ := taskType, Payload := payloadBytes })
      ((EnqueueWithDelay (EnqueueWithDelay q (.ok payloadBytes) none now1 delay1 taskType).2
        (.ok payloadBytes) none now2 delay2 taskType).2.delayedQueue.map Prod.fst) = 1 ∧
    (∀ s : ℚ,
      (marshalTask { Typ := taskType, Payload := payloadBytes }, s) ∈
        (EnqueueWithDelay (EnqueueWithDelay q (.ok payloadBytes) none now1 delay1 taskType).2
          (.ok payloadBytes) none now2 delay2 taskType).2.delayedQueue
        ↔ s = ((((now2.Add delay2).Unix : Int)) : ℚ)) ∧
    (∀ e : Bytes × ℚ, e.1 ≠ marshalTask { Typ := taskType, Payload := payloadBytes } →
      (e ∈ (EnqueueWithDelay
          (EnqueueWithDelay q (.ok payloadBytes) none now1 delay1 taskType).2
          (.ok payloadBytes) none now2 delay2 taskType).2.delayedQueue
        ↔ e ∈ q.delayedQueue)) ∧
    (∀ now : Time, ((((now2.Add delay2).Unix : Int)) : ℚ) ≤ ((now.Unix : Int) : ℚ) →
      occurrences (marshalTask { Typ := taskType, Payload := payloadBytes })
        ((EnqueueWithDelay (EnqueueWithDelay q (.ok payloadBytes) none now1 delay1 taskType).2
          (.ok payloadBytes) none now2 delay2 taskType).2.delayedQueue.rangeByScore
            ((now.Unix : Int) : ℚ)) = 1 ∧
      occurrences (marshalTask { Typ := taskType, Payload := payloadBytes })
        (schedulerTick
          (EnqueueWithDelay (EnqueueWithDelay q (.ok payloadBytes) none now1 delay1 taskType).2
            (.ok payloadBytes) none now2 delay2 taskType).2 now none none).defaultQueue
        = occurrences (marshalTask { Typ := taskType, Payload := payloadBytes })
            q.defaultQueue + 1 ∧
      ∀ later : Time,
        occurrences (marshalTask { Typ := taskType, Payload := payloadBytes })
          ((schedulerTick
            (EnqueueWithDelay
              (EnqueueWithDelay q (.ok payloadBytes) none now1 delay1 taskType).2
              (.ok payloadBytes) none now2 delay2 taskType).2 now none none).delayedQueue.rangeByScore
            ((later.Unix : Int) : ℚ)) = 0) ∧
    (∀ now : Time, ¬ ((((now2.Add delay2).Unix : Int)) : ℚ) ≤ ((now.Unix : Int) : ℚ) →
      occurrences (marshalTask { Typ := taskType, Payload := payloadBytes })
        ((EnqueueWithDelay (EnqueueWithDelay q (.ok payloadBytes) none now1 delay1 taskType).2
          (.ok payloadBytes) none now2 delay2 taskType).2.delayedQueue.rangeByScore
            ((now.Unix : Int) : ℚ)) = 0) := by
  rw [EnqueueWithDelay_twice]
  generalize marshalTask { Typ := taskType, Payload := payloadBytes } = tb
  generalize ((((now2.Add delay2).Unix : Int)) : ℚ) = s2
  have hnot : tb ∉ (q.delayedQueue.filter (fun e => e.1 ≠ tb)).map Prod.fst := by
    intro h
    rw [List.mem_map] at h
    obtain ⟨e, he, hm⟩ := h
    have h2 := (List.mem_filter.mp he).2
    simp [hm] at h2
  have hmemtb : ∀ s : ℚ, (tb, s) ∈ (tb, s2) :: q.delayedQueue.filter (fun e => e.1 ≠ tb)
      ↔ s = s2 := by
    intro s
    rw [List.mem_cons]
    constructor
    · rintro (h | h)
      · exact (Prod.mk.injEq _ _ _ _ ▸ h).2
      · exact absurd (List.mem_map_of_mem Prod.fst h) hnot
    · intro h
      exact Or.inl (by rw [h])
  refine ⟨rfl, rfl, ?_, hmemtb, ?_, ?_, ?_⟩
  · show occurrences tb (tb :: (q.delayedQueue.filter (fun e => e.1 ≠ tb)).map Prod.fst) = 1
    exact occurrences_head_only tb _ hnot
  · intro e he
    show e ∈ (tb, s2) :: q.delayedQueue.filter (fun e => e.1 ≠ tb) ↔ e ∈ q.delayedQueue
    rw [List.mem_cons, List.mem_filter]
    constructor
    · rintro (h | h)
      · exact absurd (congrArg Prod.fst h) he
      · exact h.1
    · intro h
      exact Or.inr ⟨h, by simpa using he⟩
  · intro now hdue
    have hrange : occurrences tb
        (DelayedSet.rangeByScore ((tb, s2) :: q.delayedQueue.filter (fun e => e.1 ≠ tb))
          ((now.Unix : Int) : ℚ)) = 1 := by
      rw [occurrences_perm tb _ _ (rangeByScore_perm _ _),
        List.filter_cons_of_pos (by simpa using hdue), List.map_cons]
      exact occurrences_head_only tb _ (not_mem_filter_ne q.delayedQueue tb _)
    have hin : tb ∈ DelayedSet.rangeByScore
        ((tb, s2) :: q.delayedQueue.filter (fun e => e.1 ≠ tb)) ((now.Unix : Int) : ℚ) := by
      rw [mem_rangeByScore]
      exact ⟨(tb, s2), List.mem_cons_self _ _, hdue, rfl⟩
    refine ⟨hrange, ?_, ?_⟩
    · rw [schedulerTick_complete]
      show occurrences tb (_ ++ q.defaultQueue) = _
      rw [occurrences_append, occurrences_perm tb _ _ (List.reverse_perm _)]
      show occurrences tb (DelayedSet.rangeByScore
        ((tb, s2) :: q.delayedQueue.filter (fun e => e.1 ≠ tb)) ((now.Unix : Int) : ℚ)) + _ = _
      rw [hrange, Nat.add_comm]
    · intro later
      apply occurrences_of_not_mem
      rw [mem_rangeByScore]
      rintro ⟨e, he, _, hm⟩
      rw [schedulerTick_complete] at he
      have he2 : e ∈ DelayedSet.rem ((tb, s2) :: q.delayedQueue.filter (fun e => e.1 ≠ tb))
          (DelayedSet.rangeByScore ((tb, s2) :: q.delayedQueue.filter (fun e => e.1 ≠ tb))
            ((now.Unix : Int) : ℚ)) := he
      unfold DelayedSet.rem at he2
      have h3 : e.1 ∉ DelayedSet.rangeByScore
          ((tb, s2) :: q.delayedQueue.filter (fun e => e.1 ≠ tb)) ((now.Unix : Int) : ℚ) :=
        of_decide_eq_true (List.mem_filter.mp he2).2
      rw [hm] at h3
      exact h3 hin
  · intro now hnd
    show occurrences tb (DelayedSet.rangeByScore
      ((tb, s2) :: q.delayedQueue.filter (fun e => e.1 ≠ tb)) ((now.Unix : Int) : ℚ)) = 0
    apply occurrences_of_not_mem
    rw [mem_rangeByScore]
    rintro ⟨e, he, hle, hm⟩
    rcases List.mem_cons.mp he with rfl | h
    · exact hnd hle
    · have hin := List.mem_map_of_mem Prod.fst h
      rw [hm] at hin
      exact hnot hin

/-- Witness of C23: the example task is enqueued at second 0.9 and again at
second 5, each time with a delay of 2 seconds; the tick at second 7 pushes it
once. -/
theorem EnqueueWithDelay_twice_one_member_witness :
    occurrences (marshalTask { Typ := TaskPushNotification, Payload := [147, 1, 2] })
      (schedulerTick
        (EnqueueWithDelay
          (EnqueueWithDelay demoQueues (.ok [147, 1, 2]) none
            { unixNano := 900000000, zoneOffset := 0 } 2000000000 TaskPushNotification).2
          (.ok [147, 1, 2]) none { unixNano := 5000000000, zoneOffset := 0 } 2000000000
          TaskPushNotification).2
        { unixNano := 7000000000, zoneOffset := 0 } none none).defaultQueue
      = occurrences (marshalTask { Typ := TaskPushNotification, Payload := [147, 1, 2] })
          demoQueues.defaultQueue + 1 :=
  ((EnqueueWithDelay_twice_one_member demoQueues [147, 1, 2] TaskPushNotification
    { unixNano := 900000000, zoneOffset := 0 } { unixNano := 5000000000, zoneOffset := 0 }
    2000000000 2000000000).2.2.2.2.2.1 { unixNano := 7000000000, zoneOffset := 0 }
    (by decide)).2.1

/-! ## Reading the ranking set: C21 -/

theorem formatDigits_digits (fuel : Nat) :
    ∀ n : Nat, ∀ c ∈ formatDigits fuel n, 48 ≤ c.toNat ∧ c.toNat ≤ 57 := by
  induction fuel with
  | zero => intro n c hc; simp [formatDigits] at hc
  | succ f ih =>
    intro n c hc
    by_cases h10 : n < 10
    · simp only [formatDigits, if_pos h10, List.mem_singleton] at hc
      rw [hc, digitChar_toNat n h10]
      omega
    · simp only [formatDigits, if_neg h10, List.mem_append, List.mem_singleton] at hc
      rcases hc with hc | hc
      · exact ih _ c hc
      · have hmod : n % 10 < 10 := Nat.mod_lt _ (by decide)
        rw [hc, digitChar_toNat _ hmod]
        omega

theorem formatDigits_ne_nil (fuel n : Nat) : formatDigits (fuel + 1) n ≠ [] := by
  unfold formatDigits
  split
  · simp
  · simp

theorem Atoi_of_digits (cs : List Char) (hne : cs ≠ [])
    (hd : ∀ c ∈ cs, 48 ≤ c.toNat ∧ c.toNat ≤ 57) :
    Atoi (String.mk cs) =
      (if (digitsValue cs : Int) > 9223372036854775807 then
        (9223372036854775807, some (Error.other "strconv.Atoi: value out of range"))
       else ((digitsValue cs : Int), none)) ∧
    Atoi (String.mk ('-' :: cs)) =
      (if (digitsValue cs : Int) > 9223372036854775808 then
        (-9223372036854775808, some (Error.other "strconv.Atoi: value out of range"))
       else (-(digitsValue cs : Int), none)) := by
  have hall : cs.all (fun c => 48 ≤ c.toNat ∧ c.toNat ≤ 57) = true := by
    rw [List.all_eq_true]
    intro c hc
    simpa using hd c hc
  have hcond : ¬ (cs = [] ∨ ¬ cs.all (fun c => 48 ≤ c.toNat ∧ c.toNat ≤ 57) = true) := by
    rintro (h | h)
    · exact hne h
    · exact h hall
  constructor
  · cases cs with
    | nil => exact absurd rfl hne
    | cons c rest =>
      have hc := hd c (List.mem_cons_self _ _)
      have hminus : c ≠ '-' := by
        intro h
        rw [h] at hc
        exact absurd hc.1 (by decide)
      have hplus : c ≠ '+' := by
        intro h
        rw [h] at hc
        exact absurd hc.1 (by decide)
      unfold Atoi
      have hs : (match (String.mk (c :: rest)).data with
          | '-' :: cs => (true, cs)
          | '+' :: cs => (false, cs)
          | cs => (false, cs)) = (false, c :: rest) := by
        show (match c :: rest with
          | '-' :: cs => (true, cs)
          | '+' :: cs => (false, cs)
          | cs => (false, cs)) = (false, c :: rest)
        split
        · rename_i cs2 heq
          simp only [List.cons.injEq] at heq
          exact absurd heq.1 hminus
        · rename_i cs2 heq
          simp only [List.cons.injEq] at heq
          exact absurd heq.1 hplus
        · rfl
      simp only [hs]
      rw [if_neg hcond]
      simp
  · unfold Atoi
    have hs : (match (String.mk ('-' :: cs)).data with
        | '-' :: cs => (true, cs)
        | '+' :: cs => (false, cs)
        | cs => (false, cs)) = (true, cs) := rfl
    simp only [hs]
    rw [if_neg hcond]
    simp

theorem Atoi_Itoa (n : Int) (hlo : -9223372036854775808 ≤ n) (hhi : n ≤ 9223372036854775807) :
    Atoi (Itoa n) = (n, none) := by
  have hA := Atoi_of_digits (formatDigits (n.natAbs + 1) n.natAbs)
    (formatDigits_ne_nil _ _) (formatDigits_digits _ _)
  rw [digitsValue_formatDigits _ _ (Nat.lt_succ_self _)] at hA
  unfold Itoa
  by_cases hneg : n < 0
  · rw [if_pos hneg, hA.2, if_neg (by omega)]
    congr 1
    omega
  · rw [if_neg hneg, hA.1, if_neg (by omega)]
    congr 1
    omega

theorem wrapInt64_of_range (n : Int) (hlo : -9223372036854775808 ≤ n)
    (hhi : n ≤ 9223372036854775807) : wrapInt64 n = n := by
  unfold wrapInt64
  omega

theorem wrapInt32_of_range (n : Int) (hlo : -2147483648 ≤ n) (hhi : n ≤ 2147483647) :
    wrapInt32 n = n := by
  unfold wrapInt32
  omega

theorem wrapInt32_Atoi_Itoa (n : Int) (hlo : -2147483648 ≤ n) (hhi : n ≤ 2147483647) :
    wrapInt32 (Atoi (Itoa n)).1 = n := by
  rw [Atoi_Itoa n (by omega) (by omega)]
  exact wrapInt32_of_range n hlo hhi

theorem revRange_of_nonneg (z : ZSet) (start stop : Int) (h0 : 0 ≤ start)
    (hs : start ≤ stop) :
    z.revRange start stop = (z.ranking.drop start.toNat).take (stop - start + 1).toNat := by
  unfold ZSet.revRange
  have h1 : ¬ start < 0 := by omega
  have h2 : ¬ stop < 0 := by omega
  simp only [if_neg h1, if_neg h2]
  by_cases hlen : start ≥ (z.ranking.length : Int)
  · rw [if_pos (Or.inr hlen)]
    have hdrop : z.ranking.drop start.toNat = [] := by
      apply List.drop_eq_nil_of_le
      omega
    rw [hdrop, List.take_nil]
  · rw [if_neg (by omega)]
    by_cases hstop : stop ≥ (z.ranking.length : Int)
    · rw [if_pos hstop]
      have hl : (z.ranking.drop start.toNat).length = z.ranking.length - start.toNat :=
        List.length_drop _ _
      rw [List.take_of_length_le (by omega), List.take_of_length_le (by omega)]
    · rw [if_neg hstop]

theorem page_offsets (page pageSize : Int) (hp : 1 ≤ page) (hs : 1 ≤ pageSize)
    (hb : page * pageSize ≤ 9223372036854775808) :
    wrapInt64 (wrapInt64 (wrapInt64 (page - 1) * pageSize)) = (page - 1) * pageSize ∧
    wrapInt64 (wrapInt64 (wrapInt64 (wrapInt64 (wrapInt64 (page - 1) * pageSize))
      + wrapInt64 pageSize) - 1) = (page - 1) * pageSize + pageSize - 1 ∧
    0 ≤ (page - 1) * pageSize := by
  have hpos : 0 ≤ (page - 1) * pageSize := Int.mul_nonneg (by omega) (by omega)
  have hexp : page * pageSize = (page - 1) * pageSize + pageSize := by ring
  have hle1 : page ≤ page * pageSize := by nlinarith
  have hle2 : pageSize ≤ page * pageSize := by nlinarith
  have hw1 : wrapInt64 (page - 1) = page - 1 := wrapInt64_of_range _ (by omega) (by omega)
  rw [hw1]
  generalize (page - 1) * pageSize = a at hpos hexp ⊢
  unfold wrapInt64
  refine ⟨by omega, by omega, hpos⟩

theorem GetHotPostIDsFromCache_segment (z : ZSet) (page pageSize : Int) (hp : 1 ≤ page)
    (hs : 1 ≤ pageSize) (hb : page * pageSize ≤ 9223372036854775808) :
    GetHotPostIDsFromCache z none page pageSize =
      .ok (((z.ranking.drop ((page - 1) * pageSize).toNat).take pageSize.toNat).map
        (fun s => wrapInt32 (Atoi s).1)) := by
  obtain ⟨h1, h2, h0⟩ := page_offsets page pageSize hp hs hb
  simp only [GetHotPostIDsFromCache]
  rw [h2, h1, revRange_of_nonneg z _ _ h0 (by omega)]
  have : (page - 1) * pageSize + pageSize - 1 - (page - 1) * pageSize + 1 = pageSize := by ring
  rw [this]

theorem segments_join (R : List String) (s : Nat) :
    ∀ n : Nat, ((List.range n).map (fun k => (R.drop (k * s)).take s)).flatten = R.take (n * s) := by
  intro n
  induction n with
  | zero => simp
  | succ n ih =>
    rw [List.range_succ, List.map_append, List.flatten_append, ih, List.map_singleton,
      List.flatten_singleton, Nat.succ_mul, List.take_add]

theorem segments_disjoint (R : List String) (hR : R.Nodup) (s p q : Nat) (hpq : p < q) :
    List.Disjoint ((R.drop (p * s)).take s) ((R.drop (q * s)).take s) := by
  have hle : (p + 1) * s ≤ q * s := Nat.mul_le_mul_right s hpq
  have hd := List.disjoint_take_drop hR hle
  intro x hx1 hx2
  have htake : R.take ((p + 1) * s) = R.take (p * s) ++ (R.drop (p * s)).take s := by
    rw [Nat.succ_mul, List.take_add]
  have h1 : x ∈ R.take ((p + 1) * s) := by
    rw [htake]
    exact List.mem_append_right _ hx1
  exact hd h1 (List.mem_of_mem_take hx2)

theorem ranking_perm (z : ZSet) : z.ranking.Perm (z.map Prod.fst) := by
  unfold ZSet.ranking
  exact (List.perm_insertionSort _ _).map Prod.fst

theorem toNat_offset (p s : Int) (hp : 1 ≤ p) (hs : 1 ≤ s) :
    ((p - 1) * s).toNat = (p - 1).toNat * s.toNat := by
  have h0 : 0 ≤ (p - 1) * s := Int.mul_nonneg (by omega) (by omega)
  zify
  rw [Int.toNat_of_nonneg h0, Int.toNat_of_nonneg (by omega : 0 ≤ p - 1),
    Int.toNat_of_nonneg (by omega : 0 ≤ s)]

theorem hotPage_map_Itoa (z : ZSet) (page pageSize : Int) (hp : 1 ≤ page)
    (hs : 1 ≤ pageSize) (hb : page * pageSize ≤ 9223372036854775808)
    (hmem : ∀ e ∈ z, ∃ id : Int, -2147483648 ≤ id ∧ id ≤ 2147483647 ∧ e.1 = Itoa id) :
    GetHotPostIDsFromCache z none page pageSize = .ok (hotPage z page pageSize) ∧
    (hotPage z page pageSize).map Itoa
      = (z.ranking.drop ((page - 1).toNat * pageSize.toNat)).take pageSize.toNat := by
  have hseg := GetHotPostIDsFromCache_segment z page pageSize hp hs hb
  have hpage : hotPage z page pageSize
      = ((z.ranking.drop ((page - 1) * pageSize).toNat).take pageSize.toNat).map
        (fun s => wrapInt32 (Atoi s).1) := by
    unfold hotPage
    rw [hseg]
  refine ⟨by rw [hseg, hpage], ?_⟩
  rw [hpage, toNat_offset page pageSize hp hs, List.map_map]
  have hid : ∀ m ∈ (z.ranking.drop ((page - 1).toNat * pageSize.toNat)).take pageSize.toNat,
      (Itoa ∘ fun s => wrapInt32 (Atoi s).1) m = m := by
    intro m hm
    have hr : m ∈ z.ranking := List.mem_of_mem_drop (List.mem_of_mem_take hm)
    have hz : m ∈ z.map Prod.fst := (ranking_perm z).subset hr
    rw [List.mem_map] at hz
    obtain ⟨e, he, hem⟩ := hz
    obtain ⟨id, hlo, hhi, hid⟩ := hmem e he
    rw [← hem, hid]
    show Itoa (wrapInt32 (Atoi (Itoa id)).1) = Itoa id
    rw [wrapInt32_Atoi_Itoa id hlo hhi]
  rw [List.map_congr_left hid, List.map_id']

/-- C21, counterexample: the ranking set ranks post 8 before post 7 and holds
nothing else.  For page 2^62 + 1 and a page size of 4 the product
`(page-1)*pageSize` is 2^64, which is 0 in the arithmetic of `int`, so that the
call reads the ranks 0 to 3 and returns the ids 8 and 7, where the ranks
2^64 to 2^64 + 3 the claim names hold no entry; the first page returns the same
ids, so these two pages are not disjoint. -/
theorem GetHotPostIDsFromCache_far_page :
    GetHotPostIDsFromCache demoWorld.hotList none demoFarPage 4 = .ok [8, 7] ∧
    (demoWorld.hotList.ranking.drop ((demoFarPage - 1) * 4).toNat).take 4 = [] ∧
    GetHotPostIDsFromCache demoWorld.hotList none 1 4 = .ok [8, 7] ∧
    1 ≤ demoFarPage := by
  refine ⟨by rfl, ?_, by rfl, by decide⟩
  have hlen : demoWorld.hotList.ranking.length = 2 := by rfl
  rw [List.drop_eq_nil_of_le, List.take_nil]
  rw [hlen]
  decide

/-- C21, amended: let every member of the ranking set be the decimal text of a
post id in the range of `int32`, as `UpdateHotListScore` and `ColdStartHotList`
store it, each member once, and let `pageSize >= 1`.  For every `page >= 1` with
`page * pageSize <= 2^63`, so that the arithmetic of `int` does not wrap,
`GetHotPostIDsFromCache` returns the ids whose texts are the members at the
ranks `(page-1)*pageSize` to `page*pageSize - 1` of the descending order, in
that order, fewer or none when the set is exhausted.  Two different pages in
that range share no id, the pages 1 to `n` put one after the other are the first
`n * pageSize` ranks, and the whole ranking once these cover the set.  When
`ZRevRange` fails its error is returned. -/
theorem GetHotPostIDsFromCache_pages (z : ZSet) (pageSize : Int) (hs : 1 ≤ pageSize)
    (hmem : ∀ e ∈ z, ∃ id : Int, -2147483648 ≤ id ∧ id ≤ 2147483647 ∧ e.1 = Itoa id)
    (hset : (z.map Prod.fst).Nodup) :
    (∀ page : Int, 1 ≤ page → page * pageSize ≤ 9223372036854775808 →
      GetHotPostIDsFromCache z none page pageSize = .ok (hotPage z page pageSize) ∧
      (hotPage z page pageSize).map Itoa
        = (z.ranking.drop ((page - 1).toNat * pageSize.toNat)).take pageSize.toNat) ∧
    (∀ p q : Int, 1 ≤ p → p < q → q * pageSize ≤ 9223372036854775808 →
      List.Disjoint (hotPage z p pageSize) (hotPage z q pageSize)) ∧
    (∀ n : Nat, (n : Int) * pageSize ≤ 9223372036854775808 →
      (((List.range n).map (fun (k : Nat) => hotPage z ((k : Int) + 1) pageSize)).flatten).map Itoa
        = z.ranking.take (n * pageSize.toNat)) ∧
    (∀ n : Nat, (n : Int) * pageSize ≤ 9223372036854775808 →
      z.ranking.length ≤ n * pageSize.toNat →
      (((List.range n).map (fun (k : Nat) => hotPage z ((k : Int) + 1) pageSize)).flatten).map Itoa
        = z.ranking) ∧
    (∀ (page : Int) (msg : String),
      GetHotPostIDsFromCache z (some msg) page pageSize = .error (Error.other msg)) := by
  have hR : z.ranking.Nodup := (ranking_perm z).nodup_iff.mpr hset
  have hjoin : ∀ n : Nat, (n : Int) * pageSize ≤ 9223372036854775808 →
      (((List.range n).map (fun (k : Nat) => hotPage z ((k : Int) + 1) pageSize)).flatten).map Itoa
        = z.ranking.take (n * pageSize.toNat) := by
    intro n hn
    rw [List.map_flatten, List.map_map, ← segments_join z.ranking pageSize.toNat n]
    congr 1
    apply List.map_congr_left
    intro k hk
    have hk2 : k < n := List.mem_range.mp hk
    have hb : ((k : Int) + 1) * pageSize ≤ 9223372036854775808 := by
      have : ((k : Int) + 1) * pageSize ≤ (n : Int) * pageSize :=
        Int.mul_le_mul_of_nonneg_right (by omega) (by omega)
      omega
    have h := (hotPage_map_Itoa z ((k : Int) + 1) pageSize (by omega) hs hb hmem).2
    simp only [Function.comp]
    rw [h]
    congr 2
    simp
  refine ⟨fun page hp hb => hotPage_map_Itoa z page pageSize hp hs hb hmem, ?_, hjoin, ?_, ?_⟩
  · intro p q hp hpq hb x hx1 hx2
    have hbp : p * pageSize ≤ 9223372036854775808 := by
      have : p * pageSize ≤ q * pageSize :=
        Int.mul_le_mul_of_nonneg_right (by omega) (by omega)
      omega
    have h1 := (hotPage_map_Itoa z p pageSize hp hs hbp hmem).2
    have h2 := (hotPage_map_Itoa z q pageSize (by omega) hs hb hmem).2
    have hm1 : Itoa x ∈ (hotPage z p pageSize).map Itoa := List.mem_map_of_mem Itoa hx1
    have hm2 : Itoa x ∈ (hotPage z q pageSize).map Itoa := List.mem_map_of_mem Itoa hx2
    rw [h1] at hm1
    rw [h2] at hm2
    exact segments_disjoint z.ranking hR pageSize.toNat (p - 1).toNat (q - 1).toNat
      (by omega) hm1 hm2
  · intro n hn hlen
    rw [hjoin n hn, List.take_of_length_le hlen]
  · intro page msg
    rfl

/-- Witness of C21: the ranking set of posts 8 and 7 read in pages of one id:
page 2 returns no id of page 1. -/
theorem GetHotPostIDsFromCache_pages_witness :
    List.Disjoint (hotPage demoWorld.hotList 1 1) (hotPage demoWorld.hotList 2 1) :=
  (GetHotPostIDsFromCache_pages demoWorld.hotList 1 (by decide)
    (fun e he => by
      rcases List.mem_cons.mp he with rfl | he2
      · exact ⟨8, by decide, by decide, rfl⟩
      · rcases List.mem_cons.mp he2 with rfl | he3
        · exact ⟨7, by decide, by decide, rfl⟩
        · cases he3)
    (by decide)).2.1 1 2 (by decide) (by decide) (by decide)

/-! ## The batch read: the cache it leaves -/

theorem Cache.lookup_eq_item (c : Cache) (key : String) :
    c.lookup key = (c.item key).map CacheItem.Value := rfl

theorem Cache.item_store_self (c : Cache) (it : CacheItem) :
    (c.store it).item it.Key = some it := by
  simp [Cache.item, Cache.store]

theorem Cache.item_store_ne (c : Cache) (it : CacheItem) (j : String) (h : j ≠ it.Key) :
    (c.store it).item j = c.item j := by
  have h2 : ¬ it.Key = j := fun e => h e.symm
  unfold Cache.item Cache.store
  rw [List.find?_cons_of_neg _ (by simpa using h2), find?_filter_ne CacheItem.Key, if_neg h]

theorem mergeStep_item (posts : List Post) (now : Time) (commentsMap : GoMap (List Comment))
    (setReply : String → Reply) (st : Merge) (q : Int) (k : String) :
    (mergeStep posts now commentsMap setReply st q).cache.item k =
      if "pid" ++ Itoa q = k ∧ shouldCache posts now q = true ∧
          setReply ("pid" ++ Itoa q) = none
      then some (itemFor commentsMap q) else st.cache.item k := by
  rw [mergeStep_eq]
  simp only
  by_cases hs : shouldCache posts now q = true
  · rw [if_pos hs]
    cases hr : setReply ("pid" ++ Itoa q) with
    | some msg =>
      rw [if_neg (by simp)]
      rfl
    | none =>
      by_cases hk : "pid" ++ Itoa q = k
      · rw [if_pos ⟨hk, hs, rfl⟩, ← hk]
        exact Cache.item_store_self _ (itemFor commentsMap q)
      · rw [if_neg (fun h => hk h.1)]
        exact Cache.item_store_ne _ (itemFor commentsMap q) k (fun e => hk e.symm)
  · rw [if_neg hs, if_neg (fun h => hs h.2.1)]

theorem merge_item (posts : List Post) (now : Time) (commentsMap : GoMap (List Comment))
    (setReply : String → Reply) (pids : List Int) :
    ∀ st : Merge,
      (∀ pid0 : Int,
        (pids.foldl (mergeStep posts now commentsMap setReply) st).cache.item
            ("pid" ++ Itoa pid0) =
          if pid0 ∈ pids ∧ shouldCache posts now pid0 = true ∧
              setReply ("pid" ++ Itoa pid0) = none
          then some (itemFor commentsMap pid0) else st.cache.item ("pid" ++ Itoa pid0)) ∧
      (∀ k : String, (∀ pid ∈ pids, "pid" ++ Itoa pid ≠ k) →
        (pids.foldl (mergeStep posts now commentsMap setReply) st).cache.item k
          = st.cache.item k) := by
  induction pids with
  | nil =>
    intro st
    exact ⟨fun pid0 => by simp, fun k _ => rfl⟩
  | cons q qs ih =>
    intro st
    rw [List.foldl_cons]
    obtain ⟨h1, h2⟩ := ih (mergeStep posts now commentsMap setReply st q)
    refine ⟨?_, ?_⟩
    · intro pid0
      rw [h1 pid0, mergeStep_item]
      by_cases he : q = pid0
      · subst he
        by_cases hq : q ∈ qs <;>
          by_cases hc : (shouldCache posts now q = true ∧
            setReply ("pid" ++ Itoa q) = none) <;> simp [hq, hc]
      · have hk : ¬ ("pid" ++ Itoa q = "pid" ++ Itoa pid0 ∧ shouldCache posts now q = true ∧
            setReply ("pid" ++ Itoa q) = none) :=
          fun h => he (pidKey_injective _ _ h.1)
        have hm : pid0 ∈ q :: qs ↔ pid0 ∈ qs := by
          rw [List.mem_cons]
          constructor
          · rintro (h | h)
            · exact absurd h.symm he
            · exact h
          · exact Or.inr
        rw [if_neg hk]
        simp only [hm]
    · intro k hk
      rw [h2 k (fun pid hpid => hk pid (List.mem_cons_of_mem _ hpid)), mergeStep_item,
        if_neg (fun h => hk q (List.mem_cons_self _ _) h.1)]

theorem batch_item (db : Db) (cache : Cache) (getReply : String → Reply)
    (queryReply : Reply) (setReply : String → Reply) (posts : List Post) (now : Time)
    (rtn : GoMap (List Comment))
    (hok : (GetMultipleCommentsWithCache db cache getReply queryReply setReply posts now).result
      = .ok rtn) :
    (∀ pid0 : Int,
      (GetMultipleCommentsWithCache db cache getReply queryReply setReply posts now).cache.item
          ("pid" ++ Itoa pid0) =
        if pid0 ∈ idsToQuery cache getReply now posts ∧ shouldCache posts now pid0 = true ∧
            setReply ("pid" ++ Itoa pid0) = none
        then some (itemFor (groupByPost
          (GetMultipleComments db none (idsToQuery cache getReply now posts)).1) pid0)
        else cache.item ("pid" ++ Itoa pid0)) ∧
    (∀ k : String, (∀ pid ∈ idsToQuery cache getReply now posts, "pid" ++ Itoa pid ≠ k) →
      (GetMultipleCommentsWithCache db cache getReply queryReply setReply posts now).cache.item k
        = cache.item k) := by
  unfold GetMultipleCommentsWithCache at hok ⊢
  simp only [batch_noCache] at hok ⊢
  by_cases hnil : idsToQuery cache getReply now posts = []
  · simp [hnil]
  · have hpos : (idsToQuery cache getReply now posts).length > 0 :=
      List.length_pos.mpr hnil
    simp only [hpos, if_true] at hok ⊢
    cases queryReply with
    | some msg => simp [GetMultipleComments] at hok
    | none =>
      simp only [GetMultipleComments]
      exact merge_item posts now _ setReply _ _

theorem isEligibleHit_congr (cache : Cache) (getReply : String → Reply) (now : Time)
    (p q : Post) (hid : p.ID = q.ID) (hc : p.CreatedAt = q.CreatedAt) :
    isEligibleHit cache getReply now p = isEligibleHit cache getReply now q := by
  unfold isEligibleHit
  rw [NeedCacheComment_congr p q now hc, hid]

/-! ## The batch read: C4 and C6 on the state of the cache -/

/-- C4, counterexample: post 2 has no comment in the system of record, and the
cache holds a list with one comment under its key.  Post 2 is cache-eligible,
so the batch read answers it from the cache: the returned map gives post 2 that
one comment, not the empty sequence. -/
theorem GetMultipleCommentsWithCache_ghost_comment :
    (GetMultipleCommentsWithCache demoDb demoGhostCache (fun _ => none) none (fun _ => none)
      demoPosts demoNow).result = .ok demoGhostRtn ∧
    demoGhostRtn.get 2 = some [demoComment 99 2 "ghost"] ∧
    demoPostOn 2 397 ∈ demoPosts ∧
    (∀ c ∈ demoDb.comments, c.PostID ≠ 2) :=
  ⟨rfl, rfl, by decide, by decide⟩

/-- C6, counterexample: the list holds two posts with the id 2, the first two
days old and the second 399 days old, and the cache is empty.  The first post
is cache-eligible and misses the cache, but the loop that writes looks the id up
in a map that keeps the last post of an id, which is not eligible: no `Set` is
sent and the cache stays empty. -/
theorem GetMultipleCommentsWithCache_twins_not_written :
    demoPostOn 2 398 ∈ demoTwins ∧
    isEligibleMiss [] (fun _ => none) demoNow (demoPostOn 2 398) = true ∧
    (GetMultipleCommentsWithCache demoDb [] (fun _ => none) none (fun _ => none)
      demoTwins demoNow).result = .ok [(2, [])] ∧
    (GetMultipleCommentsWithCache demoDb [] (fun _ => none) none (fun _ => none)
      demoTwins demoNow).sets = [] ∧
    (GetMultipleCommentsWithCache demoDb [] (fun _ => none) none (fun _ => none)
      demoTwins demoNow).cache = [] :=
  ⟨by decide, by decide, rfl, rfl, rfl⟩

/-- C6, amended: in a list where posts of one id are one post (same creation
time), a successful `GetMultipleCommentsWithCache` sends a cache `Set` for a
requested post exactly when the post is cache-eligible and missed the cache;
every item set is keyed by such a post, holds the sequence returned for it and
has a time to live of five hours.  When the store carries the `Set` out, the
cache then holds under the key of the post exactly that item; when the store
refuses it, the cache holds under the key what it held before.  Under the key
of a requested post that is ineligible or was answered from the cache, and
under every key that is not the key of a requested post, the cache holds what
it held before. -/
theorem GetMultipleCommentsWithCache_cache_writes (db : Db) (cache : Cache)
    (getReply : String → Reply) (queryReply : Reply) (setReply : String → Reply)
    (posts : List Post) (now : Time) (rtn : GoMap (List Comment))
    (hsame : ∀ p ∈ posts, ∀ q ∈ posts, p.ID = q.ID → p.CreatedAt = q.CreatedAt)
    (hok : (GetMultipleCommentsWithCache db cache getReply queryReply setReply posts now).result
      = .ok rtn) :
    (∀ p ∈ posts,
      (∃ it ∈ (GetMultipleCommentsWithCache db cache getReply queryReply setReply
          posts now).sets, it.Key = "pid" ++ Itoa p.ID) ↔
        isEligibleMiss cache getReply now p = true) ∧
    (∀ it ∈ (GetMultipleCommentsWithCache db cache getReply queryReply setReply
        posts now).sets,
      ∃ p ∈ posts, it.Key = "pid" ++ Itoa p.ID ∧ isEligibleMiss cache getReply now p = true ∧
        rtn.get p.ID = some it.Value ∧ it.TTL = 5 * 3600 * 1000000000) ∧
    (∀ p ∈ posts, isEligibleMiss cache getReply now p = true →
      setReply ("pid" ++ Itoa p.ID) = none →
      ∃ v : List Comment, rtn.get p.ID = some v ∧
        (GetMultipleCommentsWithCache db cache getReply queryReply setReply
          posts now).cache.item ("pid" ++ Itoa p.ID)
          = some { Key := "pid" ++ Itoa p.ID, Value := v, TTL := 5 * 3600 * 1000000000 } ∧
        (GetMultipleCommentsWithCache db cache getReply queryReply setReply
          posts now).cache.lookup ("pid" ++ Itoa p.ID) = some v) ∧
    (∀ p ∈ posts, isEligibleMiss cache getReply now p = true →
      setReply ("pid" ++ Itoa p.ID) ≠ none →
      (GetMultipleCommentsWithCache db cache getReply queryReply setReply
        posts now).cache.item ("pid" ++ Itoa p.ID) = cache.item ("pid" ++ Itoa p.ID)) ∧
    (∀ p ∈ posts, isEligibleMiss cache getReply now p = false →
      (GetMultipleCommentsWithCache db cache getReply queryReply setReply
        posts now).cache.item ("pid" ++ Itoa p.ID) = cache.item ("pid" ++ Itoa p.ID)) ∧
    (∀ k : String, (∀ p ∈ posts, k ≠ "pid" ++ Itoa p.ID) →
      (GetMultipleCommentsWithCache db cache getReply queryReply setReply
        posts now).cache.item k = cache.item k) := by
  obtain ⟨hsets1, hsets2⟩ :=
    batch_sets_spec db cache getReply queryReply setReply posts now rtn hsame hok
  obtain ⟨hitem, hframe⟩ := batch_item db cache getReply queryReply setReply posts now rtn hok
  have hget := batch_get db cache getReply queryReply setReply posts now rtn hok
  refine ⟨hsets1, hsets2, ?_, ?_, ?_, ?_⟩
  · intro p hp hmiss hset
    obtain ⟨hnohit, helig⟩ := not_hit_of_miss cache getReply now p hmiss
    have hmem : p.ID ∈ idsToQuery cache getReply now posts :=
      (mem_idsToQuery cache getReply now posts p.ID).mpr ⟨p, hp, hnohit, rfl⟩
    have hshould : shouldCache posts now p.ID = true := by
      rw [shouldCache_of_mem posts now hsame p hp]
      exact helig
    have hit := hitem p.ID
    rw [if_pos ⟨hmem, hshould, hset⟩] at hit
    refine ⟨(GetMultipleComments db none (idsToQuery cache getReply now posts)).1.filter
      (fun c => c.PostID = p.ID), ?_, ?_, ?_⟩
    · rw [hget p.ID, if_pos hmem]
    · rw [hit]
      simp only [itemFor, commentsOf_groupByPost]
      rfl
    · rw [Cache.lookup_eq_item, hit]
      simp only [itemFor, commentsOf_groupByPost, Option.map_some']
  · intro p hp hmiss hset
    have hit := hitem p.ID
    rw [if_neg (fun h => hset h.2.2)] at hit
    exact hit
  · intro p hp hmiss
    have hit := hitem p.ID
    rw [if_neg] at hit
    · exact hit
    · rintro ⟨hmem, hshould, _⟩
      rw [shouldCache_of_mem posts now hsame p hp] at hshould
      obtain ⟨q, hq, hqnohit, hqid⟩ := (mem_idsToQuery cache getReply now posts p.ID).mp hmem
      have hpnohit : isEligibleHit cache getReply now p = false := by
        rw [← isEligibleHit_congr cache getReply now q p hqid (hsame q hq p hp hqid)]
        exact hqnohit
      have := miss_of_not_hit cache getReply now p hpnohit hshould
      rw [hmiss] at this
      cases this
  · intro k hk
    apply hframe k
    intro pid hpid heq
    obtain ⟨p, hp, _, hid⟩ := (mem_idsToQuery cache getReply now posts pid).mp hpid
    exact hk p hp (by rw [hid, heq])

/-- Witness of C6: in the scenario the cache holds, after the read, the returned
sequence of post 2, the eligible miss. -/
theorem GetMultipleCommentsWithCache_cache_writes_witness :
    ∃ v : List Comment, demoRtn.get 2 = some v ∧
      (GetMultipleCommentsWithCache demoDb demoCache (fun _ => none) none (fun _ => none)
        demoPosts demoNow).cache.lookup ("pid" ++ Itoa 2) = some v :=
  ((GetMultipleCommentsWithCache_cache_writes demoDb demoCache (fun _ => none) none
    (fun _ => none) demoPosts demoNow demoRtn (by decide) rfl).2.2.1
      (demoPostOn 2 397) (by decide) rfl rfl).imp (fun _ h => ⟨h.1, h.2.2⟩)

end Luxhole
